import Mathlib

/-!
# JobApplyAI: answer resolution, conversation session and fit score

A shallow embedding of `src/background/background.js`: the answer-resolution
chain (`getSmartAnswer`, `checkQuestionCache`, `checkProfileForAnswer`,
`checkResumeForAnswer`, `saveToQuestionCache`, `calculateSimilarity`,
`levenshteinDistance`), the conversation session (`initializeConversation`,
`addToConversation`, `clearConversation`), the response parser and the model
selection of `analyzeJobFit`, the learned patterns (`learnFieldPattern`,
`findLearnedPattern`) and the activity log, and of
`src/background/services/ollamaService.js` (`generate`, `chat`, `listModels`),
with theorems about them.

Conventions of the embedding.

* A JavaScript string is the list of its code units (`JSString`); a `Char`
  stands for one UTF-16 code unit, which is exact for text of the Basic
  Multilingual Plane.  No general theorem depends on what the code units are.
* `String.prototype.toLowerCase` depends on the Unicode case tables of the
  JavaScript runtime.  Every definition that calls it takes the case mapping
  as its first argument `toLowerCase`, so general theorems hold for whatever
  mapping the runtime uses.  Concrete evaluations use `asciiLower`, which
  agrees with the runtime on ASCII text.
* `storageService.get(key) || []` is the list argument `cache`; the profile
  and preference records are arguments as well.  `async`/`await` is
  sequential within one call and is dropped.
* Timestamps (`new Date().toISOString()`, read back with `new Date(..)`) are
  integers: milliseconds since the epoch.
* The module variables `currentConversation` and `conversationHistory` are the
  fields of an explicit state that every conversation function takes and
  returns.
* Calls into the inference service are arguments: the outcome of the
  availability probe and the outcome of the chat call, which is either the
  text of the answer or the message of the error that was thrown.
* The gateway operations of `OllamaService` are functions of what `fetch`
  gives them (`FetchOutcome`): a rejection, or a response with its status, its
  text and its parsed body.  The value `undefined` is `none`.
* The effect of a function on `chrome.storage.local` is a function from
  `Storage` to `Storage` on the keys `questionCache`, `learningData` and
  `activityFeed`.
* The regular expressions of the parser are values of `Regex`, run by a
  backtracking matcher that follows the matching order of ECMAScript.
* `calculateSimilarity` divides two string lengths (integers below `2 ^ 30`)
  and compares the quotient with `0.8`.  For such operands the double
  comparison `a / n > 0.8` holds exactly when `a / n > 4 / 5` holds over the
  rationals: a quotient of at most `4 / 5` rounds to at most the literal
  `0.8`, and a larger one exceeds `4 / 5` by at least `1 / (5 * n)`, far more
  than the spacing `2 ^ (-53)` of doubles near `0.8`.  The embedding therefore
  computes over `ℚ`.
-/

namespace JobApplyAI

/-! ## Strings -/

/-- A JavaScript string, as the list of its code units. -/
abbrev JSString := List Char

/-- The characters removed by `String.prototype.trim`: ECMAScript `WhiteSpace`
and `LineTerminator`. -/
def isWhiteSpace (c : Char) : Bool :=
  let n := c.toNat
  n = 0x09 || n = 0x0A || n = 0x0B || n = 0x0C || n = 0x0D || n = 0x20 || n = 0xA0 ||
  n = 0x1680 || (0x2000 ≤ n && n ≤ 0x200A) || n = 0x2028 || n = 0x2029 || n = 0x202F ||
  n = 0x205F || n = 0x3000 || n = 0xFEFF

/-- The method `s.trim()`: white space removed at both ends. -/
def trim (s : JSString) : JSString :=
  ((s.dropWhile isWhiteSpace).reverse.dropWhile isWhiteSpace).reverse

/-- The method `s.includes(t)`: `t` occurs in `s` as a contiguous substring. -/
def includes (s t : JSString) : Bool :=
  s.tails.any fun u => t.isPrefixOf u

/-- The lower-casing of ASCII text: `A`..`Z` are mapped to `a`..`z`, every
other character is kept. -/
def asciiLower (s : JSString) : JSString :=
  s.map Char.toLower

/-- JavaScript truthiness of a value that is a string, `null` or `undefined`:
only a non-empty string is truthy. -/
def truthy : Option JSString → Bool
  | some (_ :: _) => true
  | _ => false

/-! ## Levenshtein distance and similarity -/

/-- The inner loop of `levenshteinDistance` for one row `i`: the cells
`matrix[i][j]` for the remaining characters `str1[j-1], ...`, given the cells
`matrix[i-1][j-1], matrix[i-1][j], ...` of the row above and the cell
`matrix[i][j-1]` to the left. -/
def fillRow (c2 : Char) : List Char → List Nat → Nat → List Nat
  | c1 :: cs, diag :: up :: above, left =>
    let cell := if c2 = c1 then diag else min (diag + 1) (min (left + 1) (up + 1))
    cell :: fillRow c2 cs (up :: above) cell
  | _, _, _ => []

/-- Row `i` of the matrix: `matrix[i][0] = i`, followed by the inner loop. -/
def nextRow (str1 : JSString) (above : List Nat) (i : Nat) (c2 : Char) : List Nat :=
  i :: fillRow c2 str1 above i

/-- The rows of the matrix below row 0, computed one character of `str2` at a
time; the result is the last row, `matrix[str2.length]`. -/
def lastRow (str1 : JSString) : List Char → List Nat → Nat → List Nat
  | [], above, _ => above
  | c2 :: rest, above, i => lastRow str1 rest (nextRow str1 above (i + 1) c2) (i + 1)

/-- The function `levenshteinDistance(str1, str2)`: the full matrix of
prefix distances, filled row by row; returns `matrix[str2.length][str1.length]`. -/
def levenshteinDistance (str1 str2 : JSString) : Nat :=
  (lastRow str1 str2 (List.range (str1.length + 1)) 0).getD str1.length 0

/-- The function `calculateSimilarity(str1, str2)`. -/
def calculateSimilarity (str1 str2 : JSString) : ℚ :=
  let longer := if str1.length > str2.length then str1 else str2
  let shorter := if str1.length > str2.length then str2 else str1
  if longer.length = 0 then 1
  else
    let editDistance := levenshteinDistance longer shorter
    ((longer.length : ℚ) - (editDistance : ℚ)) / (longer.length : ℚ)

/-- The Levenshtein recurrence on two strings, consuming both from the front:
the distance to the empty string is the length, equal heads cost nothing, and
otherwise the cheapest of substitution, insertion and deletion is taken. It is
the value that cell `matrix[i][j]` holds for the reversed prefixes of length
`i` of `str2` and `j` of `str1`. -/
def levRec : List Char → List Char → Nat
  | [], ys => ys.length
  | x :: xs, [] => (x :: xs).length
  | x :: xs, y :: ys =>
    if x = y then levRec xs ys
    else min (levRec xs ys + 1) (min (levRec (x :: xs) ys + 1) (levRec xs (y :: ys) + 1))
termination_by xs ys => xs.length + ys.length

/-- The cells to the right of column `j` in the matrix row that belongs to the
reversed prefix `p` of `str2`: `q` is the reversed prefix of `str1` of length
`j`, and `cs` are the remaining characters of `str1`. -/
def rowTail (p : List Char) : List Char → List Char → List Nat
  | _, [] => []
  | q, c :: cs => levRec p (c :: q) :: rowTail p (c :: q) cs

/-- The test `calculateSimilarity(str1, str2) > 0.8` in integer arithmetic:
`(n - d) / n > 4 / 5` exactly when `5 * d < n`, and the similarity of two
empty strings is 1. Used to evaluate the test on concrete strings. -/
def similarityAbove (str1 str2 : JSString) : Bool :=
  let longer := if str1.length > str2.length then str1 else str2
  let shorter := if str1.length > str2.length then str2 else str1
  longer.length = 0 || 5 * levenshteinDistance longer shorter < longer.length

/-! ## Question cache -/

/-- A `questionCache` entry. -/
structure QuestionCacheEntry where
  question : JSString
  answer : JSString
  addedAt : Int
  lastUsed : Int
  useCount : Nat
  deriving DecidableEq, Repr

section CaseMapping

variable (toLowerCase : JSString → JSString)

/-- The predicate passed to `cache.find` in `checkQuestionCache`. -/
def cacheMatch (normalized : JSString) (item : QuestionCacheEntry) : Bool :=
  let cachedQ := trim (toLowerCase item.question)
  cachedQ == normalized ||
    includes cachedQ normalized ||
    includes normalized cachedQ ||
    decide (calculateSimilarity cachedQ normalized > 8 / 10)

/-- The function `checkQuestionCache(question)` on the stored list `cache`:
`none` is `null`. -/
def checkQuestionCache (cache : List QuestionCacheEntry) (question : JSString) :
    Option JSString :=
  let normalized := trim (toLowerCase question)
  match cache.find? (cacheMatch toLowerCase normalized) with
  | some item => some item.answer
  | none => none

/-- The `userProfile` record; a missing key (`undefined`) is `none`. -/
structure UserProfile where
  fullName : Option JSString := none
  firstName : Option JSString := none
  lastName : Option JSString := none
  email : Option JSString := none
  phone : Option JSString := none
  location : Option JSString := none
  linkedIn : Option JSString := none

/-- The `userPreferences` record; a missing key (`undefined`) is `none`. -/
structure UserPreferences where
  veteranStatus : Option JSString := none
  disabilityStatus : Option JSString := none
  securityClearance : Option JSString := none
  requiresSponsorship : Option JSString := none
  workAuthorization : Option JSString := none
  noticePeriod : Option JSString := none
  availableStartDate : Option JSString := none
  willingToRelocate : Option JSString := none
  willingToTravel : Option JSString := none
  salaryExpectation : Option JSString := none

/-- The field descriptor handed over by the form scanner. -/
structure FieldDescriptor where
  type : JSString := []
  label : JSString := []
  name : JSString := []
  placeholder : JSString := []

/-- The object literal `mappings` of `checkProfileForAnswer`, as the list
`Object.entries(mappings)`: the keys are not integer-like, so the entries come
in the order in which the literal declares them. -/
def mappings (profile : UserProfile) (preferences : UserPreferences) :
    List (JSString × Option JSString) :=
  [ ("legal name".toList, profile.fullName),
    ("name".toList, profile.fullName),
    ("veteran".toList, preferences.veteranStatus),
    ("military".toList, preferences.veteranStatus),
    ("disability".toList, preferences.disabilityStatus),
    ("disabled".toList, preferences.disabilityStatus),
    ("security clearance".toList, preferences.securityClearance),
    ("clearance".toList, preferences.securityClearance),
    ("sponsorship".toList, preferences.requiresSponsorship),
    ("visa".toList, preferences.requiresSponsorship),
    ("work authorization".toList, preferences.workAuthorization),
    ("authorized to work".toList, preferences.workAuthorization),
    ("notice period".toList, preferences.noticePeriod),
    ("available to start".toList, preferences.availableStartDate),
    ("start date".toList, preferences.availableStartDate),
    ("relocate".toList, preferences.willingToRelocate),
    ("relocation".toList, preferences.willingToRelocate),
    ("travel".toList, preferences.willingToTravel),
    ("salary".toList, preferences.salaryExpectation),
    ("compensation".toList, preferences.salaryExpectation),
    ("first name".toList, profile.firstName),
    ("last name".toList, profile.lastName),
    ("full name".toList, profile.fullName),
    ("email".toList, profile.email),
    ("phone".toList, profile.phone),
    ("address".toList, profile.location),
    ("city".toList, profile.location.map fun l => l.takeWhile fun c => c != ','),
    ("linkedin".toList, profile.linkedIn) ]

/-- The test `normalized.includes(key) && value` of the loop in
`checkProfileForAnswer`. -/
def mappingHit (normalized : JSString) (entry : JSString × Option JSString) : Bool :=
  includes normalized entry.1 && truthy entry.2

/-- The function `checkProfileForAnswer(question, field)`: `none` is `null`. -/
def checkProfileForAnswer (profile : UserProfile) (preferences : UserPreferences)
    (question : JSString) (_field : FieldDescriptor) : Option JSString :=
  let normalized := toLowerCase question
  match (mappings profile preferences).find? (mappingHit normalized) with
  | some entry => entry.2
  | none => none

/-- A pair of the keyword mapping qualifies for a lower-cased question when its
keyword is a substring of the question and its mapped value is a non-empty
string. -/
def Qualifies (normalized : JSString) (entry : JSString × Option JSString) : Prop :=
  entry.1 <:+: normalized ∧ ∃ v, entry.2 = some v ∧ v ≠ []

/-- The function `checkResumeForAnswer(question, field)`. The argument
`resumeText` is the outcome of fetching the resume text, `none` when the
fetch throws (the `catch` branch). -/
def checkResumeForAnswer (resumeText : Option JSString) (_question : JSString)
    (field : FieldDescriptor) : Option JSString :=
  match resumeText with
  | none => none
  | some _ =>
    if field.type = "radio".toList ∨ field.type = "checkbox".toList then none
    else none

/-- The function `askAIForAnswer(question, field)`, reduced to its outcome:
`chatResult` is what `ollamaService.chat` produced, `Except.error` when the
call (or anything else inside the `try`) throws. -/
def askAIForAnswer (chatResult : Except JSString JSString) : Option JSString :=
  match chatResult with
  | .ok result => some (trim result)
  | .error _ => none

/-- The `source` tag of a resolved answer. -/
inductive Source where
  | cache | profile | resume | ai
  deriving DecidableEq, Repr

/-- The `confidence` tag of a resolved answer. -/
inductive Confidence where
  | high | medium | low
  deriving DecidableEq, Repr

/-- The object returned by `getSmartAnswer`. -/
structure SmartAnswer where
  value : Option JSString
  source : Source
  confidence : Confidence
  deriving DecidableEq, Repr

/-- The function `getSmartAnswer(question, field)`. The stored cache, profile
and preferences, the outcome of the resume fetch and the outcome of the chat
call are arguments. -/
def getSmartAnswer (cache : List QuestionCacheEntry) (profile : UserProfile)
    (preferences : UserPreferences) (resumeText : Option JSString)
    (chatResult : Except JSString JSString) (question : JSString)
    (field : FieldDescriptor) : SmartAnswer :=
  let cachedAnswer := checkQuestionCache toLowerCase cache question
  if truthy cachedAnswer then
    { value := cachedAnswer, source := .cache, confidence := .high }
  else
    let profileAnswer := checkProfileForAnswer toLowerCase profile preferences question field
    if truthy profileAnswer then
      { value := profileAnswer, source := .profile, confidence := .high }
    else
      let resumeAnswer := checkResumeForAnswer resumeText question field
      if truthy resumeAnswer then
        { value := resumeAnswer, source := .resume, confidence := .medium }
      else
        { value := askAIForAnswer chatResult, source := .ai, confidence := .medium }

/-- The comparator of the eviction sort, `new Date(b.lastUsed) - new Date(a.lastUsed)`,
as the order it induces: `a` may stand before `b` when `a` was used no earlier. -/
def usedNoEarlier (a b : QuestionCacheEntry) : Prop :=
  b.lastUsed ≤ a.lastUsed

instance usedNoEarlier.decidableRel : DecidableRel usedNoEarlier :=
  fun a b => inferInstanceAs (Decidable (b.lastUsed ≤ a.lastUsed))

instance usedNoEarlier.isTotal : IsTotal QuestionCacheEntry usedNoEarlier :=
  ⟨fun a b => le_total b.lastUsed a.lastUsed⟩

instance usedNoEarlier.isTrans : IsTrans QuestionCacheEntry usedNoEarlier :=
  ⟨fun _ _ _ hab hbc => le_trans hbc hab⟩

/-- The update of an existing entry in `saveToQuestionCache`. -/
def bumpEntry (answer : JSString) (now : Int) (item : QuestionCacheEntry) :
    QuestionCacheEntry :=
  { item with
    answer := answer
    lastUsed := now
    useCount := (if item.useCount = 0 then 1 else item.useCount) + 1 }

/-- The cap enforcement at the end of `saveToQuestionCache`:
`Array.prototype.sort` is stable, so it is the stable sort by `lastUsed`
descending, followed by the truncation `cache.length = 100`. -/
def enforceCap (cache : List QuestionCacheEntry) : List QuestionCacheEntry :=
  if cache.length > 100 then (cache.insertionSort usedNoEarlier).take 100 else cache

/-- The list held by `cache` in `saveToQuestionCache` right before the cap is
enforced. The two clock readings of the call are `now₁` and `now₂`: the update
branch reads the clock once, the push branch twice (`addedAt`, `lastUsed`). -/
def upsert (cache : List QuestionCacheEntry) (question answer : JSString)
    (now₁ now₂ : Int) : List QuestionCacheEntry :=
  match cache.findIdx? fun item => toLowerCase item.question == toLowerCase question with
  | some existingIndex => cache.modify (bumpEntry answer now₁) existingIndex
  | none =>
    cache ++ [{ question := question, answer := answer, addedAt := now₁,
                lastUsed := now₂, useCount := 1 }]

/-- The function `saveToQuestionCache(question, answer)`: the list written
back to storage. -/
def saveToQuestionCache (cache : List QuestionCacheEntry) (question answer : JSString)
    (now₁ now₂ : Int) : List QuestionCacheEntry :=
  enforceCap (upsert toLowerCase cache question answer now₁ now₂)

/-- The entry that a call `saveToQuestionCache(question, answer)` writes: the
updated first entry whose question equals `question` ignoring case, or else the
pushed entry. -/
def storedEntry (cache : List QuestionCacheEntry) (question answer : JSString)
    (now₁ now₂ : Int) : QuestionCacheEntry :=
  match cache.find? fun item => toLowerCase item.question == toLowerCase question with
  | some item => bumpEntry answer now₁ item
  | none =>
    { question := question, answer := answer, addedAt := now₁, lastUsed := now₂,
      useCount := 1 }

/-- One `saveLearnedAnswer` request: question, answer and the two clock
readings of the call. -/
structure SaveCall where
  question : JSString
  answer : JSString
  now₁ : Int
  now₂ : Int

/-- A sequence of `saveToQuestionCache` calls, run one after the other on the
stored list. -/
def saveAll (cache : List QuestionCacheEntry) (calls : List SaveCall) :
    List QuestionCacheEntry :=
  calls.foldl (fun c call =>
    saveToQuestionCache toLowerCase c call.question call.answer call.now₁ call.now₂) cache

/-- The four matching rules of the cache lookup, stated on the normalized
query and one entry: equality, containment either way, similarity above 0.80. -/
def Matches (normalized : JSString) (item : QuestionCacheEntry) : Prop :=
  let cachedQ := trim (toLowerCase item.question)
  cachedQ = normalized ∨ normalized <:+: cachedQ ∨ cachedQ <:+: normalized ∨
    calculateSimilarity cachedQ normalized > 8 / 10

end CaseMapping

/-- The similarity of two strings as the specification words it:
`(max(len1, len2) - levenshtein) / max(len1, len2)`. -/
def editSimilarity (s t : JSString) : ℚ :=
  ((max s.length t.length : ℕ) - (levenshteinDistance s t : ℚ)) / (max s.length t.length : ℕ)

/-- A cache entry with the given question and answer, stored at time 0. -/
def entryAt0 (question answer : String) : QuestionCacheEntry :=
  { question := question.toList, answer := answer.toList, addedAt := 0, lastUsed := 0,
    useCount := 1 }

/-- A full cache: 100 entries with the questions `a`, `aa`, `aaa`, ..., all
last used at time 0. -/
def fullCache : List QuestionCacheEntry :=
  (List.range 100).map fun i =>
    { question := List.replicate (i + 1) 'a', answer := "old".toList, addedAt := 0,
      lastUsed := 0, useCount := 1 }

/-! ## Conversation session -/

/-- The job context handed over by the page-content extractor. -/
structure JobContext where
  url : JSString := []
  title : JSString := []
  jobTitle : JSString := []
  company : JSString := []
  description : JSString := []
  location : JSString := []
  jobType : JSString := []
  workModel : JSString := []

/-- The record `currentConversation`. -/
structure ConversationSession where
  jobTitle : JSString
  company : JSString
  startedAt : Int
  url : JSString
  deriving DecidableEq, Repr

/-- One element `{role, content}` of `conversationHistory`. -/
structure ConversationMessage where
  role : JSString
  content : JSString
  deriving DecidableEq, Repr

/-- The two module variables `currentConversation` (`none` is `null`) and
`conversationHistory`. -/
structure ConversationState where
  currentConversation : Option ConversationSession
  conversationHistory : List ConversationMessage
  deriving DecidableEq, Repr

/-- The fixed text of the system prompt, up to the job title. -/
def systemPromptIntro : JSString :=
  ("You are a helpful assistant helping a job candidate fill out application forms. " ++
    "You have access to their resume and should provide honest, professional answers " ++
    "based on their experience. Keep responses concise and relevant to the questions " ++
    "asked. You're currently helping with an application for ").toList

/-- The system message that `initializeConversation` builds for a job. -/
def systemMessage (jobContext : JobContext) : ConversationMessage :=
  { role := "system".toList
    content :=
      systemPromptIntro ++ jobContext.jobTitle ++ " at ".toList ++ jobContext.company ++
        ".".toList }

/-- The function `initializeConversation(jobContext)`; `now` is the clock
reading stored in `startedAt`. The prior state is an argument to show that it
is not read. -/
def initializeConversation (_prior : ConversationState) (jobContext : JobContext)
    (now : Int) : ConversationState :=
  { currentConversation := some
      { jobTitle := jobContext.jobTitle, company := jobContext.company, startedAt := now,
        url := jobContext.url }
    conversationHistory := [systemMessage jobContext] }

/-- The method call `history.slice(-20)`: the last 20 elements, all of them
when there are fewer. -/
def sliceLast20 (history : List ConversationMessage) : List ConversationMessage :=
  history.drop (history.length - 20)

/-- The effect of `addToConversation(role, content)` on `conversationHistory`:
push, then, above 21 entries, keep entry 0 and the last 20. -/
def pushMessage (history : List ConversationMessage) (message : ConversationMessage) :
    List ConversationMessage :=
  let pushed := history ++ [message]
  if pushed.length > 21 then pushed.take 1 ++ sliceLast20 pushed else pushed

/-- The function `addToConversation(role, content)`. -/
def addToConversation (state : ConversationState) (role content : JSString) :
    ConversationState :=
  { state with
    conversationHistory := pushMessage state.conversationHistory
      { role := role, content := content } }

/-- The function `clearConversation()`. -/
def clearConversation (_state : ConversationState) : ConversationState :=
  { currentConversation := none, conversationHistory := [] }

/-- A sequence of `addToConversation` calls, given as the messages
`{role, content}` they append. -/
def addAll (state : ConversationState) (messages : List ConversationMessage) :
    ConversationState :=
  messages.foldl (fun s m => addToConversation s m.role m.content) state

/-- A conversation of 22 user messages with the contents ``, `x`, `xx`, ... -/
def sampleMessages : List ConversationMessage :=
  (List.range 22).map fun i => { role := "user".toList, content := List.replicate i 'x' }

/-! ## Regular expressions

The patterns of `analyzeJobFit` use literals, `\d`, `\s`, a bracket class,
greedy quantifiers on single characters, an optional group, alternation and one
capturing group. `Regex` holds that fragment and `Regex.run` is the
backtracking matcher of ECMAScript for it: a quantifier takes as many
characters as it can and gives them back one at a time, an alternation tries
its branches from left to right. -/

/-- A pattern element that matches one character. -/
inductive CharClass where
  | lit (c : Char)
  | digit
  | space
  | oneOf (cs : List Char)
  deriving DecidableEq, Repr

/-- Whether a character matches a one-character element. Under the flag `i`
an ASCII letter matches in both cases; `\d` is `[0-9]` and `\s` is the white
space that `trim` removes. -/
def CharClass.test (ignoreCase : Bool) : CharClass → Char → Bool
  | .lit c, x => if ignoreCase then x.toLower == c.toLower else x == c
  | .digit, x => x.isDigit
  | .space, x => isWhiteSpace x
  | .oneOf cs, x => cs.any fun c => if ignoreCase then x.toLower == c.toLower else x == c

/-- The fragment of regular expressions used by the parser. `rep c min max` is
a greedy quantifier on a one-character element (`c*`, `c+`, `c?`, `c{m,n}`;
`max = none` is unbounded), `opt r` is `(?:r)?` and `group r` is the capturing
group. -/
inductive Regex where
  | empty
  | atom (c : CharClass)
  | rep (c : CharClass) (min : Nat) (max : Option Nat)
  | seq (r s : Regex)
  | alt (r s : Regex)
  | opt (r : Regex)
  | group (r : Regex)
  deriving DecidableEq, Repr

/-- The sequence of literal characters of a string, as a pattern. -/
def Regex.str : List Char → Regex
  | [] => .empty
  | c :: cs => .seq (.atom (.lit c)) (Regex.str cs)

/-- A greedy quantifier: consume characters that pass `test`, between `min` and
`max` of them, trying the longest run first and the continuation `k` on what
is left; the first success is the result. -/
def repGreedy {α : Type} (test : Char → Bool) (k : JSString → Option α) :
    Nat → Option Nat → JSString → Option α
  | min, _, [] => if min = 0 then k [] else none
  | min, max, x :: xs =>
    if test x = true ∧ max ≠ some 0 then
      match repGreedy test k (min - 1) (max.map fun m => m - 1) xs with
      | some a => some a
      | none => if min = 0 then k (x :: xs) else none
    else if min = 0 then k (x :: xs) else none

/-- The backtracking matcher: match `r` at the front of the input and hand the
rest of the input and the text of the capturing group to the continuation. -/
def Regex.run {α : Type} (ignoreCase : Bool) :
    Regex → JSString → Option JSString → (JSString → Option JSString → Option α) → Option α
  | .empty, s, cap, k => k s cap
  | .atom c, s, cap, k =>
    match s with
    | x :: xs => if c.test ignoreCase x then k xs cap else none
    | [] => none
  | .rep c min max, s, cap, k => repGreedy (c.test ignoreCase) (fun rest => k rest cap) min max s
  | .seq r t, s, cap, k => r.run ignoreCase s cap fun rest cap' => t.run ignoreCase rest cap' k
  | .alt r t, s, cap, k =>
    match r.run ignoreCase s cap k with
    | some a => some a
    | none => t.run ignoreCase s cap k
  | .opt r, s, cap, k =>
    match r.run ignoreCase s cap k with
    | some a => some a
    | none => k s cap
  | .group r, s, cap, k =>
    r.run ignoreCase s cap fun rest _ => k rest (some (s.take (s.length - rest.length)))

/-- A match of a pattern at the front of the input: the input after the match
and the text of the capturing group (`none` when the group took no part). -/
def matchAt (r : Regex) (ignoreCase : Bool) (s : JSString) :
    Option (JSString × Option JSString) :=
  r.run ignoreCase s none fun rest cap => some (rest, cap)

/-- The method `s.match(r)` for a pattern without the flag `g`: the match at
the leftmost position that has one. -/
def search (r : Regex) (ignoreCase : Bool) : JSString → Option (JSString × Option JSString)
  | [] => matchAt r ignoreCase []
  | x :: xs =>
    match matchAt r ignoreCase (x :: xs) with
    | some m => some m
    | none => search r ignoreCase xs

/-- The method `s.replace(r, '')` for a pattern with the flag `g`: every match,
found from left to right without overlap, is removed. The counter `skip` is the
number of characters of the current match still to drop. -/
def removeAll (r : Regex) (ignoreCase : Bool) : JSString → Nat → JSString
  | [], _ => []
  | _ :: xs, skip + 1 => removeAll r ignoreCase xs skip
  | x :: xs, 0 =>
    match matchAt r ignoreCase (x :: xs) with
    | some (rest, _) =>
      if (x :: xs).length - rest.length = 0 then x :: removeAll r ignoreCase xs 0
      else removeAll r ignoreCase xs ((x :: xs).length - rest.length - 1)
    | none => x :: removeAll r ignoreCase xs 0

/-- The method `s.replace(r, '')` for a pattern that starts with `^` and has
no flag `g`: a match at index 0, if there is one, is removed. -/
def removeLeading (r : Regex) (ignoreCase : Bool) (s : JSString) : JSString :=
  match matchAt r ignoreCase s with
  | some (rest, _) => rest
  | none => s

/-- The value of a run of decimal digits. -/
def decimal (ds : JSString) : Nat :=
  ds.foldl (fun n c => 10 * n + (c.toNat - '0'.toNat)) 0

/-- The optional sign at the front of the argument of `parseInt`: whether it
is `-`, and the text after it. -/
def splitSign : JSString → Bool × JSString
  | '-' :: rest => (true, rest)
  | '+' :: rest => (false, rest)
  | rest => (false, rest)

/-- The function `parseInt(s, 10)`: leading white space, an optional sign and
the longest run of digits; `none` is `NaN`. The value is exact, as it is in
JavaScript for the runs of at most three digits that the parser passes. -/
def parseInt (s : JSString) : Option Int :=
  let body := s.dropWhile isWhiteSpace
  let signed : Bool × JSString := splitSign body
  let digits := signed.2.takeWhile Char.isDigit
  if digits = [] then none
  else if signed.1 then some (-(decimal digits : Int)) else some (decimal digits : Int)

/-! ## Fit score -/

/-- The object `{score, reason}` returned by `analyzeJobFit`. -/
structure JobFitResult where
  score : Int
  reason : JSString
  deriving DecidableEq, Repr

/-- The pattern `/0\s*-\s*100/g`. -/
def scalePhrase : Regex :=
  .seq (.atom (.lit '0')) (.seq (.rep .space 0 none) (.seq (.atom (.lit '-'))
    (.seq (.rep .space 0 none) (Regex.str "100".toList))))

/-- The tail `\s*%` of the percent pattern. -/
def percentTail : Regex :=
  .seq (.rep .space 0 none) (.atom (.lit '%'))

/-- The tail `\s*\/\s*100` of the first out-of pattern. -/
def slashTail : Regex :=
  .seq (.rep .space 0 none) (.seq (.atom (.lit '/')) (.seq (.rep .space 0 none)
    (Regex.str "100".toList)))

/-- The tail `\s*out of 100` of the second out-of pattern. -/
def outOfTail : Regex :=
  .seq (.rep .space 0 none) (Regex.str "out of 100".toList)

/-- The capturing group `(\d{1,3})` followed by a tail. -/
def numberThen (tail : Regex) : Regex :=
  .seq (.group (.rep .digit 1 (some 3))) tail

/-- The pattern `/(\d{1,3})\s*%/`. -/
def percentPattern : Regex := numberThen percentTail

/-- The pattern `/(\d{1,3})\s*\/\s*100/i`. -/
def slashPattern : Regex := numberThen slashTail

/-- The pattern `/(\d{1,3})\s*out of 100/i`. -/
def outOfPattern : Regex := numberThen outOfTail

/-- The pattern `/(\d{1,3})/`. -/
def genericPattern : Regex := numberThen .empty

/-- The pattern `/^\d+(?:%|\s*out of 100|\/100)?\s*[-:.]?\s*/i` without its
anchor `^`, which `removeLeading` accounts for. -/
def leadingPattern : Regex :=
  .seq (.rep .digit 1 none)
    (.seq (.opt (.alt (.atom (.lit '%'))
        (.alt (.seq (.rep .space 0 none) (Regex.str "out of 100".toList))
          (Regex.str "/100".toList))))
      (.seq (.rep .space 0 none)
        (.seq (.rep (.oneOf ['-', ':', '.']) 0 (some 1)) (.rep .space 0 none))))

/-- The string `cleaned` of the score extraction. -/
def cleanResponse (result : JSString) : JSString :=
  removeAll scalePhrase false result 0

/-- The call `parseInt(m[1], 10)` on a match `m`. -/
def capturedValue (m : JSString × Option JSString) : Option Int :=
  match m.2 with
  | some text => parseInt text
  | none => none

/-- The variable `matchValue` of the score extraction: the outer `none` is
`null` (no pattern matched), the inner `none` is `NaN`. -/
def matchValue (cleaned : JSString) : Option (Option Int) :=
  match search percentPattern false cleaned with
  | some percentMatch => some (capturedValue percentMatch)
  | none =>
    let outOfMatch :=
      match search slashPattern true cleaned with
      | some m => some m
      | none => search outOfPattern true cleaned
    match outOfMatch with
    | some m => some (capturedValue m)
    | none =>
      match search genericPattern false cleaned with
      | some genericMatch => some (capturedValue genericMatch)
      | none => none

/-- The expression `Math.min(100, Math.max(0, v))`. -/
def clampScore (v : Int) : Int :=
  min 100 (max 0 v)

/-- The score extraction of `analyzeJobFit` on the model text `result`. -/
def extractScore (result : JSString) : Int :=
  match matchValue (cleanResponse result) with
  | some (some v) => clampScore v
  | _ => 50

/-- The reason extraction of `analyzeJobFit` on the model text `result`. -/
def extractReason (result : JSString) : JSString :=
  let reason := trim (removeLeading leadingPattern true result)
  let reason := if reason = [] ∨ reason.length < 10 then result.take 250 else reason
  reason.take 250

/-- The reason of the result returned when the service is not available. -/
def unavailableReason : JSString :=
  "Ollama not running. Install Ollama and run: ollama pull llama3.2:3b".toList

/-- The function `analyzeJobFit(jobContext)`, reduced to its outcomes.
`isOllamaRunning` is the result of the availability probe; `chatResult` is the
text returned by the chat call, or the `message` of the error thrown by it or
by anything else inside the `try`. -/
def analyzeJobFit (isOllamaRunning : Bool) (chatResult : Except JSString JSString) :
    JobFitResult :=
  if !isOllamaRunning then { score := 50, reason := unavailableReason }
  else
    match chatResult with
    | .ok result => { score := extractScore result, reason := extractReason result }
    | .error message => { score := 50, reason := "Analysis unavailable: ".toList ++ message }

/-- The language of a pattern: `Accepts ic r s rest` says that `r` matches a
prefix of `s` and leaves `rest`. -/
inductive Accepts (ic : Bool) : Regex → JSString → JSString → Prop
  | empty (s : JSString) : Accepts ic .empty s s
  | atom (c : CharClass) (x : Char) (s : JSString) :
    c.test ic x = true → Accepts ic (.atom c) (x :: s) s
  | rep (c : CharClass) (min : Nat) (max : Option Nat) (xs s : JSString) :
    (∀ x ∈ xs, c.test ic x = true) → min ≤ xs.length → (∀ m, max = some m → xs.length ≤ m) →
    Accepts ic (.rep c min max) (xs ++ s) s
  | seq (r t : Regex) (s s₁ s₂ : JSString) :
    Accepts ic r s s₁ → Accepts ic t s₁ s₂ → Accepts ic (.seq r t) s s₂
  | altLeft (r t : Regex) (s rest : JSString) :
    Accepts ic r s rest → Accepts ic (.alt r t) s rest
  | altRight (r t : Regex) (s rest : JSString) :
    Accepts ic t s rest → Accepts ic (.alt r t) s rest
  | optSome (r : Regex) (s rest : JSString) :
    Accepts ic r s rest → Accepts ic (.opt r) s rest
  | optNone (r : Regex) (s : JSString) : Accepts ic (.opt r) s s
  | group (r : Regex) (s rest : JSString) :
    Accepts ic r s rest → Accepts ic (.group r) s rest

/-- A pattern without a capturing group. -/
def Regex.groupFree : Regex → Bool
  | .empty => true
  | .atom _ => true
  | .rep _ _ _ => true
  | .seq r t => r.groupFree && t.groupFree
  | .alt r t => r.groupFree && t.groupFree
  | .opt r => r.groupFree
  | .group _ => false

/-- A run of one to three decimal digits: what the group `(\d{1,3})` captures. -/
def IsNumber3 (ds : JSString) : Prop :=
  ds ≠ [] ∧ ds.length ≤ 3 ∧ ∀ c ∈ ds, c.isDigit = true

/-- A run of white space, possibly empty. -/
def White (ws : JSString) : Prop :=
  ∀ c ∈ ws, isWhiteSpace c = true

/-- The text `s` has, right after `pre`, the digits `ds` followed by optional
white space and `%`. -/
def PercentAt (s pre ds : JSString) : Prop :=
  IsNumber3 ds ∧ ∃ ws post, White ws ∧ s = pre ++ ds ++ (ws ++ '%' :: post)

/-- The text `s` has, right after `pre`, the digits `ds` followed by optional
white space, `/`, optional white space and `100`. -/
def SlashAt (s pre ds : JSString) : Prop :=
  IsNumber3 ds ∧ ∃ ws₁ ws₂ post, White ws₁ ∧ White ws₂ ∧
    s = pre ++ ds ++ (ws₁ ++ '/' :: (ws₂ ++ ("100".toList ++ post)))

/-- The text `s` has, right after `pre`, the digits `ds` followed by optional
white space and the words `out of 100`, its letters in either case. -/
def OutOfAt (s pre ds : JSString) : Prop :=
  IsNumber3 ds ∧ ∃ ws phrase post, White ws ∧ phrase.map Char.toLower = "out of 100".toList ∧
    s = pre ++ ds ++ (ws ++ (phrase ++ post))

/-- An occurrence that starts no later than any other occurrence. -/
def Leftmost (occurs : JSString → JSString → Prop) (pre ds : JSString) : Prop :=
  occurs pre ds ∧ ∀ pre' ds', occurs pre' ds' → pre.length ≤ pre'.length

/-! ## Learned patterns -/

/-- A `learningData` record. A missing label, name or placeholder is the
empty string: the code only tests these fields for truthiness. -/
structure LearnedPattern where
  fieldType : JSString
  fieldLabel : JSString
  fieldName : JSString
  fieldPlaceholder : JSString
  value : JSString
  jobType : JSString
  timestamp : Int
  deriving DecidableEq, Repr

/-- The object `pattern` built by `learnFieldPattern`; `jobContext` is `none`
when the caller passes `null` or `undefined`. -/
def newPattern (field : FieldDescriptor) (value : JSString) (jobContext : Option JobContext)
    (now : Int) : LearnedPattern :=
  { fieldType := field.type
    fieldLabel := field.label
    fieldName := field.name
    fieldPlaceholder := field.placeholder
    value := value
    jobType :=
      match jobContext with
      | some job => job.jobType
      | none => []
    timestamp := now }

/-- The function `learnFieldPattern(field, value, jobContext)`: the list
written back to storage. `push`, then one `shift` above 500 entries. -/
def learnFieldPattern (learningData : List LearnedPattern) (field : FieldDescriptor)
    (value : JSString) (jobContext : Option JobContext) (now : Int) : List LearnedPattern :=
  let pushed := learningData ++ [newPattern field value jobContext now]
  if pushed.length > 500 then pushed.drop 1 else pushed

/-- One `learnFromInput` request. -/
structure LearnCall where
  field : FieldDescriptor
  value : JSString
  jobContext : Option JobContext
  now : Int

/-- A sequence of `learnFieldPattern` calls, run one after the other. -/
def learnAll (learningData : List LearnedPattern) (calls : List LearnCall) :
    List LearnedPattern :=
  calls.foldl (fun log call =>
    learnFieldPattern log call.field call.value call.jobContext call.now) learningData

section PatternLookup

variable (toLowerCase : JSString → JSString)

/-- The predicate passed to `learningData.find` in `findLearnedPattern`. -/
def patternMatch (field : FieldDescriptor) (p : LearnedPattern) : Bool :=
  (!p.fieldLabel.isEmpty && !field.label.isEmpty &&
      toLowerCase p.fieldLabel == toLowerCase field.label) ||
    (!p.fieldName.isEmpty && !field.name.isEmpty &&
      toLowerCase p.fieldName == toLowerCase field.name)

/-- The function `findLearnedPattern(field, learningData)`: `none` is `null`. -/
def findLearnedPattern (field : FieldDescriptor) (learningData : List LearnedPattern) :
    Option JSString :=
  match learningData.find? (patternMatch toLowerCase field) with
  | some p => some p.value
  | none => none

/-- A pattern answers a field when both have a non-empty label and the labels
are equal ignoring case, or both have a non-empty name and the names are equal
ignoring case. -/
def PatternMatches (field : FieldDescriptor) (p : LearnedPattern) : Prop :=
  (p.fieldLabel ≠ [] ∧ field.label ≠ [] ∧ toLowerCase p.fieldLabel = toLowerCase field.label) ∨
    (p.fieldName ≠ [] ∧ field.name ≠ [] ∧ toLowerCase p.fieldName = toLowerCase field.name)

end PatternLookup

/-- A full learned-pattern log: 500 records for the labels `q`, `qq`, ... -/
def fullLog : List LearnedPattern :=
  (List.range 500).map fun i =>
    newPattern { label := List.replicate (i + 1) 'q' } "old".toList none 0

/-! ## Model selection -/

/-- An element of the list returned by `listModels`; `name` is `none` when the
element has no name. -/
structure ModelInfo where
  name : Option JSString
  deriving DecidableEq, Repr

/-- The test `m.name?.includes('deepseek-r1')`. -/
def advertisesReasoning (m : ModelInfo) : Bool :=
  match m.name with
  | some name => includes name "deepseek-r1".toList
  | none => false

/-- The variable `modelToUse` of `analyzeJobFit`. The argument is the outcome
of `ollamaService.listModels()`, `Except.error` when the call throws and the
`catch` keeps the default. -/
def modelToUse (models : Except JSString (List ModelInfo)) : JSString :=
  match models with
  | .ok list =>
    if list.any advertisesReasoning then "deepseek-r1:8b".toList else "llama3.2:3b".toList
  | .error _ => "llama3.2:3b".toList

/-! ## Storage effects -/

/-- An element of `activityFeed`. -/
structure Activity where
  type : JSString
  message : JSString
  timestamp : Int
  deriving DecidableEq, Repr

/-- The keys of `chrome.storage.local` that the cache, the learned patterns
and the activity log live under. -/
structure Storage where
  questionCache : List QuestionCacheEntry
  learningData : List LearnedPattern
  activityFeed : List Activity
  deriving DecidableEq, Repr

/-- The storage write of `logActivity(type, message)`: the new activity goes
to the front of the feed, which keeps 50 entries. -/
def logActivity (storage : Storage) (type message : JSString) (now : Int) : Storage :=
  let feed := { type := type, message := message, timestamp := now } :: storage.activityFeed
  { storage with activityFeed := if feed.length > 50 then feed.take 50 else feed }

/-- The text `"<question>"` appended to a fixed text, as the template literals
of `getSmartAnswer` build it. -/
def quoted (text : String) (question : JSString) : JSString :=
  text.toList ++ '"' :: (question ++ ['"'])

/-- The storage after `getSmartAnswer(question, field)`, for the three keys of
`Storage`: the function reads the cache through `checkQuestionCache`, which
calls `storageService.get` only, and writes one activity for the tier that
answers. -/
def getSmartAnswerStorage (toLowerCase : JSString → JSString) (storage : Storage)
    (profile : UserProfile) (preferences : UserPreferences) (resumeText : Option JSString)
    (question : JSString) (field : FieldDescriptor) (now : Int) : Storage :=
  if truthy (checkQuestionCache toLowerCase storage.questionCache question) then
    logActivity storage "success".toList (quoted "✓ Found cached answer for " question) now
  else if truthy (checkProfileForAnswer toLowerCase profile preferences question field) then
    logActivity storage "success".toList (quoted "✓ Found answer in profile for " question) now
  else if truthy (checkResumeForAnswer resumeText question field) then
    logActivity storage "success".toList (quoted "✓ Found answer in resume for " question) now
  else
    logActivity storage "analyzing".toList (quoted "🤖 Asking AI for: " question) now

/-! ## Inference gateway -/

/-- The response that `fetch` resolves to, as far as `OllamaService` reads it:
`ok`, `status`, `statusText`, the result of `response.text()` and the result of
`response.json()`, which rejects with an error when the body does not parse. -/
structure HttpResponse (β : Type) where
  ok : Bool
  status : Nat
  statusText : JSString
  text : JSString
  json : Except JSString β

/-- The outcome of `await fetch(...)`: the promise rejects when the service is
unreachable, and resolves to a response otherwise. -/
inductive FetchOutcome (β : Type) where
  | rejected (message : JSString)
  | resolved (response : HttpResponse β)

/-- The errors that leave a gateway operation: an error thrown by the platform
(`fetch` or `response.json()`) and rethrown, the `Error` that the operation
builds for a non-success status, and the `TypeError` of reading a property of
`undefined`. -/
inductive GatewayError where
  | thrown (message : JSString)
  | requestFailed (message : JSString)
  | typeError
  deriving DecidableEq, Repr

/-- The parsed body of `/api/generate`: `data.response` may be absent. -/
structure GenerateBody where
  response : Option JSString := none
  deriving DecidableEq, Repr

/-- The member `data.message` of a chat body: `content` may be absent. -/
structure ChatMessage where
  content : Option JSString := none
  deriving DecidableEq, Repr

/-- The parsed body of `/api/chat`: `data.message` may be absent. -/
structure ChatBody where
  message : Option ChatMessage := none
  deriving DecidableEq, Repr

/-- The parsed body of `/api/tags`: `data.models` may be absent. -/
structure TagsBody where
  models : Option (List ModelInfo) := none

/-- The template literal
`<label>${response.status} ${response.statusText} - ${errorText}`. -/
def failureMessage {β : Type} (label : String) (response : HttpResponse β) : JSString :=
  label.toList ++ ((Nat.repr response.status).toList ++
    (' ' :: (response.statusText ++ (" - ".toList ++ response.text))))

/-- The method `OllamaService.generate`, as a function of what `fetch` gives:
the `catch` block logs and rethrows. The value `none` is `undefined`. -/
def generate (fetched : FetchOutcome GenerateBody) : Except GatewayError (Option JSString) :=
  match fetched with
  | .rejected message => .error (.thrown message)
  | .resolved response =>
    if !response.ok then
      .error (.requestFailed (failureMessage "Ollama request failed: " response))
    else
      match response.json with
      | .error message => .error (.thrown message)
      | .ok data => .ok data.response

/-- The method `OllamaService.chat`: returns `data.message.content`. -/
def chat (fetched : FetchOutcome ChatBody) : Except GatewayError (Option JSString) :=
  match fetched with
  | .rejected message => .error (.thrown message)
  | .resolved response =>
    if !response.ok then
      .error (.requestFailed (failureMessage "Ollama chat request failed: " response))
    else
      match response.json with
      | .error message => .error (.thrown message)
      | .ok data =>
        match data.message with
        | none => .error .typeError
        | some message => .ok message.content

/-- The method `OllamaService.listModels`: every error is caught and answered
with `[]`; the result is `data.models || []`. -/
def listModels (fetched : FetchOutcome TagsBody) : List ModelInfo :=
  match fetched with
  | .rejected _ => []
  | .resolved response =>
    if !response.ok then []
    else
      match response.json with
      | .error _ => []
      | .ok data => data.models.getD []

/-- A response of `/api/generate` with status 200 whose body `\x7b\x7d` has no
`response` member. -/
def emptyBody : HttpResponse GenerateBody :=
  { ok := true, status := 200, statusText := "OK".toList, text := "\x7b\x7d".toList,
    json := .ok { response := none } }

/-- A response of `/api/generate` with status 503 and the text `busy`. -/
def unavailable : HttpResponse GenerateBody :=
  { ok := false, status := 503, statusText := "Service Unavailable".toList,
    text := "busy".toList, json := .error "Unexpected token".toList }

/-! ## Edit distance, as the specification words it -/

/-- One single-character edit of a string: the insertion, the deletion or the
substitution of one character at any position. -/
inductive EditStep : JSString → JSString → Prop
  | insertion (l r : JSString) (c : Char) : EditStep (l ++ r) (l ++ c :: r)
  | deletion (l r : JSString) (c : Char) : EditStep (l ++ c :: r) (l ++ r)
  | substitution (l r : JSString) (c d : Char) : EditStep (l ++ c :: r) (l ++ d :: r)

/-- The relation `EditPath n a b`: `n` single-character edits, applied one
after the other, turn `a` into `b`. -/
inductive EditPath : Nat → JSString → JSString → Prop
  | done (a : JSString) : EditPath 0 a a
  | step {n : Nat} {a b c : JSString} : EditStep a b → EditPath n b c → EditPath (n + 1) a c

/-! ## Strings: facts -/

theorem includes_iff (s t : JSString) : includes s t = true ↔ t <:+: s := by
  unfold includes
  rw [List.any_eq_true, List.infix_iff_prefix_suffix]
  constructor
  · rintro ⟨u, hu, hp⟩
    exact ⟨u, List.isPrefixOf_iff_prefix.mp hp, (List.mem_tails _ _).mp hu⟩
  · rintro ⟨u, hp, hu⟩
    exact ⟨u, (List.mem_tails _ _).mpr hu, List.isPrefixOf_iff_prefix.mpr hp⟩

theorem truthy_iff (v : Option JSString) : truthy v = true ↔ ∃ s, v = some s ∧ s ≠ [] := by
  cases v with
  | none => simp [truthy]
  | some s => cases s <;> simp [truthy]

/-! ## The matrix of `levenshteinDistance` -/

theorem levRec_nil_right (xs : List Char) : levRec xs [] = xs.length := by
  cases xs <;> simp [levRec]

theorem levRec_comm (xs ys : List Char) : levRec xs ys = levRec ys xs := by
  induction xs, ys using levRec.induct with
  | case1 ys => rw [levRec_nil_right]; simp [levRec]
  | case2 x xs => rw [levRec_nil_right]; simp [levRec]
  | case3 x xs ys ih =>
    simp [levRec, ih]
  | case4 x xs y ys h ih1 ih2 ih3 =>
    have h' : ¬ y = x := fun e => h e.symm
    simp only [levRec, h, h', if_false, ih1, ih2, ih3]
    rw [min_comm (levRec ys (x :: xs) + 1)]

theorem fillRow_eq (x : Char) (xs : List Char) :
    ∀ (cs q : List Char),
      fillRow x cs (levRec xs q :: rowTail xs q cs) (levRec (x :: xs) q) =
        rowTail (x :: xs) q cs
  | [], q => by simp [fillRow, rowTail]
  | c :: cs, q => by
    have ih := fillRow_eq x xs cs (c :: q)
    simp only [rowTail, fillRow]
    have hcell : (if x = c then levRec xs q
        else min (levRec xs q + 1) (min (levRec (x :: xs) q + 1) (levRec xs (c :: q) + 1))) =
        levRec (x :: xs) (c :: q) := by
      by_cases h : x = c <;> simp [levRec, h]
    rw [hcell, ih]

theorem rowTail_nil (cs : List Char) :
    ∀ q : List Char, rowTail [] q cs = List.range' (q.length + 1) cs.length := by
  induction cs with
  | nil => intro q; simp [rowTail]
  | cons c cs ih =>
    intro q
    simp [rowTail, ih, levRec, List.range'_succ]

theorem lastRow_eq (str1 : JSString) :
    ∀ (rest p : List Char),
      lastRow str1 rest (levRec p [] :: rowTail p [] str1) p.length =
        levRec (rest.reverse ++ p) [] :: rowTail (rest.reverse ++ p) [] str1
  | [], p => by simp [lastRow]
  | c2 :: rest, p => by
    have ih := lastRow_eq str1 rest (c2 :: p)
    have hrow : nextRow str1 (levRec p [] :: rowTail p [] str1) (p.length + 1) c2 =
        levRec (c2 :: p) [] :: rowTail (c2 :: p) [] str1 := by
      have h := fillRow_eq c2 p str1 []
      rw [levRec_nil_right] at h ⊢
      simp only [nextRow, List.length_cons]
      rw [← h]
      simp [levRec_nil_right]
    simp only [lastRow, hrow]
    simpa using ih

theorem getD_row (p : List Char) :
    ∀ (cs q : List Char),
      (levRec p q :: rowTail p q cs).getD cs.length 0 = levRec p (cs.reverse ++ q)
  | [], q => by simp
  | c :: cs, q => by
    have ih := getD_row p cs (c :: q)
    simp only [rowTail, List.length_cons, List.getD_cons_succ, List.reverse_cons,
      List.append_assoc, List.singleton_append]
    exact ih

/-- The matrix computes the Levenshtein recurrence of the two reversed strings. -/
theorem levenshteinDistance_eq_levRec (str1 str2 : JSString) :
    levenshteinDistance str1 str2 = levRec str2.reverse str1.reverse := by
  have h0 : List.range (str1.length + 1) = levRec [] [] :: rowTail [] [] str1 := by
    rw [rowTail_nil, List.range_eq_range', List.range'_succ]
    simp [levRec]
  unfold levenshteinDistance
  rw [h0]
  have h := lastRow_eq str1 str2 []
  simp only [List.length_nil, List.append_nil] at h
  rw [h]
  simpa using getD_row str2.reverse str1 []

theorem levenshteinDistance_comm (s t : JSString) :
    levenshteinDistance s t = levenshteinDistance t s := by
  rw [levenshteinDistance_eq_levRec, levenshteinDistance_eq_levRec, levRec_comm]

theorem calculateSimilarity_gt_iff (str1 str2 : JSString) :
    calculateSimilarity str1 str2 > 8 / 10 ↔ similarityAbove str1 str2 = true := by
  simp only [calculateSimilarity, similarityAbove, Bool.or_eq_true, decide_eq_true_eq]
  by_cases h0 : (if str1.length > str2.length then str1 else str2).length = 0
  · simp only [h0, if_true, true_or, iff_true]
    norm_num
  · simp only [h0, if_false, false_or]
    have hpos : (0 : ℚ) < ((if str1.length > str2.length then str1 else str2).length : ℚ) := by
      exact_mod_cast Nat.pos_of_ne_zero h0
    rw [gt_iff_lt, lt_div_iff₀ hpos]
    constructor
    · intro h
      have : (5 * levenshteinDistance (if str1.length > str2.length then str1 else str2)
          (if str1.length > str2.length then str2 else str1) : ℚ) <
          ((if str1.length > str2.length then str1 else str2).length : ℚ) := by linarith
      exact_mod_cast this
    · intro h
      have : (5 * levenshteinDistance (if str1.length > str2.length then str1 else str2)
          (if str1.length > str2.length then str2 else str1) : ℚ) <
          ((if str1.length > str2.length then str1 else str2).length : ℚ) := by exact_mod_cast h
      linarith

theorem similarityAbove_of_edit (s t : JSString)
    (h : 5 * levenshteinDistance s t < max s.length t.length) :
    similarityAbove s t = true := by
  simp only [similarityAbove, Bool.or_eq_true, decide_eq_true_eq]
  right
  by_cases hl : s.length > t.length
  · simp only [hl, if_true]
    rwa [max_eq_left (le_of_lt hl)] at h
  · simp only [hl, if_false]
    rw [max_eq_right (not_lt.mp hl), levenshteinDistance_comm] at h
    exact h

theorem editSimilarity_gt_iff (s t : JSString) :
    editSimilarity s t > 8 / 10 ↔ 5 * levenshteinDistance s t < max s.length t.length := by
  unfold editSimilarity
  by_cases h0 : max s.length t.length = 0
  · rw [h0]
    norm_num
  · have hpos : (0 : ℚ) < ((max s.length t.length : ℕ) : ℚ) := by
      exact_mod_cast Nat.pos_of_ne_zero h0
    rw [gt_iff_lt, lt_div_iff₀ hpos]
    constructor
    · intro h
      have : (5 * levenshteinDistance s t : ℚ) < ((max s.length t.length : ℕ) : ℚ) := by
        linarith
      exact_mod_cast this
    · intro h
      have : (5 * levenshteinDistance s t : ℚ) < ((max s.length t.length : ℕ) : ℚ) := by
        exact_mod_cast h
      linarith

/-- A similarity above 0.80 in the wording of the specification passes the
test that the code makes with `calculateSimilarity`. -/
theorem calculateSimilarity_gt_of_edit (s t : JSString) (h : editSimilarity s t > 8 / 10) :
    calculateSimilarity s t > 8 / 10 :=
  (calculateSimilarity_gt_iff s t).mpr
    (similarityAbove_of_edit s t ((editSimilarity_gt_iff s t).mp h))

section Lookup

variable (toLowerCase : JSString → JSString)

theorem cacheMatch_eval (normalized : JSString) :
    cacheMatch toLowerCase normalized = fun item =>
      (trim (toLowerCase item.question) == normalized ||
        includes (trim (toLowerCase item.question)) normalized ||
        includes normalized (trim (toLowerCase item.question)) ||
        similarityAbove (trim (toLowerCase item.question)) normalized) := by
  funext item
  simp only [cacheMatch]
  congr 1
  rw [Bool.eq_iff_iff, decide_eq_true_eq]
  exact calculateSimilarity_gt_iff _ _

theorem cacheMatch_iff (normalized : JSString) (item : QuestionCacheEntry) :
    cacheMatch toLowerCase normalized item = true ↔ Matches toLowerCase normalized item := by
  simp only [cacheMatch, Matches, Bool.or_eq_true, beq_iff_eq, includes_iff, decide_eq_true_eq,
    or_assoc]

theorem cacheMatch_self (item : QuestionCacheEntry) :
    cacheMatch toLowerCase (trim (toLowerCase item.question)) item = true := by
  simp [cacheMatch]

theorem cacheMatch_of_eq (normalized : JSString) (item : QuestionCacheEntry)
    (h : trim (toLowerCase item.question) = normalized) :
    cacheMatch toLowerCase normalized item = true := by
  simp [cacheMatch, h]

theorem getSmartAnswer_of_truthy (cache : List QuestionCacheEntry) (profile : UserProfile)
    (preferences : UserPreferences) (resumeText : Option JSString)
    (chatResult : Except JSString JSString) (question : JSString) (field : FieldDescriptor)
    (h : truthy (checkQuestionCache toLowerCase cache question) = true) :
    getSmartAnswer toLowerCase cache profile preferences resumeText chatResult question field =
      { value := checkQuestionCache toLowerCase cache question, source := .cache,
        confidence := .high } := by
  simp only [getSmartAnswer, h, if_true]

theorem getSmartAnswer_of_misses (cache : List QuestionCacheEntry) (profile : UserProfile)
    (preferences : UserPreferences) (resumeText : Option JSString)
    (chatResult : Except JSString JSString) (question : JSString) (field : FieldDescriptor)
    (h1 : checkQuestionCache toLowerCase cache question = none)
    (h2 : checkProfileForAnswer toLowerCase profile preferences question field = none) :
    getSmartAnswer toLowerCase cache profile preferences resumeText chatResult question field =
      { value := askAIForAnswer chatResult, source := .ai, confidence := .medium } := by
  have h3 : checkResumeForAnswer resumeText question field = none := by
    unfold checkResumeForAnswer
    cases resumeText <;> simp
  simp [getSmartAnswer, h1, h2, h3, truthy]

/-- The lookup returns the answer of the first matching entry. -/
theorem checkQuestionCache_first (pre post : List QuestionCacheEntry) (e : QuestionCacheEntry)
    (question : JSString)
    (hpre : ∀ x ∈ pre, cacheMatch toLowerCase (trim (toLowerCase question)) x = false)
    (he : cacheMatch toLowerCase (trim (toLowerCase question)) e = true) :
    checkQuestionCache toLowerCase (pre ++ e :: post) question = some e.answer := by
  have h1 : pre.find? (cacheMatch toLowerCase (trim (toLowerCase question))) = none := by
    rw [List.find?_eq_none]
    intro x hx
    simp [hpre x hx]
  simp [checkQuestionCache, List.find?_append, h1, List.find?_cons, he]

theorem checkQuestionCache_eq_none (cache : List QuestionCacheEntry) (question : JSString) :
    checkQuestionCache toLowerCase cache question = none ↔
      ∀ x ∈ cache, cacheMatch toLowerCase (trim (toLowerCase question)) x = false := by
  cases h : cache.find? (cacheMatch toLowerCase (trim (toLowerCase question))) with
  | none =>
    simp only [checkQuestionCache, h, true_iff]
    intro x hx
    have := List.find?_eq_none.mp h x hx
    simpa using this
  | some item =>
    simp only [checkQuestionCache, h, false_iff, reduceCtorEq]
    intro hall
    have hm := List.find?_some h
    have hi := List.mem_of_find?_eq_some h
    rw [hall item hi] at hm
    exact Bool.false_ne_true hm

end Lookup

/-! ## The cache tier of `getSmartAnswer` -/

section CacheTier

variable (toLowerCase : JSString → JSString)

/-- C1 (as amended): whenever the cache lookup yields a non-empty answer for
the question, `getSmartAnswer` returns exactly that answer with source `cache`
and confidence `high`, whatever the profile, the preferences, the resume text
and the outcome of the model call are. -/
theorem getSmartAnswer_cache_hit (cache : List QuestionCacheEntry) (profile : UserProfile)
    (preferences : UserPreferences) (resumeText : Option JSString)
    (chatResult : Except JSString JSString) (question : JSString) (field : FieldDescriptor)
    (answer : JSString)
    (hit : checkQuestionCache toLowerCase cache question = some answer)
    (nonEmpty : answer ≠ []) :
    getSmartAnswer toLowerCase cache profile preferences resumeText chatResult question field =
      { value := some answer, source := .cache, confidence := .high } := by
  have ht : truthy (some answer) = true := (truthy_iff _).mpr ⟨answer, rfl, nonEmpty⟩
  simp [getSmartAnswer, hit, ht]

/-- C3 (as amended): the lookup of the question of a cached entry returns that
entry's answer when no entry standing before it in storage order matches the
question by any of the four rules. -/
theorem checkQuestionCache_own_question (pre post : List QuestionCacheEntry)
    (e : QuestionCacheEntry)
    (noEarlier : ∀ x ∈ pre, ¬ Matches toLowerCase (trim (toLowerCase e.question)) x) :
    checkQuestionCache toLowerCase (pre ++ e :: post) e.question = some e.answer := by
  apply checkQuestionCache_first
  · intro x hx
    have := noEarlier x hx
    rw [← cacheMatch_iff] at this
    simpa using this
  · exact cacheMatch_self toLowerCase e

/-- C5: `checkQuestionCache` returns the answer of the first entry, in storage
order, that satisfies one of the four rules (equal, contains, contained,
similarity above 0.80); later entries do not change the result, even when one
of them is an exact match or has a higher similarity; and the result is `null`
exactly when no entry satisfies any rule. -/
theorem checkQuestionCache_first_match (question : JSString) :
    (∀ (pre post : List QuestionCacheEntry) (e : QuestionCacheEntry),
      (∀ x ∈ pre, ¬ Matches toLowerCase (trim (toLowerCase question)) x) →
      Matches toLowerCase (trim (toLowerCase question)) e →
      checkQuestionCache toLowerCase (pre ++ e :: post) question = some e.answer) ∧
    (∀ (pre post : List QuestionCacheEntry) (e later : QuestionCacheEntry),
      (∀ x ∈ pre, ¬ Matches toLowerCase (trim (toLowerCase question)) x) →
      Matches toLowerCase (trim (toLowerCase question)) e →
      later ∈ post →
      (trim (toLowerCase later.question) = trim (toLowerCase question) ∨
        calculateSimilarity (trim (toLowerCase later.question)) (trim (toLowerCase question)) >
          calculateSimilarity (trim (toLowerCase e.question)) (trim (toLowerCase question))) →
      checkQuestionCache toLowerCase (pre ++ e :: post) question = some e.answer) ∧
    (∀ cache : List QuestionCacheEntry,
      checkQuestionCache toLowerCase cache question = none ↔
        ∀ x ∈ cache, ¬ Matches toLowerCase (trim (toLowerCase question)) x) := by
  have first : ∀ (pre post : List QuestionCacheEntry) (e : QuestionCacheEntry),
      (∀ x ∈ pre, ¬ Matches toLowerCase (trim (toLowerCase question)) x) →
      Matches toLowerCase (trim (toLowerCase question)) e →
      checkQuestionCache toLowerCase (pre ++ e :: post) question = some e.answer := by
    intro pre post e hpre he
    apply checkQuestionCache_first
    · intro x hx
      have := hpre x hx
      rw [← cacheMatch_iff] at this
      simpa using this
    · exact (cacheMatch_iff toLowerCase _ e).mpr he
  refine ⟨first, fun pre post e _ hpre he _ _ => first pre post e hpre he, ?_⟩
  intro cache
  rw [checkQuestionCache_eq_none]
  constructor
  · intro h x hx hm
    rw [← cacheMatch_iff, h x hx] at hm
    exact Bool.false_ne_true hm
  · intro h x hx
    have := h x hx
    rw [← cacheMatch_iff] at this
    simpa using this

/-- C4: when the normalized (lower-cased, trimmed) forms of a cached question
`Q1` and of a query `Q2` have similarity
`(max(len1, len2) - levenshtein) / max(len1, len2)` strictly above 0.80, and no
entry standing before the entry of `Q1` matches `Q2` by any rule, then
`checkQuestionCache(Q2)` returns the answer stored for `Q1`. -/
theorem checkQuestionCache_similar (pre post : List QuestionCacheEntry)
    (e : QuestionCacheEntry) (query : JSString)
    (similar : editSimilarity (trim (toLowerCase e.question)) (trim (toLowerCase query)) > 8 / 10)
    (noEarlier : ∀ x ∈ pre, ¬ Matches toLowerCase (trim (toLowerCase query)) x) :
    checkQuestionCache toLowerCase (pre ++ e :: post) query = some e.answer := by
  apply checkQuestionCache_first
  · intro x hx
    have := noEarlier x hx
    rw [← cacheMatch_iff] at this
    simpa using this
  · rw [cacheMatch_iff]
    exact Or.inr (Or.inr (Or.inr (calculateSimilarity_gt_of_edit _ _ similar)))

end CacheTier

/-- C1, as stated, fails on an entry whose answer is the empty string: the
lookup yields that string, which is not `null`, and `getSmartAnswer` moves on
to the later tiers. -/
theorem getSmartAnswer_empty_cached_answer :
    checkQuestionCache asciiLower [entryAt0 "x" ""] "x".toList = some [] ∧
    getSmartAnswer asciiLower [entryAt0 "x" ""] {} {} none (.error []) "x".toList {} =
      { value := none, source := .ai, confidence := .medium } := by
  decide

/-- A cache hit with a non-empty answer, evaluated. -/
theorem getSmartAnswer_cache_hit_witness :
    getSmartAnswer asciiLower [entryAt0 "x" "yes"] { email := some "a@b.com".toList } {} none
        (.ok "model".toList) "X ".toList {} =
      { value := some "yes".toList, source := .cache, confidence := .high } :=
  getSmartAnswer_cache_hit asciiLower [entryAt0 "x" "yes"] { email := some "a@b.com".toList } {}
    none (.ok "model".toList) "X ".toList {} "yes".toList (by decide) (by decide)

/-- C3, as stated, fails: the entry `full name` is cached with answer `Y`, but
the earlier entry `name` is contained in the query and its answer is returned. -/
theorem checkQuestionCache_earlier_entry_wins :
    entryAt0 "full name" "Y" ∈ [entryAt0 "name" "X", entryAt0 "full name" "Y"] ∧
    checkQuestionCache asciiLower [entryAt0 "name" "X", entryAt0 "full name" "Y"]
      "full name".toList = some "X".toList ∧
    "X".toList ≠ "Y".toList := by
  decide

/-- The lookup of a cached question behind an entry that does not match it. -/
theorem checkQuestionCache_own_question_witness :
    checkQuestionCache asciiLower ([entryAt0 "email" "X"] ++ entryAt0 "Full Name" "Y" :: [])
      "Full Name".toList = some "Y".toList :=
  checkQuestionCache_own_question asciiLower [entryAt0 "email" "X"] []
    (entryAt0 "Full Name" "Y") (by
      intro x hx
      rw [← cacheMatch_iff]
      rw [cacheMatch_eval]
      revert x
      decide)

/-! ## The profile tier -/

theorem mappingHit_iff (normalized : JSString) (entry : JSString × Option JSString) :
    mappingHit normalized entry = true ↔ Qualifies normalized entry := by
  simp only [mappingHit, Qualifies, Bool.and_eq_true, includes_iff, truthy_iff]

theorem getSmartAnswer_profile_hit (toLowerCase : JSString → JSString)
    (cache : List QuestionCacheEntry) (profile : UserProfile) (preferences : UserPreferences)
    (resumeText : Option JSString) (chatResult : Except JSString JSString)
    (question : JSString) (field : FieldDescriptor) (answer : JSString)
    (miss : truthy (checkQuestionCache toLowerCase cache question) = false)
    (hit : checkProfileForAnswer toLowerCase profile preferences question field = some answer)
    (nonEmpty : answer ≠ []) :
    getSmartAnswer toLowerCase cache profile preferences resumeText chatResult question field =
      { value := some answer, source := .profile, confidence := .high } := by
  have ht : truthy (some answer) = true := (truthy_iff _).mpr ⟨answer, rfl, nonEmpty⟩
  simp only [getSmartAnswer, miss, hit, ht, if_true, Bool.false_eq_true, if_false]

theorem veteran_question_keywords :
    includes (asciiLower "Are you a veteran?".toList) "legal name".toList = false ∧
    includes (asciiLower "Are you a veteran?".toList) "name".toList = false ∧
    includes (asciiLower "Are you a veteran?".toList) "veteran".toList = true := by
  decide

/-- C2: `checkProfileForAnswer` returns the value of the first pair, in the
declared order of the keyword mapping, whose keyword is a substring of the
lower-cased question and whose value is non-empty, and `null` exactly when no
pair qualifies. With an empty cache and a profile holding only the email
`a@b.com`, `getSmartAnswer('What is your email?')` is that email with source
`profile` and confidence `high`; with a non-empty `veteranStatus` preference
and no answer from the cache, `getSmartAnswer('Are you a veteran?')` is that
preference with source `profile`. -/
theorem checkProfileForAnswer_first_pair (toLowerCase : JSString → JSString) :
    (∀ (profile : UserProfile) (preferences : UserPreferences) (question : JSString)
        (field : FieldDescriptor) (pre post : List (JSString × Option JSString))
        (entry : JSString × Option JSString),
      mappings profile preferences = pre ++ entry :: post →
      (∀ x ∈ pre, ¬ Qualifies (toLowerCase question) x) →
      Qualifies (toLowerCase question) entry →
      checkProfileForAnswer toLowerCase profile preferences question field = entry.2) ∧
    (∀ (profile : UserProfile) (preferences : UserPreferences) (question : JSString)
        (field : FieldDescriptor),
      checkProfileForAnswer toLowerCase profile preferences question field = none ↔
        ∀ x ∈ mappings profile preferences, ¬ Qualifies (toLowerCase question) x) ∧
    (∀ (resumeText : Option JSString) (chatResult : Except JSString JSString)
        (field : FieldDescriptor),
      getSmartAnswer asciiLower [] { email := some "a@b.com".toList } {} resumeText chatResult
          "What is your email?".toList field =
        { value := some "a@b.com".toList, source := .profile, confidence := .high }) ∧
    (∀ (cache : List QuestionCacheEntry) (profile : UserProfile)
        (preferences : UserPreferences) (resumeText : Option JSString)
        (chatResult : Except JSString JSString) (field : FieldDescriptor) (status : JSString),
      preferences.veteranStatus = some status → status ≠ [] →
      truthy (checkQuestionCache asciiLower cache "Are you a veteran?".toList) = false →
      getSmartAnswer asciiLower cache profile preferences resumeText chatResult
          "Are you a veteran?".toList field =
        { value := some status, source := .profile, confidence := .high }) := by
  refine ⟨?_, ?_, ?_, ?_⟩
  · intro profile preferences question field pre post entry hm hpre hentry
    have h1 : pre.find? (mappingHit (toLowerCase question)) = none := by
      rw [List.find?_eq_none]
      intro x hx
      rw [mappingHit_iff]
      exact hpre x hx
    have h2 : mappingHit (toLowerCase question) entry = true := (mappingHit_iff _ _).mpr hentry
    simp [checkProfileForAnswer, hm, List.find?_append, h1, List.find?_cons, h2]
  · intro profile preferences question field
    cases h : (mappings profile preferences).find? (mappingHit (toLowerCase question)) with
    | none =>
      simp only [checkProfileForAnswer, h, true_iff]
      intro x hx
      rw [← mappingHit_iff]
      exact List.find?_eq_none.mp h x hx
    | some entry =>
      have hq : Qualifies (toLowerCase question) entry :=
        (mappingHit_iff _ _).mp (List.find?_some h)
      obtain ⟨_, v, hv, _⟩ := hq
      simp only [checkProfileForAnswer, h, hv, false_iff, reduceCtorEq]
      intro hall
      exact hall entry (List.mem_of_find?_eq_some h) ((mappingHit_iff _ _).mp (List.find?_some h))
  · intro resumeText chatResult field
    have hp : checkProfileForAnswer asciiLower { email := some "a@b.com".toList } {}
        "What is your email?".toList field = some "a@b.com".toList := by
      unfold checkProfileForAnswer
      decide
    exact getSmartAnswer_profile_hit asciiLower [] _ _ resumeText chatResult _ field _
      (by decide) hp (by decide)
  · intro cache profile preferences resumeText chatResult field status hstatus hne hmiss
    obtain ⟨k1, k2, k3⟩ := veteran_question_keywords
    have ht : truthy (some status) = true := (truthy_iff _).mpr ⟨status, rfl, hne⟩
    have hp : checkProfileForAnswer asciiLower profile preferences
        "Are you a veteran?".toList field = some status := by
      simp only [checkProfileForAnswer, mappings, List.find?_cons, mappingHit, k1, k2, k3,
        hstatus, ht, Bool.false_and, Bool.true_and]
    exact getSmartAnswer_profile_hit asciiLower cache profile preferences resumeText chatResult
      _ field status hmiss hp hne

/-- The profile tier on the two documented questions, evaluated: the email
scenario, and the veteran question with the preference `Not a Veteran` behind
a cache that holds an unrelated question. -/
theorem checkProfileForAnswer_first_pair_witness :
    getSmartAnswer asciiLower [] { email := some "a@b.com".toList } {} none (.error [])
        "What is your email?".toList {} =
      { value := some "a@b.com".toList, source := .profile, confidence := .high } ∧
    getSmartAnswer asciiLower [entryAt0 "salary" "100"] {}
        { veteranStatus := some "Not a Veteran".toList } none (.error [])
        "Are you a veteran?".toList {} =
      { value := some "Not a Veteran".toList, source := .profile, confidence := .high } :=
  ⟨(checkProfileForAnswer_first_pair asciiLower).2.2.1 none (.error []) {},
   (checkProfileForAnswer_first_pair asciiLower).2.2.2 [entryAt0 "salary" "100"] {}
     { veteranStatus := some "Not a Veteran".toList } none (.error []) {}
     "Not a Veteran".toList rfl (by decide) (by
       simp only [checkQuestionCache, cacheMatch_eval]
       decide)⟩

set_option maxRecDepth 100000 in
/-- A similar question behind an entry that does not match it: the cached
question `What is your email address?` answers the query
`what is your e-mail address`, which neither contains it nor is contained in
it, while the earlier entry `salary` matches by no rule. -/
theorem checkQuestionCache_similar_witness :
    editSimilarity (trim (asciiLower "What is your email address?".toList))
        (trim (asciiLower " what is your e-mail address".toList)) > 8 / 10 ∧
    includes (trim (asciiLower "What is your email address?".toList))
        (trim (asciiLower " what is your e-mail address".toList)) = false ∧
    includes (trim (asciiLower " what is your e-mail address".toList))
        (trim (asciiLower "What is your email address?".toList)) = false ∧
    checkQuestionCache asciiLower
        ([entryAt0 "salary" "100"] ++ entryAt0 "What is your email address?" "a@b.com" :: [])
        " what is your e-mail address".toList = some "a@b.com".toList :=
  have similar : editSimilarity (trim (asciiLower "What is your email address?".toList))
      (trim (asciiLower " what is your e-mail address".toList)) > 8 / 10 :=
    (editSimilarity_gt_iff _ _).mpr (by decide)
  ⟨similar, by decide, by decide,
    checkQuestionCache_similar asciiLower [entryAt0 "salary" "100"] []
      (entryAt0 "What is your email address?" "a@b.com") " what is your e-mail address".toList
      similar (by
        intro x hx
        rw [← cacheMatch_iff, cacheMatch_eval]
        revert x
        decide)⟩

set_option maxRecDepth 100000 in
/-- The first match wins over a later exact match: the query `full name` is
answered by the earlier entry `name`, although the entry `full name` follows;
and a query that no entry matches yields `null`. -/
theorem checkQuestionCache_first_match_witness :
    checkQuestionCache asciiLower
        ([entryAt0 "salary" "100"] ++ entryAt0 "name" "X" :: [entryAt0 "full name" "Y"])
        "Full Name".toList = some "X".toList ∧
    checkQuestionCache asciiLower [entryAt0 "salary" "100"] "Full Name".toList = none :=
  ⟨(checkQuestionCache_first_match asciiLower "Full Name".toList).2.1
      [entryAt0 "salary" "100"] [entryAt0 "full name" "Y"] (entryAt0 "name" "X")
      (entryAt0 "full name" "Y")
      (by
        intro x hx
        rw [← cacheMatch_iff, cacheMatch_eval]
        revert x
        decide)
      (by
        rw [← cacheMatch_iff, cacheMatch_eval]
        decide)
      (by decide) (Or.inl (by decide)),
   ((checkQuestionCache_first_match asciiLower "Full Name".toList).2.2
      [entryAt0 "salary" "100"]).mpr (by
        intro x hx
        rw [← cacheMatch_iff, cacheMatch_eval]
        revert x
        decide)⟩

/-! ## Storing an answer -/

theorem first_split {α : Type} (p : α → Bool) (l : List α) :
    (∀ x ∈ l, p x = false) ∨
      ∃ pre e post, l = pre ++ e :: post ∧ (∀ x ∈ pre, p x = false) ∧ p e = true := by
  cases h : l.find? p with
  | none =>
    left
    intro x hx
    simpa using List.find?_eq_none.mp h x hx
  | some e =>
    right
    obtain ⟨he, pre, post, hl, hpre⟩ := List.find?_eq_some.mp h
    exact ⟨pre, e, post, hl, fun x hx => by simpa using hpre x hx, he⟩

theorem findIdx?_split {α : Type} (p : α → Bool) (pre post : List α) (e : α)
    (hpre : ∀ x ∈ pre, p x = false) (he : p e = true) :
    (pre ++ e :: post).findIdx? p = some pre.length := by
  have h1 : pre.findIdx? p = none := List.findIdx?_eq_none_iff.mpr hpre
  simp [List.findIdx?_append, h1, List.findIdx?_cons, he]

theorem find?_split {α : Type} (p : α → Bool) (pre post : List α) (e : α)
    (hpre : ∀ x ∈ pre, p x = false) (he : p e = true) :
    (pre ++ e :: post).find? p = some e := by
  have h1 : pre.find? p = none := by
    rw [List.find?_eq_none]
    intro x hx
    simp [hpre x hx]
  simp [List.find?_append, h1, List.find?_cons, he]

theorem modify_split {α : Type} (f : α → α) (pre post : List α) (e : α) :
    (pre ++ e :: post).modify f pre.length = pre ++ f e :: post := by
  induction pre with
  | nil => rfl
  | cons a pre ih => simp [List.modify_succ_cons, ih]

theorem enforceCap_of_le (l : List QuestionCacheEntry) (h : l.length ≤ 100) :
    enforceCap l = l := by
  simp [enforceCap, Nat.not_lt.mpr h]

theorem length_enforceCap_le (l : List QuestionCacheEntry) : (enforceCap l).length ≤ 100 := by
  unfold enforceCap
  split
  · simp
  · omega

section Store

variable (toLowerCase : JSString → JSString)

theorem upsert_update (pre post : List QuestionCacheEntry) (e : QuestionCacheEntry)
    (question answer : JSString) (now₁ now₂ : Int)
    (hpre : ∀ x ∈ pre, toLowerCase x.question ≠ toLowerCase question)
    (he : toLowerCase e.question = toLowerCase question) :
    upsert toLowerCase (pre ++ e :: post) question answer now₁ now₂ =
      pre ++ bumpEntry answer now₁ e :: post := by
  have h := findIdx?_split (fun item : QuestionCacheEntry =>
    toLowerCase item.question == toLowerCase question) pre post e
    (fun x hx => by simpa using hpre x hx) (by simpa using he)
  simp only [upsert, h, modify_split]

theorem upsert_push (cache : List QuestionCacheEntry) (question answer : JSString)
    (now₁ now₂ : Int)
    (hall : ∀ x ∈ cache, toLowerCase x.question ≠ toLowerCase question) :
    upsert toLowerCase cache question answer now₁ now₂ =
      cache ++ [{ question := question, answer := answer, addedAt := now₁, lastUsed := now₂,
                  useCount := 1 }] := by
  have h : cache.findIdx? (fun item : QuestionCacheEntry =>
      toLowerCase item.question == toLowerCase question) = none :=
    List.findIdx?_eq_none_iff.mpr (fun x hx => by simpa using hall x hx)
  simp only [upsert, h]

theorem storedEntry_update (pre post : List QuestionCacheEntry) (e : QuestionCacheEntry)
    (question answer : JSString) (now₁ now₂ : Int)
    (hpre : ∀ x ∈ pre, toLowerCase x.question ≠ toLowerCase question)
    (he : toLowerCase e.question = toLowerCase question) :
    storedEntry toLowerCase (pre ++ e :: post) question answer now₁ now₂ =
      bumpEntry answer now₁ e := by
  have h := find?_split (fun item : QuestionCacheEntry =>
    toLowerCase item.question == toLowerCase question) pre post e
    (fun x hx => by simpa using hpre x hx) (by simpa using he)
  simp only [storedEntry, h]

theorem storedEntry_push (cache : List QuestionCacheEntry) (question answer : JSString)
    (now₁ now₂ : Int)
    (hall : ∀ x ∈ cache, toLowerCase x.question ≠ toLowerCase question) :
    storedEntry toLowerCase cache question answer now₁ now₂ =
      { question := question, answer := answer, addedAt := now₁, lastUsed := now₂,
        useCount := 1 } := by
  have h : cache.find? (fun item : QuestionCacheEntry =>
      toLowerCase item.question == toLowerCase question) = none := by
    rw [List.find?_eq_none]
    intro x hx
    simpa using hall x hx
  simp only [storedEntry, h]

/-- The list before the cap step is the prior cache with the stored entry
either in the place of the first entry of the same question or at the end. -/
theorem upsert_cases (cache : List QuestionCacheEntry) (question answer : JSString)
    (now₁ now₂ : Int) :
    ((∀ x ∈ cache, toLowerCase x.question ≠ toLowerCase question) ∧
      upsert toLowerCase cache question answer now₁ now₂ =
        cache ++ [storedEntry toLowerCase cache question answer now₁ now₂]) ∨
    ∃ pre e post, cache = pre ++ e :: post ∧
      (∀ x ∈ pre, toLowerCase x.question ≠ toLowerCase question) ∧
      toLowerCase e.question = toLowerCase question ∧
      upsert toLowerCase cache question answer now₁ now₂ =
        pre ++ storedEntry toLowerCase cache question answer now₁ now₂ :: post := by
  rcases first_split (fun item : QuestionCacheEntry =>
    toLowerCase item.question == toLowerCase question) cache with hall | ⟨pre, e, post, hl, hpre, he⟩
  · left
    have hall' : ∀ x ∈ cache, toLowerCase x.question ≠ toLowerCase question :=
      fun x hx => by simpa using hall x hx
    exact ⟨hall', by rw [upsert_push toLowerCase cache question answer now₁ now₂ hall',
      storedEntry_push toLowerCase cache question answer now₁ now₂ hall']⟩
  · right
    have hpre' : ∀ x ∈ pre, toLowerCase x.question ≠ toLowerCase question :=
      fun x hx => by simpa using hpre x hx
    have he' : toLowerCase e.question = toLowerCase question := by simpa using he
    refine ⟨pre, e, post, hl, hpre', he', ?_⟩
    subst hl
    rw [upsert_update toLowerCase pre post e question answer now₁ now₂ hpre' he',
      storedEntry_update toLowerCase pre post e question answer now₁ now₂ hpre' he']

theorem length_upsert_le (cache : List QuestionCacheEntry) (question answer : JSString)
    (now₁ now₂ : Int) :
    (upsert toLowerCase cache question answer now₁ now₂).length ≤ cache.length + 1 := by
  rcases upsert_cases toLowerCase cache question answer now₁ now₂ with
    ⟨_, h⟩ | ⟨pre, e, post, hl, _, _, h⟩
  · simp [h]
  · rw [h, hl]
    simp

theorem storedEntry_mem_upsert (cache : List QuestionCacheEntry) (question answer : JSString)
    (now₁ now₂ : Int) :
    storedEntry toLowerCase cache question answer now₁ now₂ ∈
      upsert toLowerCase cache question answer now₁ now₂ := by
  rcases upsert_cases toLowerCase cache question answer now₁ now₂ with
    ⟨_, h⟩ | ⟨pre, e, post, _, _, _, h⟩
  · simp [h]
  · simp [h]

theorem mem_upsert (cache : List QuestionCacheEntry) (question answer : JSString)
    (now₁ now₂ : Int) (x : QuestionCacheEntry)
    (hx : x ∈ upsert toLowerCase cache question answer now₁ now₂) :
    x = storedEntry toLowerCase cache question answer now₁ now₂ ∨ x ∈ cache := by
  rcases upsert_cases toLowerCase cache question answer now₁ now₂ with
    ⟨_, h⟩ | ⟨pre, e, post, hl, _, _, h⟩
  · rw [h] at hx
    simp only [List.mem_append, List.mem_singleton] at hx
    tauto
  · rw [h] at hx
    subst hl
    simp only [List.mem_append, List.mem_cons] at hx ⊢
    tauto

/-- C8: `saveToQuestionCache(Q, A)` on a cache below the cap. If some entry's
question equals `Q` ignoring case, the first such entry gets answer `A`, the
clock reading as `lastUsed` and `useCount` increased by exactly 1, while the
number of entries, their order, that entry's question and `addedAt`, and every
other entry stay unchanged; otherwise exactly one entry
`{question: Q, answer: A, useCount: 1}` is appended at the end and all existing
entries stay unchanged. Entries carry a `useCount` of at least 1, as the data
model requires. -/
theorem saveToQuestionCache_below_cap (cache : List QuestionCacheEntry)
    (question answer : JSString) (now₁ now₂ : Int) (below : cache.length < 100) :
    (∀ (pre post : List QuestionCacheEntry) (e : QuestionCacheEntry),
      cache = pre ++ e :: post →
      (∀ x ∈ pre, toLowerCase x.question ≠ toLowerCase question) →
      toLowerCase e.question = toLowerCase question →
      1 ≤ e.useCount →
      saveToQuestionCache toLowerCase cache question answer now₁ now₂ =
        pre ++ { question := e.question, answer := answer, addedAt := e.addedAt,
                 lastUsed := now₁, useCount := e.useCount + 1 } :: post) ∧
    ((∀ x ∈ cache, toLowerCase x.question ≠ toLowerCase question) →
      saveToQuestionCache toLowerCase cache question answer now₁ now₂ =
        cache ++ [{ question := question, answer := answer, addedAt := now₁,
                    lastUsed := now₂, useCount := 1 }]) := by
  have hcap : enforceCap (upsert toLowerCase cache question answer now₁ now₂) =
      upsert toLowerCase cache question answer now₁ now₂ := by
    apply enforceCap_of_le
    have := length_upsert_le toLowerCase cache question answer now₁ now₂
    omega
  constructor
  · intro pre post e hl hpre he hcount
    have hne : e.useCount ≠ 0 := by omega
    rw [saveToQuestionCache, hcap, hl,
      upsert_update toLowerCase pre post e question answer now₁ now₂ hpre he]
    simp [bumpEntry, hne]
  · intro hall
    rw [saveToQuestionCache, hcap, upsert_push toLowerCase cache question answer now₁ now₂ hall]

/-- C9: starting from a cache of at most 100 entries, after any sequence of
`saveToQuestionCache` calls the cache has at most 100 entries. -/
theorem saveAll_length_le (cache : List QuestionCacheEntry) (calls : List SaveCall)
    (h : cache.length ≤ 100) :
    (saveAll toLowerCase cache calls).length ≤ 100 := by
  induction calls generalizing cache with
  | nil => simpa [saveAll] using h
  | cons call calls ih =>
    have := ih (saveToQuestionCache toLowerCase cache call.question call.answer call.now₁
      call.now₂) (length_enforceCap_le _)
    simpa [saveAll] using this

/-- C6 (as amended): store-then-resolve round trip. For every cache state
below the cap in which every entry that matches `Q` under the lookup rules has
a question equal to `Q` ignoring case, and every non-empty answer `A`: after
`saveToQuestionCache(Q, A)` the call `getSmartAnswer(Q, field)` returns
`{value: A, source: 'cache', confidence: 'high'}` for every field. -/
theorem getSmartAnswer_after_save (cache : List QuestionCacheEntry)
    (question answer : JSString) (now₁ now₂ : Int) (profile : UserProfile)
    (preferences : UserPreferences) (resumeText : Option JSString)
    (chatResult : Except JSString JSString) (field : FieldDescriptor)
    (nonEmpty : answer ≠ [])
    (below : cache.length < 100)
    (own : ∀ x ∈ cache, Matches toLowerCase (trim (toLowerCase question)) x →
      toLowerCase x.question = toLowerCase question) :
    getSmartAnswer toLowerCase (saveToQuestionCache toLowerCase cache question answer now₁ now₂)
        profile preferences resumeText chatResult question field =
      { value := some answer, source := .cache, confidence := .high } := by
  have hcap : saveToQuestionCache toLowerCase cache question answer now₁ now₂ =
      upsert toLowerCase cache question answer now₁ now₂ := by
    apply enforceCap_of_le
    have := length_upsert_le toLowerCase cache question answer now₁ now₂
    omega
  have miss : ∀ x ∈ cache, toLowerCase x.question ≠ toLowerCase question →
      cacheMatch toLowerCase (trim (toLowerCase question)) x = false := by
    intro x hx hne
    cases hm : cacheMatch toLowerCase (trim (toLowerCase question)) x with
    | false => rfl
    | true => exact absurd (own x hx ((cacheMatch_iff toLowerCase _ x).mp hm)) hne
  have hlookup : checkQuestionCache toLowerCase
      (saveToQuestionCache toLowerCase cache question answer now₁ now₂) question =
      some answer := by
    rw [hcap]
    rcases upsert_cases toLowerCase cache question answer now₁ now₂ with
      ⟨hall, h⟩ | ⟨pre, e, post, hl, hpre, he, h⟩
    · rw [h, storedEntry_push toLowerCase cache question answer now₁ now₂ hall]
      exact checkQuestionCache_first toLowerCase cache [] _ question
        (fun x hx => miss x hx (hall x hx)) (cacheMatch_of_eq toLowerCase _ _ rfl)
    · rw [h]
      subst hl
      rw [storedEntry_update toLowerCase pre post e question answer now₁ now₂ hpre he]
      exact checkQuestionCache_first toLowerCase pre post (bumpEntry answer now₁ e) question
        (fun x hx => miss x (List.mem_append_left _ hx) (hpre x hx))
        (cacheMatch_of_eq toLowerCase _ _ (by simp [bumpEntry, he]))
  have ht : truthy (checkQuestionCache toLowerCase
      (saveToQuestionCache toLowerCase cache question answer now₁ now₂) question) = true := by
    rw [hlookup]
    exact (truthy_iff _).mpr ⟨answer, rfl, nonEmpty⟩
  rw [getSmartAnswer_of_truthy toLowerCase _ profile preferences resumeText chatResult question
    field ht, hlookup]

/-- C10 (as amended): whenever a `saveToQuestionCache` call drops entries to
enforce the cap, the retained entries are 100 entries of the list, the dropped
ones are the rest, every dropped entry has a `lastUsed` no later than that of
every retained entry, and the entry just stored or updated is retained when
its timestamp is strictly later than the `lastUsed` of every entry of the
prior cache. -/
theorem saveToQuestionCache_eviction (cache : List QuestionCacheEntry)
    (question answer : JSString) (now₁ now₂ : Int)
    (over : (upsert toLowerCase cache question answer now₁ now₂).length > 100) :
    ∃ dropped : List QuestionCacheEntry,
      (saveToQuestionCache toLowerCase cache question answer now₁ now₂ ++ dropped).Perm
        (upsert toLowerCase cache question answer now₁ now₂) ∧
      (saveToQuestionCache toLowerCase cache question answer now₁ now₂).length = 100 ∧
      (∀ d ∈ dropped, ∀ r ∈ saveToQuestionCache toLowerCase cache question answer now₁ now₂,
        d.lastUsed ≤ r.lastUsed) ∧
      ((∀ x ∈ cache,
          x.lastUsed < (storedEntry toLowerCase cache question answer now₁ now₂).lastUsed) →
        storedEntry toLowerCase cache question answer now₁ now₂ ∈
          saveToQuestionCache toLowerCase cache question answer now₁ now₂) := by
  have hsave : saveToQuestionCache toLowerCase cache question answer now₁ now₂ =
      ((upsert toLowerCase cache question answer now₁ now₂).insertionSort usedNoEarlier).take
        100 := by
    simp [saveToQuestionCache, enforceCap, over]
  have hsorted := List.sorted_insertionSort usedNoEarlier
    (upsert toLowerCase cache question answer now₁ now₂)
  have hperm := List.perm_insertionSort usedNoEarlier
    (upsert toLowerCase cache question answer now₁ now₂)
  have hlen : (saveToQuestionCache toLowerCase cache question answer now₁ now₂).length =
      100 := by
    rw [hsave, List.length_take, List.length_insertionSort]
    omega
  have hdrop : ∀ d ∈ ((upsert toLowerCase cache question answer now₁ now₂).insertionSort
      usedNoEarlier).drop 100,
      ∀ r ∈ saveToQuestionCache toLowerCase cache question answer now₁ now₂,
        d.lastUsed ≤ r.lastUsed := by
    intro d hd r hr
    rw [hsave] at hr
    exact hsorted.rel_of_mem_take_of_mem_drop hr hd
  refine ⟨((upsert toLowerCase cache question answer now₁ now₂).insertionSort
    usedNoEarlier).drop 100, ?_, hlen, hdrop, ?_⟩
  · rw [hsave, List.take_append_drop]
    exact hperm
  · intro later
    by_contra hnot
    have hmem : storedEntry toLowerCase cache question answer now₁ now₂ ∈
        (upsert toLowerCase cache question answer now₁ now₂).insertionSort usedNoEarlier :=
      hperm.mem_iff.mpr (storedEntry_mem_upsert toLowerCase cache question answer now₁ now₂)
    rw [← List.take_append_drop 100 ((upsert toLowerCase cache question answer now₁
      now₂).insertionSort usedNoEarlier), List.mem_append, ← hsave] at hmem
    rcases hmem with hmem | hmem
    · exact hnot hmem
    · obtain ⟨r, hr⟩ := List.exists_mem_of_length_pos (by omega :
        0 < (saveToQuestionCache toLowerCase cache question answer now₁ now₂).length)
      have hle := hdrop _ hmem r hr
      have hr' : r ∈ upsert toLowerCase cache question answer now₁ now₂ := by
        rw [hsave] at hr
        exact hperm.mem_iff.mp (List.mem_of_mem_take hr)
      rcases mem_upsert toLowerCase cache question answer now₁ now₂ r hr' with heq | hold
      · exact hnot (heq ▸ hr)
      · have := later r hold
        omega

end Store

/-! ## Evaluations of the store and of the round trip -/

/-- The keywords of the mapping do not depend on the records. -/
theorem mappings_keys (profile : UserProfile) (preferences : UserPreferences) :
    (mappings profile preferences).map Prod.fst = (mappings {} {}).map Prod.fst :=
  rfl

theorem checkProfileForAnswer_no_keyword (toLowerCase : JSString → JSString)
    (profile : UserProfile) (preferences : UserPreferences) (question : JSString)
    (field : FieldDescriptor)
    (h : ∀ k ∈ (mappings {} {}).map Prod.fst, includes (toLowerCase question) k = false) :
    checkProfileForAnswer toLowerCase profile preferences question field = none := by
  have hnone : (mappings profile preferences).find? (mappingHit (toLowerCase question)) =
      none := by
    rw [List.find?_eq_none]
    intro x hx
    have hk : x.1 ∈ (mappings {} {}).map Prod.fst := by
      rw [← mappings_keys profile preferences]
      exact List.mem_map_of_mem Prod.fst hx
    simp [mappingHit, h x.1 hk]
  simp only [checkProfileForAnswer, hnone]

set_option maxRecDepth 100000 in
/-- C7, evaluated on the code: with the cache holding only the entry saved for
`What is your biggest strength?`, the question
`What would you say is your biggest strength?` is not matched. The normalized
strings have lengths 30 and 44 and edit distance 14, neither contains the
other, the similarity test `> 0.8` fails, the lookup returns `null`, and
`getSmartAnswer` answers from the AI tier whatever the profile holds. -/
theorem getSmartAnswer_rephrased_question_misses :
    saveToQuestionCache asciiLower [] "What is your biggest strength?".toList
        "Problem-solving and technical leadership".toList 0 0 =
      [entryAt0 "What is your biggest strength?" "Problem-solving and technical leadership"] ∧
    levenshteinDistance
        (trim (asciiLower "What would you say is your biggest strength?".toList))
        (trim (asciiLower "What is your biggest strength?".toList)) = 14 ∧
    (trim (asciiLower "What would you say is your biggest strength?".toList)).length = 44 ∧
    ¬ calculateSimilarity (trim (asciiLower "What is your biggest strength?".toList))
        (trim (asciiLower "What would you say is your biggest strength?".toList)) > 8 / 10 ∧
    checkQuestionCache asciiLower
        [entryAt0 "What is your biggest strength?" "Problem-solving and technical leadership"]
        "What would you say is your biggest strength?".toList = none ∧
    ∀ (profile : UserProfile) (preferences : UserPreferences) (resumeText : Option JSString)
        (chatResult : Except JSString JSString) (field : FieldDescriptor),
      getSmartAnswer asciiLower
          [entryAt0 "What is your biggest strength?" "Problem-solving and technical leadership"]
          profile preferences resumeText chatResult
          "What would you say is your biggest strength?".toList field =
        { value := askAIForAnswer chatResult, source := .ai, confidence := .medium } := by
  have hlookup : checkQuestionCache asciiLower
      [entryAt0 "What is your biggest strength?" "Problem-solving and technical leadership"]
      "What would you say is your biggest strength?".toList = none := by
    simp only [checkQuestionCache, cacheMatch_eval]
    decide
  refine ⟨by decide, by decide, by decide, ?_, hlookup, ?_⟩
  · rw [calculateSimilarity_gt_iff]
    decide
  · intro profile preferences resumeText chatResult field
    exact getSmartAnswer_of_misses asciiLower _ profile preferences resumeText chatResult _ field
      hlookup (checkProfileForAnswer_no_keyword asciiLower profile preferences _ field
        (by decide))

set_option maxRecDepth 100000 in
/-- C6, as stated, fails in two ways. An earlier entry whose question is
contained in `Q` answers in place of the stored one; and on a full cache whose
entries were all used at the time of the call, the pushed entry is the one
that the cap step drops, so the store leaves the cache as it was and the
lookup of `Q` yields `null`. -/
theorem getSmartAnswer_after_save_fails :
    getSmartAnswer asciiLower
        (saveToQuestionCache asciiLower [entryAt0 "strength" "X"]
          "What is your biggest strength?".toList "A".toList 1 1)
        {} {} none (.error []) "What is your biggest strength?".toList {} =
      { value := some "X".toList, source := .cache, confidence := .high } ∧
    saveToQuestionCache asciiLower fullCache "b".toList "A".toList 0 0 = fullCache ∧
    getSmartAnswer asciiLower (saveToQuestionCache asciiLower fullCache "b".toList "A".toList 0 0)
        {} {} none (.error []) "b".toList {} =
      { value := none, source := .ai, confidence := .medium } := by
  have hsave : saveToQuestionCache asciiLower fullCache "b".toList "A".toList 0 0 = fullCache := by
    decide
  refine ⟨by decide, hsave, ?_⟩
  rw [hsave]
  apply getSmartAnswer_of_misses
  · simp only [checkQuestionCache, cacheMatch_eval]
    decide
  · unfold checkProfileForAnswer
    decide

set_option maxRecDepth 100000 in
/-- The round trip on a cache that already holds the question in another
spelling of case, behind an entry that does not match it. -/
theorem getSmartAnswer_after_save_witness :
    getSmartAnswer asciiLower
        (saveToQuestionCache asciiLower
          [entryAt0 "email" "X", entryAt0 "what is your biggest strength?" "old"]
          "What is your biggest strength?".toList "A".toList 1 1)
        {} {} none (.error []) "What is your biggest strength?".toList {} =
      { value := some "A".toList, source := .cache, confidence := .high } :=
  getSmartAnswer_after_save asciiLower
    [entryAt0 "email" "X", entryAt0 "what is your biggest strength?" "old"]
    "What is your biggest strength?".toList "A".toList 1 1 {} {} none (.error []) {}
    (by decide) (by decide) (by
      intro x hx hm
      rw [← cacheMatch_iff, cacheMatch_eval] at hm
      revert x
      decide)

/-- The two branches of the store below the cap, evaluated: the entry `Name`
is updated in place by a save of `NAME`, and a cache without the question gets
one entry appended. -/
theorem saveToQuestionCache_below_cap_witness :
    saveToQuestionCache asciiLower ([entryAt0 "email" "X"] ++ entryAt0 "Name" "old" :: [])
        "NAME".toList "new".toList 5 6 =
      [entryAt0 "email" "X"] ++
        { question := "Name".toList, answer := "new".toList, addedAt := 0, lastUsed := 5,
          useCount := 2 } :: [] ∧
    saveToQuestionCache asciiLower [entryAt0 "email" "X"] "NAME".toList "new".toList 5 6 =
      [entryAt0 "email" "X"] ++
        [{ question := "NAME".toList, answer := "new".toList, addedAt := 5, lastUsed := 6,
           useCount := 1 }] :=
  ⟨(saveToQuestionCache_below_cap asciiLower
      ([entryAt0 "email" "X"] ++ entryAt0 "Name" "old" :: []) "NAME".toList "new".toList 5 6
      (by decide)).1 [entryAt0 "email" "X"] [] (entryAt0 "Name" "old") rfl (by decide)
      (by decide) (by decide),
   (saveToQuestionCache_below_cap asciiLower [entryAt0 "email" "X"] "NAME".toList
      "new".toList 5 6 (by decide)).2 (by decide)⟩

set_option maxRecDepth 100000 in
/-- Two stores on a full cache keep it at the cap. -/
theorem saveAll_length_le_witness :
    fullCache.length ≤ 100 ∧
    (saveAll asciiLower fullCache
      [{ question := "b".toList, answer := "x".toList, now₁ := 1, now₂ := 2 },
       { question := "c".toList, answer := "y".toList, now₁ := 3, now₂ := 4 }]).length ≤ 100 :=
  ⟨by decide, saveAll_length_le asciiLower fullCache _ (by decide)⟩

set_option maxRecDepth 100000 in
/-- C10, as stated, fails where timestamps tie: every entry of the full cache
was last used at time 0, the store of a new question at time 0 (no earlier
than any of them) pushes entry number 101, and the stable sort leaves that
entry last, so it is the one dropped. -/
theorem saveToQuestionCache_drops_stored_entry :
    (∀ e ∈ fullCache, e.lastUsed ≤ 0) ∧
    (upsert asciiLower fullCache "b".toList "A".toList 0 0).length = 101 ∧
    storedEntry asciiLower fullCache "b".toList "A".toList 0 0 =
      { question := "b".toList, answer := "A".toList, addedAt := 0, lastUsed := 0,
        useCount := 1 } ∧
    storedEntry asciiLower fullCache "b".toList "A".toList 0 0 ∉
      saveToQuestionCache asciiLower fullCache "b".toList "A".toList 0 0 := by
  decide

set_option maxRecDepth 100000 in
/-- The cap step on a full cache with a store at a strictly later time: the
list overflows and the stored entry is retained. -/
theorem saveToQuestionCache_eviction_witness :
    (upsert asciiLower fullCache "b".toList "A".toList 5 5).length > 100 ∧
    storedEntry asciiLower fullCache "b".toList "A".toList 5 5 ∈
      saveToQuestionCache asciiLower fullCache "b".toList "A".toList 5 5 :=
  ⟨by decide, by
    obtain ⟨_, _, _, _, h⟩ :=
      saveToQuestionCache_eviction asciiLower fullCache "b".toList "A".toList 5 5 (by decide)
    exact h (by decide)⟩

/-! ## Conversation session: the sliding window -/

theorem addAll_history (state : ConversationState) (messages : List ConversationMessage) :
    (addAll state messages).conversationHistory =
      messages.foldl pushMessage state.conversationHistory := by
  induction messages generalizing state with
  | nil => rfl
  | cons m ms ih =>
    simp only [addAll, List.foldl_cons] at ih ⊢
    rw [ih]
    rfl

/-- One push on a list made of a head and at most 20 further messages keeps
the head and the last 20 of the others. -/
theorem pushMessage_window (first : ConversationMessage) (rest : List ConversationMessage)
    (m : ConversationMessage) (h : rest.length ≤ 20) :
    pushMessage (first :: rest) m =
      first :: (rest ++ [m]).drop ((rest ++ [m]).length - 20) := by
  unfold pushMessage sliceLast20
  simp only [List.cons_append, List.length_cons, List.length_append, List.length_nil]
  by_cases hlen : rest.length = 20
  · have hgt : rest.length + (0 + 1) + 1 > 21 := by omega
    rw [if_pos hgt]
    have h1 : rest.length + (0 + 1) + 1 - 20 = (rest.length + (0 + 1) - 20) + 1 := by omega
    rw [h1, List.drop_succ_cons]
    rfl
  · have hle : ¬ rest.length + (0 + 1) + 1 > 21 := by omega
    rw [if_neg hle]
    have h0 : rest.length + (0 + 1) - 20 = 0 := by omega
    rw [h0, List.drop_zero]

theorem drop_last20_snoc (p : List ConversationMessage) (m : ConversationMessage) :
    (p.drop (p.length - 20) ++ [m]).drop ((p.drop (p.length - 20) ++ [m]).length - 20) =
      (p ++ [m]).drop ((p ++ [m]).length - 20) := by
  simp only [List.length_append, List.length_drop, List.length_cons, List.length_nil]
  by_cases h : p.length < 20
  · have h0 : p.length - 20 = 0 := by omega
    simp [h0]
  · have h1 : p.length - (p.length - 20) + (0 + 1) - 20 = 1 := by omega
    have h2 : p.length + (0 + 1) - 20 = (p.length - 20) + 1 := by omega
    rw [h1, h2]
    rw [List.drop_append_of_le_length (by simp; omega),
      List.drop_append_of_le_length (by omega), List.drop_drop]

/-- The message list after a start and any pushes: the head, then the last 20
of the pushed messages. -/
theorem foldl_pushMessage (first : ConversationMessage) (messages : List ConversationMessage) :
    messages.foldl pushMessage [first] =
      first :: messages.drop (messages.length - 20) := by
  induction messages using List.reverseRecOn with
  | nil => rfl
  | append_singleton p m ih =>
    rw [List.foldl_append, ih]
    simp only [List.foldl_cons, List.foldl_nil]
    rw [pushMessage_window first _ m (by simp; omega)]
    rw [drop_last20_snoc]

/-- C12: for every job context and every finite sequence of
`addToConversation` calls made after `initializeConversation`, the message
list has at most 21 entries and entry 0 is the system message that
`initializeConversation` created, whose role is `system`. -/
theorem conversation_bounded (prior : ConversationState) (jobContext : JobContext) (now : Int)
    (messages : List ConversationMessage) :
    ((addAll (initializeConversation prior jobContext now)
        messages).conversationHistory).length ≤ 21 ∧
    (addAll (initializeConversation prior jobContext now) messages).conversationHistory.head? =
      some (systemMessage jobContext) ∧
    (systemMessage jobContext).role = "system".toList := by
  rw [addAll_history]
  simp only [initializeConversation, foldl_pushMessage]
  refine ⟨?_, rfl, rfl⟩
  simp only [List.length_cons, List.length_drop]
  omega

/-- C13: after `initializeConversation` followed by `n` calls of
`addToConversation` with the messages `m1..mn`, the list is the system message
followed by all of them when `n ≤ 20`, and by the 20 most recent ones in their
order when `n > 20`; for `n = 22` it has 21 entries, entry 0 is the system
message and the two oldest messages are gone. -/
theorem conversation_window (prior : ConversationState) (jobContext : JobContext) (now : Int)
    (messages : List ConversationMessage) :
    (messages.length ≤ 20 →
      (addAll (initializeConversation prior jobContext now) messages).conversationHistory =
        systemMessage jobContext :: messages) ∧
    (messages.length > 20 →
      (addAll (initializeConversation prior jobContext now) messages).conversationHistory =
        systemMessage jobContext :: messages.drop (messages.length - 20) ∧
      (messages.drop (messages.length - 20)).length = 20 ∧
      messages.drop (messages.length - 20) <:+ messages) ∧
    (messages.length = 22 →
      ((addAll (initializeConversation prior jobContext now)
        messages).conversationHistory).length = 21 ∧
      (addAll (initializeConversation prior jobContext now) messages).conversationHistory =
        systemMessage jobContext :: messages.drop 2) := by
  have key : (addAll (initializeConversation prior jobContext now)
      messages).conversationHistory =
      systemMessage jobContext :: messages.drop (messages.length - 20) := by
    rw [addAll_history]
    simp only [initializeConversation, foldl_pushMessage]
  refine ⟨?_, ?_, ?_⟩
  · intro h
    rw [key, Nat.sub_eq_zero_of_le h, List.drop_zero]
  · intro h
    refine ⟨key, ?_, List.drop_suffix _ _⟩
    rw [List.length_drop]
    omega
  · intro h
    refine ⟨?_, ?_⟩
    · rw [key, List.length_cons, List.length_drop]
      omega
    · rw [key, h]

/-- C14: `initializeConversation(job)`, from any prior state, leaves the
message list equal to exactly one message, with role `system` and a content
that contains `job.jobTitle` and `job.company`, and sets the current session to
the job's `jobTitle`, `company` and `url`; nothing of the prior state remains. -/
theorem initializeConversation_resets (prior : ConversationState) (jobContext : JobContext)
    (now : Int) :
    (initializeConversation prior jobContext now).conversationHistory =
      [systemMessage jobContext] ∧
    (systemMessage jobContext).role = "system".toList ∧
    jobContext.jobTitle <:+: (systemMessage jobContext).content ∧
    jobContext.company <:+: (systemMessage jobContext).content ∧
    (initializeConversation prior jobContext now).currentConversation =
      some { jobTitle := jobContext.jobTitle, company := jobContext.company, startedAt := now,
             url := jobContext.url } ∧
    ∀ other : ConversationState,
      initializeConversation other jobContext now =
        initializeConversation prior jobContext now := by
  refine ⟨rfl, rfl, ?_, ?_, rfl, fun _ => rfl⟩
  · exact ⟨systemPromptIntro, " at ".toList ++ jobContext.company ++ ".".toList, by
      simp only [systemMessage, List.append_assoc]⟩
  · exact ⟨systemPromptIntro ++ jobContext.jobTitle ++ " at ".toList, ".".toList, by
      simp only [systemMessage, List.append_assoc]⟩

/-- The window on two messages and on 22 messages, evaluated: two messages are
all kept; of 22 the two oldest are gone and 21 entries remain. -/
theorem conversation_window_witness :
    (addAll (initializeConversation (clearConversation ⟨none, []⟩) {} 0)
        (sampleMessages.take 2)).conversationHistory =
      systemMessage {} :: sampleMessages.take 2 ∧
    ((addAll (initializeConversation (clearConversation ⟨none, []⟩) {} 0)
        sampleMessages).conversationHistory).length = 21 ∧
    (addAll (initializeConversation (clearConversation ⟨none, []⟩) {} 0)
        sampleMessages).conversationHistory =
      systemMessage {} :: sampleMessages.drop 2 :=
  ⟨(conversation_window (clearConversation ⟨none, []⟩) {} 0 (sampleMessages.take 2)).1
      (by decide),
   ((conversation_window (clearConversation ⟨none, []⟩) {} 0 sampleMessages).2.2
      (by decide)).1,
   ((conversation_window (clearConversation ⟨none, []⟩) {} 0 sampleMessages).2.2
      (by decide)).2⟩

/-! ## The key of the question cache -/

section CacheKey

variable (toLowerCase : JSString → JSString)

theorem nodup_keys_upsert (cache : List QuestionCacheEntry) (question answer : JSString)
    (now₁ now₂ : Int)
    (h : (cache.map fun e => toLowerCase e.question).Nodup) :
    ((upsert toLowerCase cache question answer now₁ now₂).map
      fun e => toLowerCase e.question).Nodup := by
  rcases upsert_cases toLowerCase cache question answer now₁ now₂ with
    ⟨hall, hu⟩ | ⟨pre, e, post, hl, hpre, he, hu⟩
  · rw [hu, storedEntry_push toLowerCase cache question answer now₁ now₂ hall,
      List.map_append, List.map_singleton]
    apply List.Nodup.append h (List.nodup_singleton _)
    intro k hk hk'
    rw [List.mem_singleton] at hk'
    obtain ⟨x, hx, hxk⟩ := List.mem_map.mp hk
    exact hall x hx (hxk.trans hk')
  · rw [hu]
    subst hl
    rw [storedEntry_update toLowerCase pre post e question answer now₁ now₂ hpre he]
    simpa [bumpEntry] using h

theorem nodup_keys_enforceCap (cache : List QuestionCacheEntry)
    (h : (cache.map fun e => toLowerCase e.question).Nodup) :
    ((enforceCap cache).map fun e => toLowerCase e.question).Nodup := by
  unfold enforceCap
  split
  · have hperm := (List.perm_insertionSort usedNoEarlier cache).map
      fun e => toLowerCase e.question
    have hsorted := hperm.nodup_iff.mpr h
    exact hsorted.sublist ((List.take_sublist 100 _).map _)
  · exact h

/-- C11 (as amended): after any sequence of `saveToQuestionCache` calls
starting from the empty cache, no two cache entries have the same lower-cased
question text: the cache holds at most one entry per question, ignoring case. -/
theorem saveAll_nodup_keys (calls : List SaveCall) :
    ((saveAll toLowerCase [] calls).map fun e => toLowerCase e.question).Nodup := by
  have general : ∀ cache : List QuestionCacheEntry,
      (cache.map fun e => toLowerCase e.question).Nodup →
      ((saveAll toLowerCase cache calls).map fun e => toLowerCase e.question).Nodup := by
    induction calls with
    | nil => intro cache h; simpa [saveAll] using h
    | cons call calls ih =>
      intro cache h
      have step := nodup_keys_enforceCap toLowerCase _
        (nodup_keys_upsert toLowerCase cache call.question call.answer call.now₁ call.now₂ h)
      have := ih _ step
      simpa [saveAll, saveToQuestionCache] using this
  exact general [] List.nodup_nil

end CacheKey

/-- C11, as stated, fails: the store compares lower-cased questions without
trimming, so `a` and `a ` (with a trailing blank) get two entries, and both
have the normalized question `a`. -/
theorem saveAll_same_normalized_key :
    saveAll asciiLower []
        [{ question := "a".toList, answer := "x".toList, now₁ := 1, now₂ := 1 },
         { question := "a ".toList, answer := "y".toList, now₁ := 2, now₂ := 2 }] =
      [{ question := "a".toList, answer := "x".toList, addedAt := 1, lastUsed := 1,
         useCount := 1 },
       { question := "a ".toList, answer := "y".toList, addedAt := 2, lastUsed := 2,
         useCount := 1 }] ∧
    trim (asciiLower "a".toList) = trim (asciiLower "a ".toList) := by
  decide

/-! ## The resume and AI tiers -/

/-- C19: `checkResumeForAnswer` returns `null` for every question, every field
type and every outcome of loading the resume text; so `getSmartAnswer` never
returns a result with source `resume`, and its source and confidence are
always one of (cache, high), (profile, high), (ai, medium). -/
theorem checkResumeForAnswer_always_null :
    (∀ (resumeText : Option JSString) (question : JSString) (field : FieldDescriptor),
      checkResumeForAnswer resumeText question field = none) ∧
    ∀ (toLowerCase : JSString → JSString) (cache : List QuestionCacheEntry)
      (profile : UserProfile) (preferences : UserPreferences) (resumeText : Option JSString)
      (chatResult : Except JSString JSString) (question : JSString) (field : FieldDescriptor),
      (getSmartAnswer toLowerCase cache profile preferences resumeText chatResult question
        field).source ≠ .resume ∧
      (((getSmartAnswer toLowerCase cache profile preferences resumeText chatResult question
          field).source,
        (getSmartAnswer toLowerCase cache profile preferences resumeText chatResult question
          field).confidence) ∈
        [(Source.cache, Confidence.high), (Source.profile, Confidence.high),
         (Source.ai, Confidence.medium)]) := by
  have hnull : ∀ (resumeText : Option JSString) (question : JSString)
      (field : FieldDescriptor), checkResumeForAnswer resumeText question field = none := by
    intro resumeText question field
    unfold checkResumeForAnswer
    cases resumeText <;> simp
  refine ⟨hnull, ?_⟩
  intro toLowerCase cache profile preferences resumeText chatResult question field
  have htn : truthy none = false := rfl
  unfold getSmartAnswer
  simp only [hnull, htn]
  cases h1 : truthy (checkQuestionCache toLowerCase cache question) with
  | true => simp
  | false =>
    cases h2 : truthy (checkProfileForAnswer toLowerCase profile preferences question
        field) with
    | true => simp
    | false => simp

/-- C20: when the cache, profile and resume tiers all miss, `getSmartAnswer`
returns `{value: v, source: 'ai', confidence: 'medium'}`, where `v` is the
trimmed model text when the chat call succeeds and `null` when the chat call,
or anything else in the AI tier, fails; a failure is a result, not an
exception. -/
theorem getSmartAnswer_ai_tier (toLowerCase : JSString → JSString)
    (cache : List QuestionCacheEntry) (profile : UserProfile) (preferences : UserPreferences)
    (resumeText : Option JSString) (chatResult : Except JSString JSString)
    (question : JSString) (field : FieldDescriptor)
    (cacheMiss : truthy (checkQuestionCache toLowerCase cache question) = false)
    (profileMiss :
      truthy (checkProfileForAnswer toLowerCase profile preferences question field) = false)
    (resumeMiss : truthy (checkResumeForAnswer resumeText question field) = false) :
    getSmartAnswer toLowerCase cache profile preferences resumeText chatResult question field =
      { value :=
          match chatResult with
          | .ok text => some (trim text)
          | .error _ => none
        source := .ai
        confidence := .medium } := by
  unfold getSmartAnswer
  simp only [cacheMiss, profileMiss, resumeMiss, Bool.false_eq_true, if_false]
  cases chatResult <;> rfl

/-- The AI tier on an empty cache and profile, evaluated for a chat call that
answers and for one that fails. -/
theorem getSmartAnswer_ai_tier_witness :
    getSmartAnswer asciiLower [] {} {} none (.ok "  Because it fits. ".toList)
        "Why us?".toList {} =
      { value := some "Because it fits.".toList, source := .ai, confidence := .medium } ∧
    getSmartAnswer asciiLower [] {} {} (some "resume".toList) (.error "HTTP 500".toList)
        "Why us?".toList {} =
      { value := none, source := .ai, confidence := .medium } :=
  ⟨getSmartAnswer_ai_tier asciiLower [] {} {} none (.ok "  Because it fits. ".toList)
      "Why us?".toList {} (by decide) (by unfold checkProfileForAnswer; decide) (by decide),
   getSmartAnswer_ai_tier asciiLower [] {} {} (some "resume".toList)
      (.error "HTTP 500".toList) "Why us?".toList {} (by decide)
      (by unfold checkProfileForAnswer; decide) (by decide)⟩

/-! ## The matcher and the language of a pattern -/

theorem repGreedy_sound {α : Type} (test : Char → Bool) (k : JSString → Option α) (a : α) :
    ∀ (s : JSString) (min : Nat) (max : Option Nat),
      repGreedy test k min max s = some a →
      ∃ n, n ≤ s.length ∧ min ≤ n ∧ (∀ m, max = some m → n ≤ m) ∧
        (∀ x ∈ s.take n, test x = true) ∧ k (s.drop n) = some a
  | [], min, max, h => by
    simp only [repGreedy] at h
    split_ifs at h with h0
    exact ⟨0, le_refl _, by omega, fun m _ => Nat.zero_le m, by simp, by simpa using h⟩
  | x :: xs, min, max, h => by
    have stop : (if min = 0 then k (x :: xs) else none) = some a →
        ∃ n, n ≤ (x :: xs).length ∧ min ≤ n ∧ (∀ m, max = some m → n ≤ m) ∧
          (∀ y ∈ (x :: xs).take n, test y = true) ∧ k ((x :: xs).drop n) = some a := by
      intro h'
      split_ifs at h' with h0
      exact ⟨0, Nat.zero_le _, by omega, fun m _ => Nat.zero_le m, by simp, by simpa using h'⟩
    simp only [repGreedy] at h
    by_cases hx : test x = true ∧ max ≠ some 0
    · rw [if_pos hx] at h
      cases hrec : repGreedy test k (min - 1) (max.map fun m => m - 1) xs with
      | none =>
        rw [hrec] at h
        exact stop h
      | some b =>
        rw [hrec] at h
        have hb : b = a := by simpa using h
        subst hb
        obtain ⟨n, hn, hmin, hmax, hall, hk⟩ :=
          repGreedy_sound test k b xs (min - 1) (max.map fun m => m - 1) hrec
        refine ⟨n + 1, by simpa using hn, by omega, ?_, ?_, by simpa using hk⟩
        · intro m hm
          have := hmax (m - 1) (by simp [hm])
          have hm0 : m ≠ 0 := by
            intro h0
            exact hx.2 (by rw [hm, h0])
          omega
        · intro y hy
          simp only [List.take_succ_cons, List.mem_cons] at hy
          rcases hy with rfl | hy
          · exact hx.1
          · exact hall y hy
    · rw [if_neg hx] at h
      exact stop h

theorem repGreedy_complete {α : Type} (test : Char → Bool) (k : JSString → Option α) :
    ∀ (s : JSString) (min : Nat) (max : Option Nat) (n : Nat),
      n ≤ s.length → min ≤ n → (∀ m, max = some m → n ≤ m) →
      (∀ x ∈ s.take n, test x = true) → (k (s.drop n)).isSome = true →
      (repGreedy test k min max s).isSome = true
  | [], min, max, n, hn, hmin, _, _, hk => by
    have h0 : n = 0 := by simpa using hn
    subst h0
    have : min = 0 := by omega
    simpa [repGreedy, this] using hk
  | x :: xs, min, max, n, hn, hmin, hmax, hall, hk => by
    cases n with
    | zero =>
      have h0 : min = 0 := by omega
      simp only [repGreedy, h0, if_true]
      split_ifs
      · cases repGreedy test k (0 - 1) (max.map fun m => m - 1) xs with
        | none => simpa using hk
        | some b => rfl
      · simpa using hk
    | succ n =>
      have hx : test x = true := hall x (by simp)
      have hmax0 : max ≠ some 0 := by
        intro h0
        have := hmax 0 h0
        omega
      have hrec := repGreedy_complete test k xs (min - 1) (max.map fun m => m - 1) n
        (by simpa using hn) (by omega)
        (by
          intro m hm
          cases max with
          | none => simp at hm
          | some M =>
            have := hmax M rfl
            simp only [Option.map_some', Option.some.injEq] at hm
            omega)
        (fun y hy => hall y (by simp [hy])) (by simpa using hk)
      simp only [repGreedy, hx, hmax0, ne_eq, not_false_eq_true, and_self, if_true]
      cases hr : repGreedy test k (min - 1) (max.map fun m => m - 1) xs with
      | none => rw [hr] at hrec; simp at hrec
      | some b => rfl

/-- What the matcher finds is in the language of the pattern, and a pattern
without a group hands the capture on unchanged. -/
theorem run_sound {α : Type} (ic : Bool) (a : α) :
    ∀ (r : Regex) (s : JSString) (cap : Option JSString)
      (k : JSString → Option JSString → Option α),
      r.run ic s cap k = some a →
      ∃ rest cap', Accepts ic r s rest ∧ k rest cap' = some a ∧
        (r.groupFree = true → cap' = cap) := by
  intro r
  induction r with
  | empty =>
    intro s cap k h
    exact ⟨s, cap, Accepts.empty s, h, fun _ => rfl⟩
  | atom c =>
    intro s cap k h
    cases s with
    | nil => simp [Regex.run] at h
    | cons x xs =>
      simp only [Regex.run] at h
      split_ifs at h with hx
      exact ⟨xs, cap, Accepts.atom c x xs hx, h, fun _ => rfl⟩
  | rep c min max =>
    intro s cap k h
    simp only [Regex.run] at h
    obtain ⟨n, _, hmin, hmax, hall, hk⟩ := repGreedy_sound _ _ a s min max h
    refine ⟨s.drop n, cap, ?_, hk, fun _ => rfl⟩
    have hacc := @Accepts.rep ic c min max (s.take n) (s.drop n) hall
    rw [List.take_append_drop] at hacc
    apply hacc
    · rw [List.length_take]; omega
    · intro m hm
      rw [List.length_take]
      have := hmax m hm
      omega
  | seq r t ihr iht =>
    intro s cap k h
    simp only [Regex.run] at h
    obtain ⟨s₁, cap₁, hr, hk₁, hcap₁⟩ := ihr s cap _ h
    obtain ⟨s₂, cap₂, ht, hk₂, hcap₂⟩ := iht s₁ cap₁ k hk₁
    refine ⟨s₂, cap₂, Accepts.seq r t s s₁ s₂ hr ht, hk₂, ?_⟩
    intro hg
    simp only [Regex.groupFree, Bool.and_eq_true] at hg
    rw [hcap₂ hg.2, hcap₁ hg.1]
  | alt r t ihr iht =>
    intro s cap k h
    simp only [Regex.run] at h
    cases hrun : r.run ic s cap k with
    | none =>
      rw [hrun] at h
      obtain ⟨rest, cap', ht, hk, hcap⟩ := iht s cap k h
      refine ⟨rest, cap', Accepts.altRight r t s rest ht, hk, ?_⟩
      intro hg
      simp only [Regex.groupFree, Bool.and_eq_true] at hg
      exact hcap hg.2
    | some b =>
      rw [hrun] at h
      have hb : b = a := by simpa using h
      subst hb
      obtain ⟨rest, cap', hr, hk, hcap⟩ := ihr s cap k hrun
      refine ⟨rest, cap', Accepts.altLeft r t s rest hr, hk, ?_⟩
      intro hg
      simp only [Regex.groupFree, Bool.and_eq_true] at hg
      exact hcap hg.1
  | opt r ih =>
    intro s cap k h
    simp only [Regex.run] at h
    cases hrun : r.run ic s cap k with
    | none =>
      rw [hrun] at h
      exact ⟨s, cap, Accepts.optNone r s, h, fun _ => rfl⟩
    | some b =>
      rw [hrun] at h
      have hb : b = a := by simpa using h
      subst hb
      obtain ⟨rest, cap', hr, hk, hcap⟩ := ih s cap k hrun
      exact ⟨rest, cap', Accepts.optSome r s rest hr, hk, fun hg => hcap hg⟩
  | group r ih =>
    intro s cap k h
    simp only [Regex.run] at h
    obtain ⟨rest, _, hr, hk, _⟩ := ih s cap _ h
    exact ⟨rest, _, Accepts.group r s rest hr, hk, fun hg => by simp [Regex.groupFree] at hg⟩

/-- Whatever is in the language of the pattern is found by the matcher, when
the continuation accepts it. -/
theorem run_complete {α : Type} (ic : Bool) (r : Regex) (s rest : JSString)
    (h : Accepts ic r s rest) :
    ∀ (cap : Option JSString) (k : JSString → Option JSString → Option α),
      (∀ cap', (k rest cap').isSome = true) → (r.run ic s cap k).isSome = true := by
  induction h with
  | empty s => intro cap k hk; exact hk cap
  | atom c x s hx =>
    intro cap k hk
    simpa [Regex.run, hx] using hk cap
  | rep c min max xs s hall hmin hmax =>
    intro cap k hk
    simp only [Regex.run]
    apply repGreedy_complete _ _ (xs ++ s) min max xs.length
    · simp
    · exact hmin
    · exact hmax
    · simpa using hall
    · simpa using hk cap
  | seq r t s s₁ s₂ _ _ ihr iht =>
    intro cap k hk
    simp only [Regex.run]
    exact ihr cap _ (fun cap' => iht cap' k hk)
  | altLeft r t s rest _ ih =>
    intro cap k hk
    simp only [Regex.run]
    have := ih cap k hk
    cases hrun : r.run ic s cap k with
    | none => rw [hrun] at this; simp at this
    | some b => rfl
  | altRight r t s rest _ ih =>
    intro cap k hk
    simp only [Regex.run]
    cases hrun : r.run ic s cap k with
    | none => exact ih cap k hk
    | some b => rfl
  | optSome r s rest _ ih =>
    intro cap k hk
    simp only [Regex.run]
    have := ih cap k hk
    cases hrun : r.run ic s cap k with
    | none => rw [hrun] at this; simp at this
    | some b => rfl
  | optNone r s =>
    intro cap k hk
    simp only [Regex.run]
    cases hrun : r.run ic s cap k with
    | none => exact hk cap
    | some b => rfl
  | group r s rest _ ih =>
    intro cap k hk
    simp only [Regex.run]
    exact ih cap _ (fun _ => hk _)

/-! ## Characters -/

theorem isDigit_iff (c : Char) : c.isDigit = true ↔ 48 ≤ c.toNat ∧ c.toNat ≤ 57 := by
  simp only [Char.isDigit, Bool.and_eq_true, decide_eq_true_eq, UInt32.le_def, Char.toNat]
  exact Iff.rfl

theorem not_isDigit_of_white (c : Char) (h : isWhiteSpace c = true) : c.isDigit = false := by
  cases hd : c.isDigit with
  | false => rfl
  | true =>
    exfalso
    obtain ⟨h1, h2⟩ := (isDigit_iff c).mp hd
    simp only [isWhiteSpace, Bool.or_eq_true, Bool.and_eq_true, decide_eq_true_eq] at h
    omega

theorem not_white_of_isDigit (c : Char) (h : c.isDigit = true) : isWhiteSpace c = false := by
  cases hw : isWhiteSpace c with
  | false => rfl
  | true => rw [not_isDigit_of_white c hw] at h; exact absurd h (by simp)

theorem toLower_of_isDigit (c : Char) (h : c.isDigit = true) : c.toLower = c := by
  obtain ⟨_, h2⟩ := (isDigit_iff c).mp h
  simp only [Char.toLower]
  rw [if_neg (by omega)]

/-- A character whose lower-case form is not a lower-case letter is unchanged
by lower-casing. -/
theorem eq_of_toLower_eq (x c : Char) (hc : c.toNat < 97 ∨ 122 < c.toNat)
    (h : x.toLower = c) : x = c := by
  simp only [Char.toLower] at h
  by_cases hx : x.toNat ≥ 65 ∧ x.toNat ≤ 90
  · exfalso
    rw [if_pos hx] at h
    subst h
    obtain ⟨h1, h2⟩ := hx
    generalize x.toNat = n at h1 h2 hc
    interval_cases n <;> revert hc <;> decide
  · rw [if_neg hx] at h
    exact h

/-! ## Searching for a match -/

theorem search_some (r : Regex) (ic : Bool) (m : JSString × Option JSString) :
    ∀ s : JSString, search r ic s = some m →
      ∃ pre suf, s = pre ++ suf ∧ matchAt r ic suf = some m ∧
        ∀ pre' suf', s = pre' ++ suf' → pre'.length < pre.length →
          matchAt r ic suf' = none
  | [], h => by
    refine ⟨[], [], rfl, by simpa [search] using h, ?_⟩
    intro pre' suf' _ hlt
    simp at hlt
  | x :: xs, h => by
    simp only [search] at h
    cases hm : matchAt r ic (x :: xs) with
    | some m' =>
      rw [hm] at h
      have : m' = m := by simpa using h
      subst this
      refine ⟨[], x :: xs, rfl, hm, ?_⟩
      intro pre' suf' _ hlt
      simp at hlt
    | none =>
      rw [hm] at h
      obtain ⟨pre, suf, hs, hmatch, hfirst⟩ := search_some r ic m xs h
      refine ⟨x :: pre, suf, by rw [hs]; rfl, hmatch, ?_⟩
      intro pre' suf' hsplit hlt
      cases pre' with
      | nil =>
        simp only [List.nil_append] at hsplit
        rw [← hsplit]
        exact hm
      | cons y pre'' =>
        simp only [List.cons_append, List.cons.injEq] at hsplit
        exact hfirst pre'' suf' hsplit.2 (by simpa using hlt)

theorem search_none (r : Regex) (ic : Bool) :
    ∀ s : JSString, search r ic s = none →
      ∀ pre suf, s = pre ++ suf → matchAt r ic suf = none
  | [], h => by
    intro pre suf hs
    have : suf = [] := (List.append_eq_nil.mp hs.symm).2
    subst this
    simpa [search] using h
  | x :: xs, h => by
    simp only [search] at h
    cases hm : matchAt r ic (x :: xs) with
    | some m' => rw [hm] at h; simp at h
    | none =>
      rw [hm] at h
      intro pre suf hs
      cases pre with
      | nil =>
        simp only [List.nil_append] at hs
        rw [← hs]
        exact hm
      | cons y pre' =>
        simp only [List.cons_append, List.cons.injEq] at hs
        exact search_none r ic xs h pre' suf hs.2

/-! ## A captured number followed by a tail -/

theorem matchAt_numberThen (tail : Regex) (ic : Bool) (s : JSString) :
    matchAt (numberThen tail) ic s =
      repGreedy Char.isDigit
        (fun rest => tail.run ic rest (some (s.take (s.length - rest.length)))
          fun rest' cap => some (rest', cap)) 1 (some 3) s :=
  rfl

theorem matchAt_numberThen_sound (tail : Regex) (ic : Bool) (hfree : tail.groupFree = true)
    (s : JSString) (m : JSString × Option JSString)
    (h : matchAt (numberThen tail) ic s = some m) :
    ∃ ds rest, s = ds ++ rest ∧ IsNumber3 ds ∧ Accepts ic tail rest m.1 ∧ m.2 = some ds := by
  rw [matchAt_numberThen] at h
  obtain ⟨n, hn, hmin, hmax, hall, hk⟩ := repGreedy_sound _ _ m s 1 (some 3) h
  obtain ⟨rest, cap', hacc, hres, hcap⟩ := run_sound ic m tail _ _ _ hk
  have hm : m = (rest, cap') := by simpa using hres.symm
  have hc := hcap hfree
  have hlen : s.length - (s.drop n).length = n := by
    rw [List.length_drop]; omega
  rw [hlen] at hc
  refine ⟨s.take n, s.drop n, (List.take_append_drop n s).symm, ⟨?_, ?_, hall⟩, ?_, ?_⟩
  · intro h0
    have h1 : (s.take n).length = n := by rw [List.length_take]; omega
    rw [h0] at h1
    simp at h1
    omega
  · rw [List.length_take]
    have := hmax 3 rfl
    omega
  · rw [hm]; exact hacc
  · rw [hm]; exact hc

theorem matchAt_numberThen_complete (tail : Regex) (ic : Bool) (ds rest rest' : JSString)
    (hds : IsNumber3 ds) (hacc : Accepts ic tail rest rest') :
    (matchAt (numberThen tail) ic (ds ++ rest)).isSome = true := by
  rw [matchAt_numberThen]
  obtain ⟨hne, hlen, hdig⟩ := hds
  apply repGreedy_complete _ _ (ds ++ rest) 1 (some 3) ds.length
  · simp
  · cases ds with
    | nil => exact absurd rfl hne
    | cons d ds => simp
  · intro m hm
    have : m = 3 := by simpa using hm.symm
    omega
  · simpa using hdig
  · simp only [List.drop_left]
    exact run_complete ic tail rest rest' hacc _ _ (fun _ => rfl)

/-- Two runs of digits that start at the same place and are both followed by
something that is not a digit are the same run. -/
theorem digits_unique :
    ∀ (ds ds' rest rest' : JSString), ds ++ rest = ds' ++ rest' →
      (∀ c ∈ ds, c.isDigit = true) → (∀ c ∈ ds', c.isDigit = true) →
      (∀ c ∈ rest.head?, c.isDigit = false) → (∀ c ∈ rest'.head?, c.isDigit = false) →
      ds = ds'
  | [], [], _, _, _, _, _, _, _ => rfl
  | [], d' :: ds', rest, rest', h, _, hd', hr, _ => by
    exfalso
    simp only [List.nil_append, List.cons_append] at h
    have h1 := hr d' (by rw [h]; simp)
    rw [hd' d' (by simp)] at h1
    exact absurd h1 (by simp)
  | d :: ds, [], rest, rest', h, hd, _, _, hr' => by
    exfalso
    simp only [List.nil_append, List.cons_append] at h
    have h1 := hr' d (by rw [← h]; simp)
    rw [hd d (by simp)] at h1
    exact absurd h1 (by simp)
  | d :: ds, d' :: ds', rest, rest', h, hd, hd', hr, hr' => by
    simp only [List.cons_append, List.cons.injEq] at h
    rw [h.1, digits_unique ds ds' rest rest' h.2 (fun c hc => hd c (by simp [hc]))
      (fun c hc => hd' c (by simp [hc])) hr hr']

theorem parseInt_digits (ds : JSString) (hne : ds ≠ []) (hd : ∀ c ∈ ds, c.isDigit = true) :
    parseInt ds = some (decimal ds : Int) := by
  cases ds with
  | nil => exact absurd rfl hne
  | cons d ds =>
    have hdig : d.isDigit = true := hd d (by simp)
    have hw : isWhiteSpace d = false := not_white_of_isDigit d hdig
    have hminus : d ≠ '-' := by
      intro h; rw [h] at hdig; exact absurd hdig (by decide)
    have hplus : d ≠ '+' := by
      intro h; rw [h] at hdig; exact absurd hdig (by decide)
    have htake : (d :: ds).takeWhile Char.isDigit = d :: ds :=
      List.takeWhile_eq_self_iff.mpr hd
    have hdrop : (d :: ds).dropWhile isWhiteSpace = d :: ds := by
      simp [List.dropWhile, hw]
    have hsign : splitSign (d :: ds) = (false, d :: ds) := by
      unfold splitSign
      split
      · rename_i heq
        simp only [List.cons.injEq] at heq
        exact absurd heq.1 hminus
      · rename_i heq
        simp only [List.cons.injEq] at heq
        exact absurd heq.1 hplus
      · rfl
    simp [parseInt, hdrop, hsign, htake]

/-! ## The languages of the tails -/

theorem accepts_seq (ic : Bool) (r t : Regex) (s rest : JSString) :
    Accepts ic (.seq r t) s rest ↔ ∃ s₁, Accepts ic r s s₁ ∧ Accepts ic t s₁ rest := by
  constructor
  · intro h
    cases h with
    | seq _ _ _ s₁ _ hr ht => exact ⟨s₁, hr, ht⟩
  · rintro ⟨s₁, hr, ht⟩
    exact Accepts.seq r t s s₁ rest hr ht

theorem accepts_spaces (ic : Bool) (s rest : JSString) :
    Accepts ic (.rep .space 0 none) s rest ↔ ∃ ws, White ws ∧ s = ws ++ rest := by
  constructor
  · intro h
    cases h with
    | rep _ _ _ xs _ hall _ _ => exact ⟨xs, hall, rfl⟩
  · rintro ⟨ws, hws, rfl⟩
    exact Accepts.rep .space 0 none ws rest hws (Nat.zero_le _) (fun m hm => by simp at hm)

theorem accepts_lit (ic : Bool) (c : Char) (s rest : JSString) :
    Accepts ic (.atom (.lit c)) s rest ↔
      ∃ x, (CharClass.lit c).test ic x = true ∧ s = x :: rest := by
  constructor
  · intro h
    cases h with
    | atom _ x _ hx => exact ⟨x, hx, rfl⟩
  · rintro ⟨x, hx, rfl⟩
    exact Accepts.atom _ x rest hx

theorem accepts_empty (ic : Bool) (s rest : JSString) :
    Accepts ic .empty s rest ↔ s = rest := by
  constructor
  · intro h
    cases h with
    | empty _ => rfl
  · rintro rfl
    exact Accepts.empty s

theorem accepts_str (ic : Bool) :
    ∀ (text s rest : JSString),
      Accepts ic (Regex.str text) s rest ↔
        ∃ phrase, List.Forall₂ (fun c x => (CharClass.lit c).test ic x = true) text phrase ∧
          s = phrase ++ rest
  | [], s, rest => by
    simp only [Regex.str, accepts_empty]
    constructor
    · rintro rfl
      exact ⟨[], List.Forall₂.nil, rfl⟩
    · rintro ⟨phrase, hf, rfl⟩
      cases hf
      rfl
  | c :: cs, s, rest => by
    simp only [Regex.str, accepts_seq, accepts_lit, accepts_str ic cs]
    constructor
    · rintro ⟨s₁, ⟨x, hx, rfl⟩, phrase, hf, rfl⟩
      exact ⟨x :: phrase, List.Forall₂.cons hx hf, rfl⟩
    · rintro ⟨phrase, hf, rfl⟩
      cases hf with
      | cons hx hf' => exact ⟨_, ⟨_, hx, rfl⟩, _, hf', rfl⟩

theorem forall₂_lit_exact :
    ∀ (text phrase : JSString),
      List.Forall₂ (fun c x => (CharClass.lit c).test false x = true) text phrase ↔
        phrase = text
  | [], phrase => by
    constructor
    · intro h; cases h; rfl
    · rintro rfl; exact List.Forall₂.nil
  | c :: cs, phrase => by
    constructor
    · intro h
      cases h with
      | cons hx hf =>
        rw [(forall₂_lit_exact cs _).mp hf]
        simp only [CharClass.test, Bool.false_eq_true, if_false, beq_iff_eq] at hx
        rw [hx]
    · rintro rfl
      exact List.Forall₂.cons (by simp [CharClass.test]) ((forall₂_lit_exact cs cs).mpr rfl)

theorem forall₂_lit_fold :
    ∀ (text phrase : JSString),
      List.Forall₂ (fun c x => (CharClass.lit c).test true x = true) text phrase ↔
        phrase.map Char.toLower = text.map Char.toLower
  | [], phrase => by
    constructor
    · intro h; cases h; rfl
    · intro h
      have : phrase = [] := by simpa using h
      subst this
      exact List.Forall₂.nil
  | c :: cs, phrase => by
    constructor
    · intro h
      cases h with
      | cons hx hf =>
        simp only [CharClass.test, if_true, beq_iff_eq] at hx
        simp only [List.map_cons, hx, (forall₂_lit_fold cs _).mp hf]
    · intro h
      cases phrase with
      | nil => simp at h
      | cons x xs =>
        simp only [List.map_cons, List.cons.injEq] at h
        exact List.Forall₂.cons (by simp [CharClass.test, h.1])
          ((forall₂_lit_fold cs xs).mpr h.2)

/-- A text without lower-case letters is matched, ignoring case, by itself
only. -/
theorem map_toLower_eq :
    ∀ (text phrase : JSString), (∀ c ∈ text, c.toNat < 97 ∨ 122 < c.toNat) →
      phrase.map Char.toLower = text → phrase = text
  | [], phrase, _, h => by simpa using h
  | c :: cs, [], _, h => by simp at h
  | c :: cs, x :: xs, hc, h => by
    simp only [List.map_cons, List.cons.injEq] at h
    rw [eq_of_toLower_eq x c (hc c (by simp)) h.1,
      map_toLower_eq cs xs (fun y hy => hc y (by simp [hy])) h.2]

theorem accepts_percentTail (rest : JSString) :
    (∃ rest', Accepts false percentTail rest rest') ↔
      ∃ ws post, White ws ∧ rest = ws ++ '%' :: post := by
  simp only [percentTail, accepts_seq, accepts_spaces, accepts_lit]
  constructor
  · rintro ⟨rest', s₁, ⟨ws, hws, rfl⟩, x, hx, rfl⟩
    simp only [CharClass.test, Bool.false_eq_true, if_false, beq_iff_eq] at hx
    exact ⟨ws, rest', hws, by rw [hx]⟩
  · rintro ⟨ws, post, hws, rfl⟩
    exact ⟨post, _, ⟨ws, hws, rfl⟩, '%', by simp [CharClass.test], rfl⟩

theorem accepts_slashTail (rest : JSString) :
    (∃ rest', Accepts true slashTail rest rest') ↔
      ∃ ws₁ ws₂ post, White ws₁ ∧ White ws₂ ∧
        rest = ws₁ ++ '/' :: (ws₂ ++ ("100".toList ++ post)) := by
  simp only [slashTail, accepts_seq, accepts_spaces, accepts_lit, accepts_str,
    forall₂_lit_fold]
  constructor
  · rintro ⟨rest', s₁, ⟨ws₁, hws₁, rfl⟩, s₂, ⟨x, hx, rfl⟩, s₃, ⟨ws₂, hws₂, rfl⟩,
      phrase, hphrase, rfl⟩
    simp only [CharClass.test, if_true, beq_iff_eq] at hx
    have hx' : x = '/' := eq_of_toLower_eq x '/' (by decide) hx
    have hp : phrase = "100".toList := map_toLower_eq _ _ (by decide) hphrase
    exact ⟨ws₁, ws₂, rest', hws₁, hws₂, by rw [hx', hp]⟩
  · rintro ⟨ws₁, ws₂, post, hws₁, hws₂, rfl⟩
    exact ⟨post, _, ⟨ws₁, hws₁, rfl⟩, _, ⟨'/', by simp [CharClass.test], rfl⟩, _,
      ⟨ws₂, hws₂, rfl⟩, "100".toList, rfl, rfl⟩

theorem accepts_outOfTail (rest : JSString) :
    (∃ rest', Accepts true outOfTail rest rest') ↔
      ∃ ws phrase post, White ws ∧ phrase.map Char.toLower = "out of 100".toList ∧
        rest = ws ++ (phrase ++ post) := by
  simp only [outOfTail, accepts_seq, accepts_spaces, accepts_str, forall₂_lit_fold]
  constructor
  · rintro ⟨rest', s₁, ⟨ws, hws, rfl⟩, phrase, hphrase, rfl⟩
    exact ⟨ws, phrase, rest', hws, hphrase, rfl⟩
  · rintro ⟨ws, phrase, post, hws, hphrase, rfl⟩
    exact ⟨post, _, ⟨ws, hws, rfl⟩, phrase, hphrase, rfl⟩

/-! ## The tiers of the score extraction -/

/-- What the search for a captured number followed by a tail finds is an
occurrence in the text, and no match starts before it. -/
theorem search_numberThen_found (tail : Regex) (ic : Bool) (hfree : tail.groupFree = true)
    (tailOK : JSString → Prop)
    (hlang : ∀ rest, tailOK rest ↔ ∃ rest', Accepts ic tail rest rest') (s : JSString)
    (m : JSString × Option JSString) (hm : search (numberThen tail) ic s = some m) :
    ∃ pre ds rest, s = pre ++ ds ++ rest ∧ IsNumber3 ds ∧ tailOK rest ∧ m.2 = some ds ∧
      ∀ pre' suf', s = pre' ++ suf' → pre'.length < pre.length →
        matchAt (numberThen tail) ic suf' = none := by
  obtain ⟨pre, suf, hs, hmatch, hfirst⟩ := search_some _ _ m s hm
  obtain ⟨ds, rest, hsuf, hds, hacc, hcap⟩ :=
    matchAt_numberThen_sound tail ic hfree suf m hmatch
  exact ⟨pre, ds, rest, by rw [hs, hsuf, List.append_assoc], hds,
    (hlang rest).mpr ⟨_, hacc⟩, hcap, hfirst⟩

/-- Without an occurrence in the text the search finds nothing. -/
theorem search_numberThen_none (tail : Regex) (ic : Bool) (hfree : tail.groupFree = true)
    (tailOK : JSString → Prop)
    (hlang : ∀ rest, tailOK rest ↔ ∃ rest', Accepts ic tail rest rest') (s : JSString)
    (hnone : ∀ pre ds rest, s = pre ++ ds ++ rest → IsNumber3 ds → ¬ tailOK rest) :
    search (numberThen tail) ic s = none := by
  cases hsearch : search (numberThen tail) ic s with
  | none => rfl
  | some m =>
    exfalso
    obtain ⟨pre, ds, rest, hs, hds, hrest, _, _⟩ :=
      search_numberThen_found tail ic hfree tailOK hlang s m hsearch
    exact hnone pre ds rest hs hds hrest

/-- The search finds the leftmost occurrence and captures its digits, when the
tail cannot start with a digit. -/
theorem search_numberThen_leftmost (tail : Regex) (ic : Bool)
    (hfree : tail.groupFree = true) (tailOK : JSString → Prop)
    (hlang : ∀ rest, tailOK rest ↔ ∃ rest', Accepts ic tail rest rest')
    (hhead : ∀ rest, tailOK rest → ∀ c ∈ rest.head?, c.isDigit = false) (s : JSString)
    (pre ds rest : JSString) (hs : s = pre ++ ds ++ rest) (hds : IsNumber3 ds)
    (hrest : tailOK rest)
    (hleft : ∀ pre' ds' rest', s = pre' ++ ds' ++ rest' → IsNumber3 ds' → tailOK rest' →
      pre.length ≤ pre'.length) :
    ∃ m, search (numberThen tail) ic s = some m ∧ m.2 = some ds := by
  obtain ⟨rest', hacc⟩ := (hlang rest).mp hrest
  have hsome := matchAt_numberThen_complete tail ic ds rest rest' hds hacc
  cases hsearch : search (numberThen tail) ic s with
  | none =>
    exfalso
    have hnone := search_none _ _ s hsearch pre (ds ++ rest) (by rw [hs, List.append_assoc])
    rw [hnone] at hsome
    simp at hsome
  | some m =>
    refine ⟨m, rfl, ?_⟩
    obtain ⟨pre₀, ds₀, rest₀, hs₀, hds₀, hrest₀, hcap, hfirst⟩ :=
      search_numberThen_found tail ic hfree tailOK hlang s m hsearch
    have hle : pre.length ≤ pre₀.length := hleft pre₀ ds₀ rest₀ hs₀ hds₀ hrest₀
    have hge : pre₀.length ≤ pre.length := by
      by_contra hlt
      have hnone := hfirst pre (ds ++ rest) (by rw [hs, List.append_assoc]) (by omega)
      rw [hnone] at hsome
      simp at hsome
    have heq : pre ++ (ds ++ rest) = pre₀ ++ (ds₀ ++ rest₀) := by
      rw [← List.append_assoc, ← List.append_assoc, ← hs, ← hs₀]
    have hpre : pre = pre₀ := List.append_inj_left heq (by omega)
    subst hpre
    have hsuf := List.append_cancel_left heq
    have := digits_unique ds ds₀ rest rest₀ hsuf hds.2.2 hds₀.2.2 (hhead rest hrest)
      (hhead rest₀ hrest₀)
    rw [hcap, this]

/-- The occurrence that the search finds is a leftmost one. -/
theorem search_numberThen_first (tail : Regex) (ic : Bool) (hfree : tail.groupFree = true)
    (tailOK : JSString → Prop)
    (hlang : ∀ rest, tailOK rest ↔ ∃ rest', Accepts ic tail rest rest') (s : JSString)
    (m : JSString × Option JSString) (hm : search (numberThen tail) ic s = some m) :
    ∃ pre ds rest, s = pre ++ ds ++ rest ∧ IsNumber3 ds ∧ tailOK rest ∧ m.2 = some ds ∧
      ∀ pre' ds' rest', s = pre' ++ ds' ++ rest' → IsNumber3 ds' → tailOK rest' →
        pre.length ≤ pre'.length := by
  obtain ⟨pre, ds, rest, hs, hds, hrest, hcap, hfirst⟩ :=
    search_numberThen_found tail ic hfree tailOK hlang s m hm
  refine ⟨pre, ds, rest, hs, hds, hrest, hcap, ?_⟩
  intro pre' ds' rest' hs' hds' hrest'
  by_contra hlt
  obtain ⟨rest'', hacc⟩ := (hlang rest').mp hrest'
  have hsome := matchAt_numberThen_complete tail ic ds' rest' rest'' hds' hacc
  rw [hfirst pre' (ds' ++ rest') (by rw [hs', List.append_assoc]) (by omega)] at hsome
  simp at hsome

/-- When the search finds nothing, the text has no occurrence. -/
theorem search_numberThen_absent (tail : Regex) (ic : Bool) (tailOK : JSString → Prop)
    (hlang : ∀ rest, tailOK rest ↔ ∃ rest', Accepts ic tail rest rest') (s : JSString)
    (hnone : search (numberThen tail) ic s = none) :
    ∀ pre ds rest, s = pre ++ ds ++ rest → IsNumber3 ds → ¬ tailOK rest := by
  intro pre ds rest hs hds hrest
  obtain ⟨rest', hacc⟩ := (hlang rest).mp hrest
  have hsome := matchAt_numberThen_complete tail ic ds rest rest' hds hacc
  rw [search_none _ _ s hnone pre (ds ++ rest) (by rw [hs, List.append_assoc])] at hsome
  simp at hsome

/-- A greedy quantifier whose continuation always succeeds takes the longest
run it may take. -/
theorem repGreedy_total {α : Type} (test : Char → Bool) (f : JSString → α) :
    ∀ (s : JSString) (lo limit : Nat),
      repGreedy test (fun rest => some (f rest)) lo (some limit) s =
        if lo ≤ min limit (s.takeWhile test).length then
          some (f (s.drop (min limit (s.takeWhile test).length)))
        else none
  | [], lo, limit => by
    have hn : min limit ([].takeWhile test).length = 0 := by simp
    rw [hn]
    by_cases h : lo = 0 <;> simp [repGreedy, h]
  | x :: xs, lo, limit => by
    simp only [repGreedy]
    by_cases hx : test x = true ∧ some limit ≠ some 0
    · rw [if_pos hx]
      have hl : limit ≠ 0 := fun h0 => hx.2 (by rw [h0])
      have ih := repGreedy_total test f xs (lo - 1) (limit - 1)
      simp only [Option.map_some'] at ih ⊢
      rw [ih]
      have hn : min limit ((x :: xs).takeWhile test).length =
          min (limit - 1) (xs.takeWhile test).length + 1 := by
        simp only [List.takeWhile_cons, hx.1, if_true, List.length_cons]
        omega
      rw [hn]
      by_cases hm : lo - 1 ≤ min (limit - 1) (xs.takeWhile test).length
      · have hm' : lo ≤ min (limit - 1) (xs.takeWhile test).length + 1 := by omega
        rw [if_pos hm, if_pos hm']
        rfl
      · have hm' : ¬ lo ≤ min (limit - 1) (xs.takeWhile test).length + 1 := by omega
        have h0 : lo ≠ 0 := by omega
        rw [if_neg hm, if_neg hm']
        simp [h0]
    · rw [if_neg hx]
      have hn : min limit ((x :: xs).takeWhile test).length = 0 := by
        by_cases ht : test x = true
        · have : limit = 0 := by
            by_contra hl
            exact hx ⟨ht, by simpa using hl⟩
          simp [this]
        · simp [List.takeWhile_cons, ht]
      rw [hn]
      by_cases h : lo = 0 <;> simp [h]

/-- The search for `(\d{1,3})` alone: it captures the first one to three
digits of the first run of digits. -/
theorem search_generic :
    ∀ (pre : JSString) (d : Char) (rest : JSString),
      (∀ c ∈ pre, c.isDigit = false) → d.isDigit = true →
      ∃ m, search genericPattern false (pre ++ d :: rest) = some m ∧
        m.2 = some (((d :: rest).takeWhile Char.isDigit).take 3)
  | [], d, rest, _, hd => by
    have hle : ((d :: rest).takeWhile Char.isDigit).length ≤ (d :: rest).length :=
      (List.takeWhile_prefix Char.isDigit).length_le
    have hone : 1 ≤ min 3 ((d :: rest).takeWhile Char.isDigit).length := by
      simp only [List.takeWhile_cons, hd, if_true, List.length_cons]
      omega
    have hmatch : matchAt genericPattern false (d :: rest) =
        some ((d :: rest).drop (min 3 ((d :: rest).takeWhile Char.isDigit).length),
          some ((d :: rest).take ((d :: rest).length -
            ((d :: rest).drop
              (min 3 ((d :: rest).takeWhile Char.isDigit).length)).length))) := by
      have h := repGreedy_total Char.isDigit
        (fun r => (r, some ((d :: rest).take ((d :: rest).length - r.length)))) (d :: rest) 1 3
      rw [if_pos hone] at h
      exact h
    have hsearch : search genericPattern false ([] ++ d :: rest) =
        some ((d :: rest).drop (min 3 ((d :: rest).takeWhile Char.isDigit).length),
          some ((d :: rest).take ((d :: rest).length -
            ((d :: rest).drop
              (min 3 ((d :: rest).takeWhile Char.isDigit).length)).length))) := by
      show search genericPattern false (d :: rest) = _
      simp only [search, hmatch]
    refine ⟨_, hsearch, ?_⟩
    simp only [Option.some.injEq]
    have hpre : (d :: rest).takeWhile Char.isDigit =
        (d :: rest).take ((d :: rest).takeWhile Char.isDigit).length :=
      List.prefix_iff_eq_take.mp (List.takeWhile_prefix Char.isDigit)
    rw [List.length_drop]
    conv_rhs => rw [hpre, List.take_take]
    congr 1
    omega
  | c :: pre, d, rest, hpre, hd => by
    have hc : c.isDigit = false := hpre c (by simp)
    have hnone : matchAt genericPattern false (c :: (pre ++ d :: rest)) = none := by
      rw [genericPattern, matchAt_numberThen]
      simp [repGreedy, hc]
    obtain ⟨m, hm, hcap⟩ := search_generic pre d rest (fun y hy => hpre y (by simp [hy])) hd
    refine ⟨m, ?_, hcap⟩
    show search genericPattern false (c :: (pre ++ d :: rest)) = some m
    simp only [search, hnone]
    exact hm

theorem head_white_then (ws tail : JSString) (hws : White ws)
    (htail : ∀ c ∈ tail.head?, c.isDigit = false) :
    ∀ c ∈ (ws ++ tail).head?, c.isDigit = false := by
  cases ws with
  | nil => simpa using htail
  | cons w ws =>
    intro c hc
    simp only [List.cons_append, List.head?_cons, Option.mem_def, Option.some.injEq] at hc
    rw [← hc]
    exact not_isDigit_of_white w (hws w (by simp))

theorem percent_head (rest : JSString)
    (h : ∃ ws post, White ws ∧ rest = ws ++ '%' :: post) :
    ∀ c ∈ rest.head?, c.isDigit = false := by
  obtain ⟨ws, post, hws, rfl⟩ := h
  apply head_white_then ws _ hws
  intro c hc
  simp only [List.head?_cons, Option.mem_def, Option.some.injEq] at hc
  rw [← hc]
  decide

theorem slash_head (rest : JSString)
    (h : ∃ ws₁ ws₂ post, White ws₁ ∧ White ws₂ ∧
      rest = ws₁ ++ '/' :: (ws₂ ++ ("100".toList ++ post))) :
    ∀ c ∈ rest.head?, c.isDigit = false := by
  obtain ⟨ws₁, ws₂, post, hws₁, _, rfl⟩ := h
  apply head_white_then ws₁ _ hws₁
  intro c hc
  simp only [List.head?_cons, Option.mem_def, Option.some.injEq] at hc
  rw [← hc]
  decide

theorem outOf_head (rest : JSString)
    (h : ∃ ws phrase post, White ws ∧ phrase.map Char.toLower = "out of 100".toList ∧
      rest = ws ++ (phrase ++ post)) :
    ∀ c ∈ rest.head?, c.isDigit = false := by
  obtain ⟨ws, phrase, post, hws, hphrase, rfl⟩ := h
  apply head_white_then ws _ hws
  cases phrase with
  | nil => simp at hphrase
  | cons x xs =>
    intro c hc
    simp only [List.cons_append, List.head?_cons, Option.mem_def, Option.some.injEq] at hc
    rw [← hc]
    have hx : x.toLower = 'o' := by
      have := congrArg List.head? hphrase
      simpa using this
    cases hd : x.isDigit with
    | false => rfl
    | true =>
      exfalso
      rw [toLower_of_isDigit x hd] at hx
      rw [hx] at hd
      exact absurd hd (by decide)

theorem capturedValue_digits (m : JSString × Option JSString) (ds : JSString)
    (hcap : m.2 = some ds) (hds : IsNumber3 ds) :
    capturedValue m = some (decimal ds : Int) := by
  simp only [capturedValue, hcap]
  exact parseInt_digits ds hds.1 hds.2.2

theorem percent_found (s pre ds : JSString) (h : Leftmost (PercentAt s) pre ds) :
    ∃ m, search percentPattern false s = some m ∧ m.2 = some ds := by
  obtain ⟨⟨hds, ws, post, hws, hs⟩, hleft⟩ := h
  exact search_numberThen_leftmost percentTail false rfl _
    (fun rest => (accepts_percentTail rest).symm) percent_head s pre ds _ hs hds
    ⟨ws, post, hws, rfl⟩
    (fun pre' ds' rest' hs' hds' ⟨ws', post', hws', hrest'⟩ =>
      hleft pre' ds' ⟨hds', ws', post', hws', by rw [hs', hrest']⟩)

theorem percent_none (s : JSString) (h : ∀ pre ds, ¬ PercentAt s pre ds) :
    search percentPattern false s = none :=
  search_numberThen_none percentTail false rfl _
    (fun rest => (accepts_percentTail rest).symm) s
    (fun pre ds rest hs hds ⟨ws, post, hws, hrest⟩ =>
      h pre ds ⟨hds, ws, post, hws, by rw [hs, hrest]⟩)

theorem slash_found (s pre ds : JSString) (h : Leftmost (SlashAt s) pre ds) :
    ∃ m, search slashPattern true s = some m ∧ m.2 = some ds := by
  obtain ⟨⟨hds, ws₁, ws₂, post, hws₁, hws₂, hs⟩, hleft⟩ := h
  exact search_numberThen_leftmost slashTail true rfl _
    (fun rest => (accepts_slashTail rest).symm) slash_head s pre ds _ hs hds
    ⟨ws₁, ws₂, post, hws₁, hws₂, rfl⟩
    (fun pre' ds' rest' hs' hds' ⟨w₁, w₂, post', hw₁, hw₂, hrest'⟩ =>
      hleft pre' ds' ⟨hds', w₁, w₂, post', hw₁, hw₂, by rw [hs', hrest']⟩)

theorem slash_none (s : JSString) (h : ∀ pre ds, ¬ SlashAt s pre ds) :
    search slashPattern true s = none :=
  search_numberThen_none slashTail true rfl _
    (fun rest => (accepts_slashTail rest).symm) s
    (fun pre ds rest hs hds ⟨w₁, w₂, post, hw₁, hw₂, hrest⟩ =>
      h pre ds ⟨hds, w₁, w₂, post, hw₁, hw₂, by rw [hs, hrest]⟩)

theorem outOf_found (s pre ds : JSString) (h : Leftmost (OutOfAt s) pre ds) :
    ∃ m, search outOfPattern true s = some m ∧ m.2 = some ds := by
  obtain ⟨⟨hds, ws, phrase, post, hws, hphrase, hs⟩, hleft⟩ := h
  exact search_numberThen_leftmost outOfTail true rfl _
    (fun rest => (accepts_outOfTail rest).symm) outOf_head s pre ds _ hs hds
    ⟨ws, phrase, post, hws, hphrase, rfl⟩
    (fun pre' ds' rest' hs' hds' ⟨w, p, post', hw, hp, hrest'⟩ =>
      hleft pre' ds' ⟨hds', w, p, post', hw, hp, by rw [hs', hrest']⟩)

theorem outOf_none (s : JSString) (h : ∀ pre ds, ¬ OutOfAt s pre ds) :
    search outOfPattern true s = none :=
  search_numberThen_none outOfTail true rfl _
    (fun rest => (accepts_outOfTail rest).symm) s
    (fun pre ds rest hs hds ⟨w, p, post, hw, hp, hrest⟩ =>
      h pre ds ⟨hds, w, p, post, hw, hp, by rw [hs, hrest]⟩)

theorem generic_none (s : JSString) (h : ∀ c ∈ s, c.isDigit = false) :
    search genericPattern false s = none :=
  search_numberThen_none .empty false rfl (fun _ => True)
    (fun rest => ⟨fun _ => ⟨rest, Accepts.empty rest⟩, fun _ => trivial⟩) s
    (fun pre ds rest hs hds _ => by
      obtain ⟨hne, _, hdig⟩ := hds
      cases ds with
      | nil => exact hne rfl
      | cons d ds =>
        have h1 := h d (by rw [hs]; simp)
        rw [hdig d (by simp)] at h1
        exact absurd h1 (by simp))

theorem no_occurrence_of_no_digit (s : JSString) (h : ∀ c ∈ s, c.isDigit = false) :
    (∀ pre ds, ¬ PercentAt s pre ds) ∧ (∀ pre ds, ¬ SlashAt s pre ds) ∧
      (∀ pre ds, ¬ OutOfAt s pre ds) := by
  have key : ∀ pre ds rest, s = pre ++ ds ++ rest → ¬ IsNumber3 ds := by
    intro pre ds rest hs hds
    obtain ⟨hne, _, hdig⟩ := hds
    cases ds with
    | nil => exact hne rfl
    | cons d ds =>
      have h1 := h d (by rw [hs]; simp)
      rw [hdig d (by simp)] at h1
      exact absurd h1 (by simp)
  refine ⟨?_, ?_, ?_⟩
  · rintro pre ds ⟨hds, _, _, _, hs⟩
    exact key pre ds _ hs hds
  · rintro pre ds ⟨hds, _, _, _, _, _, hs⟩
    exact key pre ds _ hs hds
  · rintro pre ds ⟨hds, _, _, _, _, _, hs⟩
    exact key pre ds _ hs hds

theorem clampScore_bounds (v : Int) : 0 ≤ clampScore v ∧ clampScore v ≤ 100 := by
  unfold clampScore
  omega

/-- C15: for every model response text, the fit score computed by the parser
of `analyzeJobFit` is an integer between 0 and 100; so is the score of every
result of `analyzeJobFit`. -/
theorem extractScore_bounds :
    (∀ result : JSString, 0 ≤ extractScore result ∧ extractScore result ≤ 100) ∧
    ∀ (isOllamaRunning : Bool) (chatResult : Except JSString JSString),
      0 ≤ (analyzeJobFit isOllamaRunning chatResult).score ∧
        (analyzeJobFit isOllamaRunning chatResult).score ≤ 100 := by
  have parser : ∀ result : JSString,
      0 ≤ extractScore result ∧ extractScore result ≤ 100 := by
    intro result
    unfold extractScore
    split
    · exact clampScore_bounds _
    · omega
  refine ⟨parser, ?_⟩
  intro isOllamaRunning chatResult
  unfold analyzeJobFit
  cases isOllamaRunning with
  | false => simp
  | true =>
    cases chatResult with
    | ok result => simpa using parser result
    | error message => simp

/-- C16 (as amended): the score extraction works on the text from which every
occurrence of `0`, optional white space, `-`, optional white space, `100` has
been removed. The score is the clamped value of (1) the digits of the leftmost
run of one to three digits that is followed by optional white space and `%`,
if there is one; else (2) the digits of the leftmost such run followed by
optional white space, `/`, optional white space and `100`, if there is one, or
else followed by optional white space and `out of 100` in any case of its
letters; else (3) the first one to three digits of the first run of digits;
and it is 50 when the text has no digit. -/
theorem extractScore_tiers (result : JSString) :
    (∀ pre ds, Leftmost (PercentAt (cleanResponse result)) pre ds →
      extractScore result = clampScore (decimal ds)) ∧
    ((∀ pre ds, ¬ PercentAt (cleanResponse result) pre ds) →
      ∀ pre ds, Leftmost (SlashAt (cleanResponse result)) pre ds →
        extractScore result = clampScore (decimal ds)) ∧
    ((∀ pre ds, ¬ PercentAt (cleanResponse result) pre ds) →
      (∀ pre ds, ¬ SlashAt (cleanResponse result) pre ds) →
      ∀ pre ds, Leftmost (OutOfAt (cleanResponse result)) pre ds →
        extractScore result = clampScore (decimal ds)) ∧
    ((∀ pre ds, ¬ PercentAt (cleanResponse result) pre ds) →
      (∀ pre ds, ¬ SlashAt (cleanResponse result) pre ds) →
      (∀ pre ds, ¬ OutOfAt (cleanResponse result) pre ds) →
      ∀ pre d rest, cleanResponse result = pre ++ d :: rest →
        (∀ c ∈ pre, c.isDigit = false) → d.isDigit = true →
        extractScore result =
          clampScore (decimal (((d :: rest).takeWhile Char.isDigit).take 3))) ∧
    ((∀ c ∈ cleanResponse result, c.isDigit = false) → extractScore result = 50) := by
  refine ⟨?_, ?_, ?_, ?_, ?_⟩
  · intro pre ds h
    obtain ⟨m, hm, hcap⟩ := percent_found _ pre ds h
    simp only [extractScore, matchValue, hm, capturedValue_digits m ds hcap h.1.1]
  · intro h1 pre ds h
    obtain ⟨m, hm, hcap⟩ := slash_found _ pre ds h
    simp only [extractScore, matchValue, percent_none _ h1, hm,
      capturedValue_digits m ds hcap h.1.1]
  · intro h1 h2 pre ds h
    obtain ⟨m, hm, hcap⟩ := outOf_found _ pre ds h
    simp only [extractScore, matchValue, percent_none _ h1, slash_none _ h2, hm,
      capturedValue_digits m ds hcap h.1.1]
  · intro h1 h2 h3 pre d rest hs hpre hd
    obtain ⟨m, hm, hcap⟩ := search_generic pre d rest hpre hd
    rw [← hs] at hm
    have hval : capturedValue m =
        some (decimal (((d :: rest).takeWhile Char.isDigit).take 3) : Int) := by
      simp only [capturedValue, hcap]
      apply parseInt_digits
      · simp [List.takeWhile_cons, hd]
      · intro c hc
        have := List.mem_of_mem_take hc
        exact (List.mem_takeWhile_imp this)
    simp only [extractScore, matchValue, percent_none _ h1, slash_none _ h2,
      outOf_none _ h3, hm, hval]
  · intro h
    obtain ⟨h1, h2, h3⟩ := no_occurrence_of_no_digit _ h
    simp only [extractScore, matchValue, percent_none _ h1, slash_none _ h2,
      outOf_none _ h3, generic_none _ h]

theorem percent_leftmost_of_search (s : JSString) (m : JSString × Option JSString)
    (hm : search percentPattern false s = some m) :
    ∃ pre ds, Leftmost (PercentAt s) pre ds ∧ m.2 = some ds := by
  obtain ⟨pre, ds, rest, hs, hds, ⟨ws, post, hws, hrest⟩, hcap, hleft⟩ :=
    search_numberThen_first percentTail false rfl _
      (fun rest => (accepts_percentTail rest).symm) s m hm
  refine ⟨pre, ds, ⟨⟨hds, ws, post, hws, by rw [hs, hrest]⟩, ?_⟩, hcap⟩
  rintro pre' ds' ⟨hds', ws', post', hws', hs'⟩
  exact hleft pre' ds' _ hs' hds' ⟨ws', post', hws', rfl⟩

theorem percent_absent_of_search (s : JSString)
    (hnone : search percentPattern false s = none) : ∀ pre ds, ¬ PercentAt s pre ds := by
  rintro pre ds ⟨hds, ws, post, hws, hs⟩
  exact search_numberThen_absent percentTail false _
    (fun rest => (accepts_percentTail rest).symm) s hnone pre ds _ hs hds ⟨ws, post, hws, rfl⟩

theorem slash_leftmost_of_search (s : JSString) (m : JSString × Option JSString)
    (hm : search slashPattern true s = some m) :
    ∃ pre ds, Leftmost (SlashAt s) pre ds ∧ m.2 = some ds := by
  obtain ⟨pre, ds, rest, hs, hds, ⟨w₁, w₂, post, hw₁, hw₂, hrest⟩, hcap, hleft⟩ :=
    search_numberThen_first slashTail true rfl _
      (fun rest => (accepts_slashTail rest).symm) s m hm
  refine ⟨pre, ds, ⟨⟨hds, w₁, w₂, post, hw₁, hw₂, by rw [hs, hrest]⟩, ?_⟩, hcap⟩
  rintro pre' ds' ⟨hds', v₁, v₂, post', hv₁, hv₂, hs'⟩
  exact hleft pre' ds' _ hs' hds' ⟨v₁, v₂, post', hv₁, hv₂, rfl⟩

/-- C16, as stated, fails. In `Top 10 % of candidates, fit 85%` the number 10
is not immediately followed by `%` and the text contains `85%`, but the score
is 10, because the pattern allows white space before `%`. In `Match: 1050%`
the number before `%` is 1050, but the score is 50, because the pattern takes
at most three digits and `050%` is its leftmost match. -/
theorem extractScore_not_first_percent_number :
    "85%".toList <:+: "Top 10 % of candidates, fit 85%".toList ∧
    extractScore "Top 10 % of candidates, fit 85%".toList = 10 ∧
    extractScore "Match: 1050%".toList = 50 := by
  decide

set_option maxRecDepth 100000 in
/-- The tiers, evaluated: a text whose leftmost percentage is `85%` yields 85
although `100` stands earlier in it; the documented line `SCORE: 72/100 - ...`
has no percentage and yields 72; a text without a digit yields 50. -/
theorem extractScore_tiers_witness :
    extractScore "Rated 100 points, fit 85%".toList = 85 ∧
    extractScore "SCORE: 72/100 - solid overlap in backend skills.".toList = 72 ∧
    extractScore "no number here".toList = 50 := by
  refine ⟨?_, ?_, ?_⟩
  · have hsearch : search percentPattern false
        (cleanResponse "Rated 100 points, fit 85%".toList) =
        some ([], some "85".toList) := by decide
    obtain ⟨pre, ds, hleft, hcap⟩ := percent_leftmost_of_search _ _ hsearch
    have hds : ds = "85".toList := by simpa using hcap.symm
    subst hds
    rw [(extractScore_tiers "Rated 100 points, fit 85%".toList).1 pre _ hleft]
    decide
  · have hnone : search percentPattern false
        (cleanResponse "SCORE: 72/100 - solid overlap in backend skills.".toList) = none := by
      decide
    have hsearch : search slashPattern true
        (cleanResponse "SCORE: 72/100 - solid overlap in backend skills.".toList) =
        some (" - solid overlap in backend skills.".toList, some "72".toList) := by decide
    obtain ⟨pre, ds, hleft, hcap⟩ := slash_leftmost_of_search _ _ hsearch
    have hds : ds = "72".toList := by simpa using hcap.symm
    subst hds
    rw [(extractScore_tiers "SCORE: 72/100 - solid overlap in backend skills.".toList).2.1
      (percent_absent_of_search _ hnone) pre _ hleft]
    decide
  · exact (extractScore_tiers "no number here".toList).2.2.2.2 (by decide)

set_option maxRecDepth 100000 in
/-- C17, evaluated on the code: for the response
`SCORE: 72/100 - solid overlap in backend skills.` the score is 72, but the
reason is the whole response, label and number included, because the pattern
that strips the leading number only matches a response that starts with a
digit. For the same line without its label the reason is
`solid overlap in backend skills.` -/
theorem analyzeJobFit_keeps_score_label :
    analyzeJobFit true (.ok "SCORE: 72/100 - solid overlap in backend skills.".toList) =
      { score := 72, reason := "SCORE: 72/100 - solid overlap in backend skills.".toList } ∧
    "SCORE: 72/100 - solid overlap in backend skills.".toList ≠
      "solid overlap in backend skills.".toList ∧
    analyzeJobFit true (.ok "72/100 - solid overlap in backend skills.".toList) =
      { score := 72, reason := "solid overlap in backend skills.".toList } := by
  decide

theorem length_extractReason_le (result : JSString) : (extractReason result).length ≤ 250 := by
  unfold extractReason
  simp only [List.length_take]
  omega

set_option maxRecDepth 100000 in
/-- C18, evaluated on the code: when the chat call fails with HTTP status 500
and a body of 300 characters, the reason of the result has 378 characters. On
the two other paths the reason has at most 250 characters: the parsed response
is truncated and the fixed text for an unavailable service is short. -/
theorem analyzeJobFit_error_reason_unbounded :
    ((analyzeJobFit true
      (.error ("Ollama chat request failed: 500 Internal Server Error - ".toList ++
        List.replicate 300 'x'))).reason).length = 378 ∧
    (∀ result : JSString, ((analyzeJobFit true (.ok result)).reason).length ≤ 250) ∧
    (∀ chatResult : Except JSString JSString,
      ((analyzeJobFit false chatResult).reason).length ≤ 250) := by
  refine ⟨by decide, ?_, ?_⟩
  · intro result
    exact length_extractReason_le result
  · intro chatResult
    show unavailableReason.length ≤ 250
    decide

/-! ## The order of the name keywords -/

theorem includes_name_of_first_or_last (normalized : JSString)
    (h : "first name".toList <:+: normalized ∨ "last name".toList <:+: normalized) :
    includes normalized "name".toList = true := by
  rw [includes_iff]
  rcases h with h | h
  · exact List.IsInfix.trans (by decide) h
  · exact List.IsInfix.trans (by decide) h

theorem mappings_head (profile : UserProfile) (preferences : UserPreferences) :
    ∃ rest, mappings profile preferences =
      ("legal name".toList, profile.fullName) :: ("name".toList, profile.fullName) :: rest ∧
      ∀ e ∈ rest, e.1 ≠ "legal name".toList ∧ e.1 ≠ "name".toList := by
  refine ⟨_, rfl, ?_⟩
  intro e he
  have hk : e.1 ∈ ((mappings {} {}).map Prod.fst).drop 2 := by
    have := List.mem_map_of_mem Prod.fst he
    exact this
  have hall : ∀ k ∈ ((mappings {} {}).map Prod.fst).drop 2,
      k ≠ "legal name".toList ∧ k ≠ "name".toList := by decide
  exact hall _ hk

/-- C28: in `checkProfileForAnswer` the keyword `name` stands before
`first name`, `last name` and `full name`. For every question whose lower-cased
text contains `first name` or `last name`, a non-empty `profile.fullName` is
the result; and when the pair that answers is the one of `first name` or of
`last name`, `profile.fullName` is empty or missing. -/
theorem checkProfileForAnswer_name_shadows (toLowerCase : JSString → JSString)
    (profile : UserProfile) (preferences : UserPreferences) (question : JSString)
    (field : FieldDescriptor)
    (asks : "first name".toList <:+: toLowerCase question ∨
      "last name".toList <:+: toLowerCase question) :
    (∃ before after, (mappings profile preferences).map Prod.fst =
      before ++ "name".toList :: after ∧ "first name".toList ∈ after ∧
        "last name".toList ∈ after ∧ "full name".toList ∈ after) ∧
    (∀ name, profile.fullName = some name → name ≠ [] →
      checkProfileForAnswer toLowerCase profile preferences question field = some name) ∧
    (∀ entry, (mappings profile preferences).find? (mappingHit (toLowerCase question)) =
        some entry →
      entry.1 = "first name".toList ∨ entry.1 = "last name".toList →
      truthy profile.fullName = false) := by
  have hname := includes_name_of_first_or_last _ asks
  obtain ⟨rest, hmap, hrest⟩ := mappings_head profile preferences
  refine ⟨⟨["legal name".toList], ((mappings {} {}).map Prod.fst).drop 2,
    mappings_keys profile preferences, by decide, by decide, by decide⟩, ?_, ?_⟩
  · intro name hfull hne
    have ht : truthy (some name) = true := (truthy_iff _).mpr ⟨name, rfl, hne⟩
    simp only [checkProfileForAnswer, hmap, List.find?_cons, mappingHit, hname, hfull, ht,
      Bool.and_true]
    cases includes (toLowerCase question) "legal name".toList <;> rfl
  · intro entry hfind hkey
    rw [hmap] at hfind
    simp only [List.find?_cons, mappingHit, hname, Bool.true_and] at hfind
    cases hfull : truthy profile.fullName with
    | false => rfl
    | true =>
      exfalso
      rw [hfull] at hfind
      simp only [Bool.and_true] at hfind
      cases hlegal : includes (toLowerCase question) "legal name".toList with
      | true =>
        rw [hlegal] at hfind
        have : entry = ("legal name".toList, profile.fullName) := by simpa using hfind.symm
        rw [this] at hkey
        have hk : ¬ ("legal name".toList = "first name".toList ∨
            "legal name".toList = "last name".toList) := by decide
        exact hk hkey
      | false =>
        rw [hlegal] at hfind
        have : entry = ("name".toList, profile.fullName) := by simpa using hfind.symm
        rw [this] at hkey
        have hk : ¬ ("name".toList = "first name".toList ∨
            "name".toList = "last name".toList) := by decide
        exact hk hkey

/-- The name keywords, evaluated: with a full name in the profile the question
`First name` is answered with the full name, and without one with the first
name. -/
theorem checkProfileForAnswer_name_shadows_witness :
    checkProfileForAnswer asciiLower
        { fullName := some "Ada Lovelace".toList, firstName := some "Ada".toList } {}
        "First name".toList {} = some "Ada Lovelace".toList ∧
    checkProfileForAnswer asciiLower { firstName := some "Ada".toList } {}
        "First name".toList {} = some "Ada".toList :=
  ⟨(checkProfileForAnswer_name_shadows asciiLower
      { fullName := some "Ada Lovelace".toList, firstName := some "Ada".toList } {}
      "First name".toList {} (Or.inl (by decide))).2.1 "Ada Lovelace".toList rfl (by decide),
   by unfold checkProfileForAnswer; decide⟩

/-! ## Messages without a session -/

/-- C29: `addToConversation` does not need an active session. Starting from
the empty message list, the state after `clearConversation`, any sequence of
calls keeps the length at most 21, entry 0 is the first message appended and
stays in place, and behind it stand the 20 most recent of the later messages;
when that first message has the role `user`, entry 0 is not a system message. -/
theorem conversation_without_session (state : ConversationState) (first : ConversationMessage)
    (later : List ConversationMessage) :
    (clearConversation state).conversationHistory = [] ∧
    (addAll (clearConversation state) (first :: later)).conversationHistory =
      first :: later.drop (later.length - 20) ∧
    ((addAll (clearConversation state) (first :: later)).conversationHistory).length ≤ 21 ∧
    (addAll (clearConversation state) (first :: later)).conversationHistory.head? =
      some first ∧
    (first.role = "user".toList →
      ((addAll (clearConversation state) (first :: later)).conversationHistory.head?).map
        ConversationMessage.role ≠ some "system".toList) := by
  have key : (addAll (clearConversation state) (first :: later)).conversationHistory =
      first :: later.drop (later.length - 20) := by
    rw [addAll_history]
    show later.foldl pushMessage (pushMessage [] first) = _
    exact foldl_pushMessage first later
  refine ⟨rfl, key, ?_, ?_, ?_⟩
  · rw [key, List.length_cons, List.length_drop]
    omega
  · rw [key]
    rfl
  · intro hrole
    rw [key]
    simp only [List.head?_cons, Option.map_some', hrole]
    decide

/-- The window without a session, evaluated on 22 user messages: the first
one stays at index 0 and the second one is dropped. -/
theorem conversation_without_session_witness :
    (addAll (clearConversation ⟨none, []⟩) sampleMessages).conversationHistory =
      sampleMessages.take 1 ++ sampleMessages.drop 2 ∧
    ((addAll (clearConversation ⟨none, []⟩) sampleMessages).conversationHistory.head?).map
      ConversationMessage.role ≠ some "system".toList :=
  ⟨(conversation_without_session ⟨none, []⟩
      { role := "user".toList, content := [] } (sampleMessages.drop 1)).2.1,
   (conversation_without_session ⟨none, []⟩
      { role := "user".toList, content := [] } (sampleMessages.drop 1)).2.2.2.2 rfl⟩

/-! ## Empty questions -/

theorem includes_nil (s : JSString) : includes s [] = true := by
  rw [includes_iff]
  exact List.nil_infix

theorem toLower_of_white (c : Char) (h : isWhiteSpace c = true) : c.toLower = c := by
  simp only [isWhiteSpace, Bool.or_eq_true, Bool.and_eq_true, decide_eq_true_eq] at h
  simp only [Char.toLower]
  rw [if_neg (by omega)]

theorem trim_asciiLower_white (ws : JSString) (h : White ws) : trim (asciiLower ws) = [] := by
  have hmap : asciiLower ws = ws := by
    unfold asciiLower
    conv_rhs => rw [← List.map_id ws]
    exact List.map_congr_left fun c hc => toLower_of_white c (h c hc)
  have hdrop : ws.dropWhile isWhiteSpace = [] := List.dropWhile_eq_nil_iff.mpr h
  rw [hmap, trim, hdrop]
  rfl

/-- C30: containment is tested with the empty string allowed. An entry whose
normalized question is empty matches every query, and a query whose normalized
form is empty matches every entry: for every non-empty cache
`checkQuestionCache('')` returns the answer of the first entry, and when the
normalized question of the first entry is empty, `checkQuestionCache(q)`
returns the answer of that entry for every `q`. A question of white space only
has an empty normalized form. -/
theorem checkQuestionCache_empty_question (toLowerCase : JSString → JSString) :
    (∀ (item : QuestionCacheEntry) (query : JSString),
      trim (toLowerCase item.question) = [] →
      Matches toLowerCase (trim (toLowerCase query)) item) ∧
    (∀ (item : QuestionCacheEntry) (query : JSString),
      trim (toLowerCase query) = [] →
      Matches toLowerCase (trim (toLowerCase query)) item) ∧
    (toLowerCase [] = [] →
      ∀ (first : QuestionCacheEntry) (others : List QuestionCacheEntry),
        checkQuestionCache toLowerCase (first :: others) [] = some first.answer) ∧
    (∀ (first : QuestionCacheEntry) (others : List QuestionCacheEntry) (query : JSString),
      trim (toLowerCase first.question) = [] →
      checkQuestionCache toLowerCase (first :: others) query = some first.answer) ∧
    (∀ ws : JSString, White ws → trim (asciiLower ws) = []) := by
  have entryEmpty : ∀ (item : QuestionCacheEntry) (query : JSString),
      trim (toLowerCase item.question) = [] →
      cacheMatch toLowerCase (trim (toLowerCase query)) item = true := by
    intro item query h
    simp [cacheMatch, h, includes_nil]
  have queryEmpty : ∀ (item : QuestionCacheEntry) (query : JSString),
      trim (toLowerCase query) = [] →
      cacheMatch toLowerCase (trim (toLowerCase query)) item = true := by
    intro item query h
    simp [cacheMatch, h, includes_nil]
  refine ⟨?_, ?_, ?_, ?_, trim_asciiLower_white⟩
  · intro item query h
    exact (cacheMatch_iff toLowerCase _ item).mp (entryEmpty item query h)
  · intro item query h
    exact (cacheMatch_iff toLowerCase _ item).mp (queryEmpty item query h)
  · intro hempty first others
    have hq : trim (toLowerCase []) = [] := by rw [hempty]; rfl
    exact checkQuestionCache_first toLowerCase [] others first []
      (fun x hx => by simp at hx) (queryEmpty first [] hq)
  · intro first others query h
    exact checkQuestionCache_first toLowerCase [] others first query
      (fun x hx => by simp at hx) (entryEmpty first query h)

/-- The empty question, evaluated: the empty query is answered by the first
entry, and a first entry saved for a blank question answers every query. -/
theorem checkQuestionCache_empty_question_witness :
    checkQuestionCache asciiLower [entryAt0 "salary" "100", entryAt0 "email" "a@b.com"] [] =
      some "100".toList ∧
    checkQuestionCache asciiLower [entryAt0 "  " "blank", entryAt0 "email" "a@b.com"]
      "What is your email?".toList = some "blank".toList :=
  ⟨(checkQuestionCache_empty_question asciiLower).2.2.1 rfl (entryAt0 "salary" "100")
      [entryAt0 "email" "a@b.com"],
   (checkQuestionCache_empty_question asciiLower).2.2.2.1 (entryAt0 "  " "blank")
      [entryAt0 "email" "a@b.com"] "What is your email?".toList (by decide)⟩

/-! ## Learned patterns: the log and its lookup -/

theorem learnFieldPattern_below (log : List LearnedPattern) (field : FieldDescriptor)
    (value : JSString) (jobContext : Option JobContext) (now : Int) (h : log.length < 500) :
    learnFieldPattern log field value jobContext now =
      log ++ [newPattern field value jobContext now] := by
  unfold learnFieldPattern
  simp only [List.length_append, List.length_cons, List.length_nil]
  rw [if_neg (by omega)]

theorem learnFieldPattern_overflow (log : List LearnedPattern) (field : FieldDescriptor)
    (value : JSString) (jobContext : Option JobContext) (now : Int) (h : 500 ≤ log.length) :
    learnFieldPattern log field value jobContext now =
      log.drop 1 ++ [newPattern field value jobContext now] := by
  unfold learnFieldPattern
  simp only [List.length_append, List.length_cons, List.length_nil]
  rw [if_pos (by omega), List.drop_append_of_le_length (by omega)]

theorem length_learnFieldPattern_le (log : List LearnedPattern) (field : FieldDescriptor)
    (value : JSString) (jobContext : Option JobContext) (now : Int) (h : log.length ≤ 500) :
    (learnFieldPattern log field value jobContext now).length ≤ 500 := by
  by_cases hlt : log.length < 500
  · rw [learnFieldPattern_below log field value jobContext now hlt]
    simp only [List.length_append, List.length_cons, List.length_nil]
    omega
  · rw [learnFieldPattern_overflow log field value jobContext now (by omega)]
    simp only [List.length_append, List.length_cons, List.length_nil, List.length_drop]
    omega

/-- C22: starting from a learned-pattern log of at most 500 entries, after any
sequence of `learnFieldPattern` calls the log has at most 500 entries; a call
below the cap appends the new pattern, and a call that overflows removes
exactly the entry at the front and keeps all other entries in their order with
the new pattern last. -/
theorem learnFieldPattern_fifo (log : List LearnedPattern) (bounded : log.length ≤ 500) :
    (∀ calls : List LearnCall, (learnAll log calls).length ≤ 500) ∧
    (∀ (field : FieldDescriptor) (value : JSString) (jobContext : Option JobContext)
        (now : Int),
      log.length < 500 →
      learnFieldPattern log field value jobContext now =
        log ++ [newPattern field value jobContext now]) ∧
    (∀ (field : FieldDescriptor) (value : JSString) (jobContext : Option JobContext)
        (now : Int) (front : LearnedPattern) (others : List LearnedPattern),
      log = front :: others → log.length = 500 →
      learnFieldPattern log field value jobContext now =
        others ++ [newPattern field value jobContext now]) := by
  refine ⟨?_, ?_, ?_⟩
  · intro calls
    induction calls generalizing log with
    | nil => simpa [learnAll] using bounded
    | cons call calls ih =>
      have := ih (learnFieldPattern log call.field call.value call.jobContext call.now)
        (length_learnFieldPattern_le log _ _ _ _ bounded)
      simpa [learnAll] using this
  · intro field value jobContext now h
    exact learnFieldPattern_below log field value jobContext now h
  · intro field value jobContext now front others hlog hlen
    rw [learnFieldPattern_overflow log field value jobContext now (by omega), hlog]
    rfl

section PatternLookupFacts

variable (toLowerCase : JSString → JSString)

theorem patternMatch_iff (field : FieldDescriptor) (p : LearnedPattern) :
    patternMatch toLowerCase field p = true ↔ PatternMatches toLowerCase field p := by
  simp only [patternMatch, PatternMatches, Bool.or_eq_true, Bool.and_eq_true,
    Bool.not_eq_true', List.isEmpty_eq_false, beq_iff_eq, ne_eq, and_assoc]

theorem findLearnedPattern_first (pre post : List LearnedPattern) (p : LearnedPattern)
    (field : FieldDescriptor)
    (hpre : ∀ x ∈ pre, ¬ PatternMatches toLowerCase field x)
    (hp : PatternMatches toLowerCase field p) :
    findLearnedPattern toLowerCase field (pre ++ p :: post) = some p.value := by
  have h := find?_split (patternMatch toLowerCase field) pre post p
    (fun x hx => by
      have := hpre x hx
      rw [← patternMatch_iff] at this
      simpa using this)
    ((patternMatch_iff toLowerCase field p).mpr hp)
  simp only [findLearnedPattern, h]

/-- C27 (as amended): `findLearnedPattern` returns the value of the
earliest-inserted pattern whose non-empty label or non-empty name equals the
field's, ignoring case, and `null` when there is none. After
`learnFieldPattern(field, v1)` followed by `learnFieldPattern(field, v2)` on a
log with no prior match and fewer than 499 entries, for a field with a
non-empty label or a non-empty name, `findLearnedPattern(field)` returns `v1`,
not the newer `v2`. -/
theorem findLearnedPattern_earliest (field : FieldDescriptor) :
    (∀ (pre post : List LearnedPattern) (p : LearnedPattern),
      (∀ x ∈ pre, ¬ PatternMatches toLowerCase field x) →
      PatternMatches toLowerCase field p →
      findLearnedPattern toLowerCase field (pre ++ p :: post) = some p.value) ∧
    (∀ log : List LearnedPattern,
      findLearnedPattern toLowerCase field log = none ↔
        ∀ x ∈ log, ¬ PatternMatches toLowerCase field x) ∧
    (∀ (log : List LearnedPattern) (v₁ v₂ : JSString) (job₁ job₂ : Option JobContext)
        (now₁ now₂ : Int),
      log.length < 499 →
      (∀ x ∈ log, ¬ PatternMatches toLowerCase field x) →
      field.label ≠ [] ∨ field.name ≠ [] →
      findLearnedPattern toLowerCase field
        (learnFieldPattern (learnFieldPattern log field v₁ job₁ now₁) field v₂ job₂ now₂) =
        some v₁) := by
  refine ⟨fun pre post p => findLearnedPattern_first toLowerCase pre post p field, ?_, ?_⟩
  · intro log
    cases h : log.find? (patternMatch toLowerCase field) with
    | none =>
      simp only [findLearnedPattern, h, true_iff]
      intro x hx
      rw [← patternMatch_iff]
      exact List.find?_eq_none.mp h x hx
    | some p =>
      simp only [findLearnedPattern, h, false_iff, reduceCtorEq]
      intro hall
      exact hall p (List.mem_of_find?_eq_some h)
        ((patternMatch_iff toLowerCase field p).mp (List.find?_some h))
  · intro log v₁ v₂ job₁ job₂ now₁ now₂ hlen hnone hfield
    rw [learnFieldPattern_below log field v₁ job₁ now₁ (by omega),
      learnFieldPattern_below _ field v₂ job₂ now₂ (by
        simp only [List.length_append, List.length_cons, List.length_nil]; omega),
      List.append_assoc]
    have hself : PatternMatches toLowerCase field (newPattern field v₁ job₁ now₁) := by
      rcases hfield with h | h
      · exact Or.inl ⟨h, h, rfl⟩
      · exact Or.inr ⟨h, h, rfl⟩
    exact findLearnedPattern_first toLowerCase log _ (newPattern field v₁ job₁ now₁) field
      hnone hself

end PatternLookupFacts

/-- C27, as stated, fails for a field without label and name: the two learned
patterns have the same (empty) label and name as the field, but the lookup
requires them to be non-empty and returns `null`. -/
theorem findLearnedPattern_unnamed_field :
    learnFieldPattern (learnFieldPattern [] { type := "text".toList } "v1".toList none 1)
        { type := "text".toList } "v2".toList none 2 =
      [newPattern { type := "text".toList } "v1".toList none 1,
       newPattern { type := "text".toList } "v2".toList none 2] ∧
    findLearnedPattern asciiLower { type := "text".toList }
      (learnFieldPattern (learnFieldPattern [] { type := "text".toList } "v1".toList none 1)
        { type := "text".toList } "v2".toList none 2) = none := by
  decide

/-- Two answers learned for the field `Email`, looked up under the label
`EMAIL`: the first one is returned. -/
theorem findLearnedPattern_earliest_witness :
    findLearnedPattern asciiLower { label := "EMAIL".toList }
      (learnFieldPattern
        (learnFieldPattern [newPattern { label := "Phone".toList } "555".toList none 0]
          { label := "EMAIL".toList } "a@b.com".toList none 1)
        { label := "EMAIL".toList } "c@d.com".toList none 2) = some "a@b.com".toList :=
  (findLearnedPattern_earliest asciiLower { label := "EMAIL".toList }).2.2
    [newPattern { label := "Phone".toList } "555".toList none 0]
    "a@b.com".toList "c@d.com".toList none none 1 2 (by decide)
    (by
      intro x hx
      rw [← patternMatch_iff]
      revert x
      decide)
    (Or.inl (by decide))

set_option maxRecDepth 100000 in
/-- The log at the cap, evaluated: one more call keeps 500 records, drops the
record at the front and puts the new pattern last. -/
theorem learnFieldPattern_fifo_witness :
    (learnAll fullLog
      [{ field := { label := "Email".toList }, value := "a@b.com".toList, jobContext := none,
         now := 1 }]).length ≤ 500 ∧
    learnFieldPattern fullLog { label := "Email".toList } "a@b.com".toList none 1 =
      fullLog.drop 1 ++ [newPattern { label := "Email".toList } "a@b.com".toList none 1] :=
  ⟨(learnFieldPattern_fifo fullLog (by decide)).1 _,
   (learnFieldPattern_fifo fullLog (by decide)).2.2 { label := "Email".toList }
     "a@b.com".toList none 1 (newPattern { label := "q".toList } "old".toList none 0)
     (fullLog.drop 1) (by decide) (by decide)⟩

/-! ## Model selection: facts -/

/-- The cases in which the model selection of `analyzeJobFit` agrees with the
advertised names: when `listModels` fails, returns no model or returns no name
with the substring `deepseek-r1`, the default is requested; when
`deepseek-r1:8b` itself is advertised, it is requested. -/
theorem modelToUse_cases :
    (∀ message : JSString, modelToUse (.error message) = "llama3.2:3b".toList) ∧
    modelToUse (.ok []) = "llama3.2:3b".toList ∧
    (∀ list : List ModelInfo, (∀ m ∈ list, advertisesReasoning m = false) →
      modelToUse (.ok list) = "llama3.2:3b".toList) ∧
    (∀ list : List ModelInfo, { name := some "deepseek-r1:8b".toList } ∈ list →
      modelToUse (.ok list) = "deepseek-r1:8b".toList) := by
  refine ⟨fun _ => rfl, rfl, ?_, ?_⟩
  · intro list h
    have : list.any advertisesReasoning = false := by
      rw [List.any_eq_false]
      intro m hm
      simp [h m hm]
    simp [modelToUse, this]
  · intro list h
    have : list.any advertisesReasoning = true := by
      rw [List.any_eq_true]
      exact ⟨_, h, by decide⟩
    simp [modelToUse, this]

/-! ## Failures of the AI tier -/

/-- C21 (as amended): when the inference gateway fails during the AI tier of
`getSmartAnswer`, the failure is not propagated: the caller receives the normal
result `{value: null, source: 'ai', confidence: 'medium'}`, which is the same
for every upstream reason. -/
theorem getSmartAnswer_swallows_failure (toLowerCase : JSString → JSString)
    (cache : List QuestionCacheEntry) (profile : UserProfile) (preferences : UserPreferences)
    (resumeText : Option JSString) (question : JSString) (field : FieldDescriptor)
    (message : JSString)
    (cacheMiss : truthy (checkQuestionCache toLowerCase cache question) = false)
    (profileMiss :
      truthy (checkProfileForAnswer toLowerCase profile preferences question field) = false) :
    getSmartAnswer toLowerCase cache profile preferences resumeText (.error message) question
        field =
      { value := none, source := .ai, confidence := .medium } ∧
    ∀ other : JSString,
      getSmartAnswer toLowerCase cache profile preferences resumeText (.error other) question
          field =
        getSmartAnswer toLowerCase cache profile preferences resumeText (.error message)
          question field := by
  have hnull : checkResumeForAnswer resumeText question field = none := by
    unfold checkResumeForAnswer
    cases resumeText <;> simp
  have key : ∀ m : JSString,
      getSmartAnswer toLowerCase cache profile preferences resumeText (.error m) question
        field = { value := none, source := .ai, confidence := .medium } := by
    intro m
    have htn : truthy none = false := rfl
    simp only [getSmartAnswer, cacheMiss, profileMiss, hnull, htn, Bool.false_eq_true,
      if_false, askAIForAnswer]
  exact ⟨key message, fun other => by rw [key other, key message]⟩

/-- C21, as stated, fails: with the service answering HTTP 503 during the AI
tier, `getSmartAnswer` returns a normal result whose value is `null`; no
failure reaches the caller. -/
theorem getSmartAnswer_returns_on_failure :
    getSmartAnswer asciiLower [] {} {} none
        (.error "Ollama chat request failed: 503 Service Unavailable - ".toList)
        "Why us?".toList {} =
      { value := none, source := .ai, confidence := .medium } := by
  unfold getSmartAnswer checkProfileForAnswer
  decide

/-- The swallowed failure, evaluated on an empty cache and profile. -/
theorem getSmartAnswer_swallows_failure_witness :
    getSmartAnswer asciiLower [] {} {} none (.error "fetch failed".toList) "Why us?".toList {} =
      { value := none, source := .ai, confidence := .medium } :=
  (getSmartAnswer_swallows_failure asciiLower [] {} {} none "Why us?".toList {}
    "fetch failed".toList (by decide) (by unfold checkProfileForAnswer; decide)).1

/-! ## What changes stored records -/

theorem logActivity_frame (storage : Storage) (type message : JSString) (now : Int) :
    (logActivity storage type message now).questionCache = storage.questionCache ∧
    (logActivity storage type message now).learningData = storage.learningData :=
  ⟨rfl, rfl⟩

theorem mem_enforceCap (cache : List QuestionCacheEntry) (x : QuestionCacheEntry)
    (h : x ∈ enforceCap cache) : x ∈ cache := by
  unfold enforceCap at h
  split at h
  · exact (List.perm_insertionSort usedNoEarlier cache).mem_iff.mp (List.mem_of_mem_take h)
  · exact h

/-- C26 (as amended): a cache hit in lookup changes no cache entry:
`getSmartAnswer` leaves the question cache and the learned patterns as they
are and only adds to the activity feed. The update performed by store is the
only change ever applied to an existing `QuestionCacheEntry`: after
`saveToQuestionCache` every entry is an entry of the prior cache or the entry
just stored. `LearnedPattern` records are never changed after creation: after
`learnFieldPattern` every record is a prior record or the new one. -/
theorem stored_records_frame (toLowerCase : JSString → JSString) :
    (∀ (storage : Storage) (profile : UserProfile) (preferences : UserPreferences)
        (resumeText : Option JSString) (question : JSString) (field : FieldDescriptor)
        (now : Int),
      (getSmartAnswerStorage toLowerCase storage profile preferences resumeText question field
        now).questionCache = storage.questionCache ∧
      (getSmartAnswerStorage toLowerCase storage profile preferences resumeText question field
        now).learningData = storage.learningData) ∧
    (∀ (cache : List QuestionCacheEntry) (question answer : JSString) (now₁ now₂ : Int),
      ∀ x ∈ saveToQuestionCache toLowerCase cache question answer now₁ now₂,
        x ∈ cache ∨ x = storedEntry toLowerCase cache question answer now₁ now₂) ∧
    (∀ (log : List LearnedPattern) (field : FieldDescriptor) (value : JSString)
        (jobContext : Option JobContext) (now : Int),
      ∀ p ∈ learnFieldPattern log field value jobContext now,
        p ∈ log ∨ p = newPattern field value jobContext now) := by
  refine ⟨?_, ?_, ?_⟩
  · intro storage profile preferences resumeText question field now
    unfold getSmartAnswerStorage
    split_ifs <;> exact logActivity_frame _ _ _ _
  · intro cache question answer now₁ now₂ x hx
    have := mem_upsert toLowerCase cache question answer now₁ now₂ x (mem_enforceCap _ x hx)
    tauto
  · intro log field value jobContext now p hp
    unfold learnFieldPattern at hp
    dsimp only at hp
    split_ifs at hp
    · have := List.mem_of_mem_drop hp
      simpa using this
    · simpa using hp

/-- C26, as stated, fails: a lookup that hits the entry `email` leaves that
entry with its `lastUsed` 0 and `useCount` 1; only the activity feed grows. -/
theorem getSmartAnswerStorage_no_bump :
    checkQuestionCache asciiLower [entryAt0 "email" "a@b.com"] "Email".toList =
      some "a@b.com".toList ∧
    (getSmartAnswerStorage asciiLower
      { questionCache := [entryAt0 "email" "a@b.com"], learningData := [], activityFeed := [] }
      {} {} none "Email".toList {} 7).questionCache =
      [{ question := "email".toList, answer := "a@b.com".toList, addedAt := 0, lastUsed := 0,
         useCount := 1 }] ∧
    ((getSmartAnswerStorage asciiLower
      { questionCache := [entryAt0 "email" "a@b.com"], learningData := [], activityFeed := [] }
      {} {} none "Email".toList {} 7).activityFeed).length = 1 := by
  decide

/-! ## The inference gateway: failures -/

theorem failureMessage_carries {β : Type} (label : String) (response : HttpResponse β) :
    (Nat.repr response.status).toList <:+: failureMessage label response ∧
    response.statusText <:+: failureMessage label response ∧
    response.text <:+: failureMessage label response := by
  unfold failureMessage
  refine ⟨⟨label.toList, ' ' :: (response.statusText ++ (" - ".toList ++ response.text)), ?_⟩,
    ⟨label.toList ++ ((Nat.repr response.status).toList ++ [' ']),
      " - ".toList ++ response.text, ?_⟩,
    ⟨label.toList ++ ((Nat.repr response.status).toList ++
      (' ' :: (response.statusText ++ " - ".toList))), [], ?_⟩⟩ <;>
  simp [List.append_assoc]

/-- C24 (as amended): `generate` and `chat` fail with the error of the
transport when the service is unreachable, and with an error whose message
carries the upstream status, status text and body when the service answers with
a non-success HTTP status. `listModels` never fails: when the service is
unreachable, answers with a non-success status, or answers with a body that
does not parse or lacks `models`, it completes normally with the empty list. -/
theorem gateway_failures :
    (∀ message : JSString,
      generate (.rejected message) = .error (.thrown message) ∧
      chat (.rejected message) = .error (.thrown message) ∧
      listModels (.rejected message) = []) ∧
    (∀ response : HttpResponse GenerateBody, response.ok = false →
      ∃ message, generate (.resolved response) = .error (.requestFailed message) ∧
        (Nat.repr response.status).toList <:+: message ∧
        response.statusText <:+: message ∧ response.text <:+: message) ∧
    (∀ response : HttpResponse ChatBody, response.ok = false →
      ∃ message, chat (.resolved response) = .error (.requestFailed message) ∧
        (Nat.repr response.status).toList <:+: message ∧
        response.statusText <:+: message ∧ response.text <:+: message) ∧
    (∀ response : HttpResponse TagsBody,
      response.ok = false ∨ (∃ message, response.json = .error message) ∨
        (∃ data, response.json = .ok data ∧ data.models = none) →
      listModels (.resolved response) = []) := by
  refine ⟨fun message => ⟨rfl, rfl, rfl⟩, ?_, ?_, ?_⟩
  · intro response hok
    refine ⟨failureMessage "Ollama request failed: " response, ?_,
      failureMessage_carries _ response⟩
    simp [generate, hok]
  · intro response hok
    refine ⟨failureMessage "Ollama chat request failed: " response, ?_,
      failureMessage_carries _ response⟩
    simp [chat, hok]
  · intro response h
    rcases h with hok | ⟨message, hjson⟩ | ⟨data, hjson, hmodels⟩
    · simp [listModels, hok]
    · cases hb : response.ok <;> simp [listModels, hb, hjson]
    · cases hb : response.ok <;> simp [listModels, hb, hjson, hmodels]

/-- C24, as stated, fails: with the service unreachable `listModels` completes
normally with the empty list, and a body of `/api/generate` that lacks
`response` makes `generate` complete normally with `undefined`. -/
theorem listModels_unreachable_empty :
    listModels (.rejected "Failed to fetch".toList) = [] ∧
    generate (.resolved emptyBody) = .ok none :=
  ⟨rfl, rfl⟩

/-- The failures of the gateway at HTTP 503 with body `busy`: `generate` fails
with the message `Ollama request failed: 503 Service Unavailable - busy`. -/
theorem gateway_failures_witness :
    ∃ message,
      generate (.resolved unavailable) = .error (.requestFailed message) ∧
      "503".toList <:+: message ∧
      "Service Unavailable".toList <:+: message ∧ "busy".toList <:+: message :=
  gateway_failures.2.1 unavailable rfl

/-! ## The edit distance -/

theorem editStep_cons (h : Char) {a b : JSString} (s : EditStep a b) :
    EditStep (h :: a) (h :: b) := by
  cases s with
  | insertion l r c => exact EditStep.insertion (h :: l) r c
  | deletion l r c => exact EditStep.deletion (h :: l) r c
  | substitution l r c d => exact EditStep.substitution (h :: l) r c d

theorem editStep_reverse {a b : JSString} (s : EditStep a b) :
    EditStep a.reverse b.reverse := by
  cases s with
  | insertion l r c =>
    have := EditStep.insertion r.reverse l.reverse c
    simpa using this
  | deletion l r c =>
    have := EditStep.deletion r.reverse l.reverse c
    simpa using this
  | substitution l r c d =>
    have := EditStep.substitution r.reverse l.reverse c d
    simpa using this

theorem editPath_cons (h : Char) {n : Nat} {a b : JSString} (p : EditPath n a b) :
    EditPath n (h :: a) (h :: b) := by
  induction p with
  | done a => exact EditPath.done _
  | step s _ ih => exact EditPath.step (editStep_cons h s) ih

theorem editPath_reverse {n : Nat} {a b : JSString} (p : EditPath n a b) :
    EditPath n a.reverse b.reverse := by
  induction p with
  | done a => exact EditPath.done _
  | step s _ ih => exact EditPath.step (editStep_reverse s) ih

theorem editPath_snoc {n : Nat} {a b c : JSString} (p : EditPath n a b) (s : EditStep b c) :
    EditPath (n + 1) a c := by
  induction p with
  | done a => exact EditPath.step s (EditPath.done _)
  | step s' _ ih => exact EditPath.step s' (ih s)

theorem editPath_cast {n m : Nat} {a b : JSString} (p : EditPath n a b) (h : n = m) :
    EditPath m a b := h ▸ p

theorem editPath_from_nil (ys : JSString) : EditPath ys.length [] ys := by
  induction ys with
  | nil => exact EditPath.done _
  | cons y ys ih => exact EditPath.step (EditStep.insertion [] [] y) (editPath_cons y ih)

theorem editPath_to_nil (xs : JSString) : EditPath xs.length xs [] := by
  induction xs with
  | nil => exact EditPath.done _
  | cons x xs ih => exact EditPath.step (EditStep.deletion [] xs x) ih

/-- The recurrence is reached by a path of edits. -/
theorem editPath_levRec (xs ys : JSString) : EditPath (levRec xs ys) xs ys := by
  induction xs, ys using levRec.induct with
  | case1 ys => simpa [levRec] using editPath_from_nil ys
  | case2 x xs => simpa [levRec] using editPath_to_nil (x :: xs)
  | case3 xs x ys ih =>
    have h : levRec (x :: xs) (x :: ys) = levRec xs ys := by simp [levRec]
    rw [h]
    exact editPath_cons x ih
  | case4 x xs y ys hne ih1 ih2 ih3 =>
    have h : levRec (x :: xs) (y :: ys) =
        min (levRec xs ys + 1) (min (levRec (x :: xs) ys + 1) (levRec xs (y :: ys) + 1)) := by
      simp [levRec, hne]
    have hsub : EditPath (levRec xs ys + 1) (x :: xs) (y :: ys) :=
      EditPath.step (EditStep.substitution [] xs x y) (editPath_cons y ih1)
    have hins : EditPath (levRec (x :: xs) ys + 1) (x :: xs) (y :: ys) :=
      editPath_snoc ih2 (EditStep.insertion [] ys y)
    have hdel : EditPath (levRec xs (y :: ys) + 1) (x :: xs) (y :: ys) :=
      EditPath.step (EditStep.deletion [] xs x) ih3
    have hcases : levRec (x :: xs) (y :: ys) = levRec xs ys + 1 ∨
        levRec (x :: xs) (y :: ys) = levRec (x :: xs) ys + 1 ∨
        levRec (x :: xs) (y :: ys) = levRec xs (y :: ys) + 1 := by
      rw [h]
      omega
    rcases hcases with e | e | e
    · exact editPath_cast hsub e.symm
    · exact editPath_cast hins e.symm
    · exact editPath_cast hdel e.symm

theorem levRec_self (xs : JSString) : levRec xs xs = 0 := by
  induction xs with
  | nil => simp [levRec]
  | cons x xs ih => simp [levRec, ih]

theorem levRec_cons_cons (x y : Char) (xs ys : JSString) :
    levRec (x :: xs) (y :: ys) =
      if x = y then levRec xs ys
      else min (levRec xs ys + 1) (min (levRec (x :: xs) ys + 1) (levRec xs (y :: ys) + 1)) := by
  by_cases h : x = y
  · subst h
    simp [levRec]
  · simp [levRec, h]

/-- Dropping the first character of either string changes the recurrence by at
most one. -/
theorem levRec_cons_le (xs : JSString) :
    ∀ ys : JSString, (∀ y, levRec xs ys ≤ levRec xs (y :: ys) + 1) ∧
      (∀ x, levRec (x :: xs) ys ≤ levRec xs ys + 1) := by
  induction xs with
  | nil =>
    intro ys
    constructor
    · intro y
      simp only [levRec, List.length_cons]
      omega
    · intro x
      cases ys with
      | nil => simp [levRec]
      | cons y ys =>
        rw [levRec_cons_cons]
        have e1 : levRec [] ys = ys.length := by simp [levRec]
        have e2 : levRec [] (y :: ys) = ys.length + 1 := by simp [levRec]
        split_ifs <;> omega
  | cons x' xs ih =>
    have hP : ∀ (ys : JSString) (y : Char),
        levRec (x' :: xs) ys ≤ levRec (x' :: xs) (y :: ys) + 1 := by
      intro ys y
      have hR := (ih ys).2 x'
      have hP' := (ih ys).1 y
      rw [levRec_cons_cons]
      split_ifs <;> omega
    intro ys
    refine ⟨hP ys, ?_⟩
    intro x
    cases ys with
    | nil => simp [levRec]
    | cons y ys =>
      have := hP ys y
      rw [levRec_cons_cons]
      split_ifs <;> omega

theorem levRec_le_cons (x : Char) (xs ys : JSString) :
    levRec xs ys ≤ levRec (x :: xs) ys + 1 := by
  rw [levRec_comm xs ys, levRec_comm (x :: xs) ys]
  exact (levRec_cons_le ys xs).1 x

/-- Replacing the first character changes the recurrence by at most one. -/
theorem levRec_head_le (c d : Char) (r z : JSString) :
    levRec (c :: r) z ≤ levRec (d :: r) z + 1 := by
  cases z with
  | nil => simp [levRec]
  | cons y ys =>
    have h1 := levRec_le_cons d r ys
    have h2 := (levRec_cons_le r ys).1 y
    rw [levRec_cons_cons c, levRec_cons_cons d]
    split_ifs <;> omega

/-- A bound of one between two strings is kept when the same character is put
in front of both. -/
theorem levRec_lift (h : Char) (a b : JSString)
    (hab : ∀ z, levRec a z ≤ levRec b z + 1) :
    ∀ z, levRec (h :: a) z ≤ levRec (h :: b) z + 1 := by
  intro z
  induction z with
  | nil =>
    have := hab []
    rw [levRec_nil_right, levRec_nil_right] at this
    simp only [levRec_nil_right, List.length_cons]
    omega
  | cons y ys ih =>
    have h1 := hab ys
    have h2 := hab (y :: ys)
    rw [levRec_cons_cons h, levRec_cons_cons h]
    split_ifs <;> omega

/-- One edit of the first string changes the recurrence by at most one. -/
theorem levRec_step {a b : JSString} (s : EditStep a b) (z : JSString) :
    levRec a z ≤ levRec b z + 1 := by
  have key : ∀ (l : JSString) (a b : JSString), (∀ z, levRec a z ≤ levRec b z + 1) →
      ∀ z, levRec (l ++ a) z ≤ levRec (l ++ b) z + 1 := by
    intro l
    induction l with
    | nil => intro a b hab; simpa using hab
    | cons h l ih => intro a b hab; exact levRec_lift h _ _ (ih a b hab)
  cases s with
  | insertion l r c => exact key l _ _ (fun z => levRec_le_cons c r z) z
  | deletion l r c => exact key l _ _ (fun z => (levRec_cons_le r z).2 c) z
  | substitution l r c d => exact key l _ _ (fun z => levRec_head_le c d r z) z

/-- No path of edits is shorter than the recurrence. -/
theorem levRec_le_of_editPath {n : Nat} {a b : JSString} (p : EditPath n a b) :
    levRec a b ≤ n := by
  induction p with
  | done a => rw [levRec_self]
  | @step n a b c s _ ih =>
    have := levRec_step s c
    omega

theorem levRec_le_max (xs ys : JSString) : levRec xs ys ≤ max xs.length ys.length := by
  induction xs, ys using levRec.induct with
  | case1 ys => simp [levRec]
  | case2 x xs => simp [levRec]
  | case3 xs x ys ih =>
    have h : levRec (x :: xs) (x :: ys) = levRec xs ys := by simp [levRec]
    rw [h]
    simp only [List.length_cons]
    omega
  | case4 x xs y ys hne ih1 ih2 ih3 =>
    have h : levRec (x :: xs) (y :: ys) =
        min (levRec xs ys + 1) (min (levRec (x :: xs) ys + 1) (levRec xs (y :: ys) + 1)) := by
      simp [levRec, hne]
    rw [h]
    simp only [List.length_cons]
    omega

theorem levenshteinDistance_le_max (a b : JSString) :
    levenshteinDistance a b ≤ max a.length b.length := by
  rw [levenshteinDistance_eq_levRec]
  have := levRec_le_max b.reverse a.reverse
  simp only [List.length_reverse] at this
  omega

theorem calculateSimilarity_eq (a b : JSString) :
    calculateSimilarity a b =
      if a.length = 0 ∧ b.length = 0 then 1
      else (((max a.length b.length : ℕ) : ℚ) - (levenshteinDistance a b : ℚ)) /
        ((max a.length b.length : ℕ) : ℚ) := by
  unfold calculateSimilarity
  by_cases hl : a.length > b.length
  · have hmax : max a.length b.length = a.length := max_eq_left (le_of_lt hl)
    have h0 : ¬ a.length = 0 := by omega
    have h1 : ¬ (a.length = 0 ∧ b.length = 0) := fun h => h0 h.1
    rw [if_neg h1]
    simp only [hl, if_true, h0, if_false, hmax]
  · have hmax : max a.length b.length = b.length := max_eq_right (not_lt.mp hl)
    simp only [hl, if_false, hmax]
    by_cases h0 : b.length = 0
    · have h1 : a.length = 0 ∧ b.length = 0 := ⟨by omega, h0⟩
      simp only [h0, h1, if_true, and_self]
    · have h1 : ¬ (a.length = 0 ∧ b.length = 0) := fun h => h0 h.2
      rw [if_neg h1]
      simp only [h0, if_false, levenshteinDistance_comm b a]

/-- C23: for all strings `a` and `b`, `levenshteinDistance(a, b)` is the edit
distance: that many single-character insertions, deletions and substitutions
turn `a` into `b`, and no sequence of such edits that turns `a` into `b` is
shorter. `calculateSimilarity(a, b)` is 1 when both strings are empty and
`(max(|a|,|b|) - distance) / max(|a|,|b|)` otherwise; it is symmetric and lies
in `[0, 1]`. -/
theorem levenshteinDistance_is_edit_distance (a b : JSString) :
    EditPath (levenshteinDistance a b) a b ∧
    (∀ n, EditPath n a b → levenshteinDistance a b ≤ n) ∧
    calculateSimilarity a b =
      (if a.length = 0 ∧ b.length = 0 then 1
      else (((max a.length b.length : ℕ) : ℚ) - (levenshteinDistance a b : ℚ)) /
        ((max a.length b.length : ℕ) : ℚ)) ∧
    calculateSimilarity a b = calculateSimilarity b a ∧
    0 ≤ calculateSimilarity a b ∧ calculateSimilarity a b ≤ 1 := by
  have hlev : levenshteinDistance a b = levRec a.reverse b.reverse := by
    rw [levenshteinDistance_eq_levRec, levRec_comm]
  refine ⟨?_, ?_, calculateSimilarity_eq a b, ?_, ?_⟩
  · have p := editPath_reverse (editPath_levRec a.reverse b.reverse)
    rw [List.reverse_reverse, List.reverse_reverse] at p
    rw [hlev]
    exact p
  · intro n p
    rw [hlev]
    exact levRec_le_of_editPath (editPath_reverse p)
  · rw [calculateSimilarity_eq a b, calculateSimilarity_eq b a, levenshteinDistance_comm b a,
      max_comm b.length a.length]
    simp only [and_comm]
  · rw [calculateSimilarity_eq a b]
    have hle := levenshteinDistance_le_max a b
    by_cases h0 : a.length = 0 ∧ b.length = 0
    · rw [if_pos h0]
      norm_num
    · rw [if_neg h0]
      have hpos : 0 < max a.length b.length := by omega
      have hposq : (0 : ℚ) < ((max a.length b.length : ℕ) : ℚ) := by exact_mod_cast hpos
      have hleq : (levenshteinDistance a b : ℚ) ≤ ((max a.length b.length : ℕ) : ℚ) := by
        exact_mod_cast hle
      constructor
      · apply div_nonneg
        · linarith
        · exact le_of_lt hposq
      · rw [div_le_one hposq]
        have : (0 : ℚ) ≤ (levenshteinDistance a b : ℚ) := Nat.cast_nonneg _
        linarith

/-- The distance from `ab` to `b` is at most 1, by the deletion of `a`. -/
theorem levenshteinDistance_is_edit_distance_witness :
    levenshteinDistance ['a', 'b'] ['b'] ≤ 1 :=
  (levenshteinDistance_is_edit_distance ['a', 'b'] ['b']).2.1 1
    (EditPath.step (EditStep.deletion [] ['b'] 'a') (EditPath.done ['b']))

/-- C25, evaluated on the code: when the service advertises only
`deepseek-r1:14b`, the model requested is `deepseek-r1:8b`, which is neither
the default `llama3.2:3b` nor a name that the service advertises, because the
test is for the substring `deepseek-r1`. -/
theorem modelToUse_not_advertised :
    advertisesReasoning { name := some "deepseek-r1:14b".toList } = true ∧
    modelToUse (.ok [{ name := some "deepseek-r1:14b".toList }]) = "deepseek-r1:8b".toList ∧
    ([some "deepseek-r1:14b".toList] : List (Option JSString)).contains
      (some "deepseek-r1:8b".toList) = false ∧
    ("deepseek-r1:8b".toList == "llama3.2:3b".toList) = false := by
  decide

/-- The frame of the stored records, evaluated: after a lookup that hits the
entry `email` the cache is the one before, and storing the answer again gives
entries that are prior entries or the stored one. -/
theorem stored_records_frame_witness :
    (getSmartAnswerStorage asciiLower
      { questionCache := [entryAt0 "email" "a@b.com"], learningData := [], activityFeed := [] }
      {} {} none "Email".toList {} 7).questionCache = [entryAt0 "email" "a@b.com"] ∧
    (entryAt0 "phone" "555" ∈ [entryAt0 "phone" "555", entryAt0 "email" "a@b.com"] ∨
      entryAt0 "phone" "555" =
        storedEntry asciiLower [entryAt0 "phone" "555", entryAt0 "email" "a@b.com"]
          "Email".toList "c@d.com".toList 8 9) :=
  ⟨((stored_records_frame asciiLower).1 _ {} {} none "Email".toList {} 7).1,
   (stored_records_frame asciiLower).2.1
     [entryAt0 "phone" "555", entryAt0 "email" "a@b.com"] "Email".toList "c@d.com".toList 8 9
     (entryAt0 "phone" "555") (by decide)⟩

end JobApplyAI
